import Mathlib

/-
Verification development for the snurbo Discord bot (TypeScript sources).

The TypeScript sources are shallowly embedded:
  * strings are `List Char` (`Str`), with JavaScript string operations
    translated to explicit list functions;
  * `Date.now()` timestamps and durations are integers (milliseconds);
  * JavaScript `Map` objects are association lists with JS `Map` iteration
    order (insertion order, `set` of an existing key keeps its position);
  * `Math.random()` draws are explicit rational parameters in `[0,1)`,
    and `Math.floor(Math.random()*n)` index draws are `Fin n` parameters;
  * fallible code returns `Option` / `Except`.
-/

set_option maxRecDepth 4000

abbrev Str := List Char

/-- apostrophe character, used to build string literals containing it -/
def apos : Char := Char.ofNat 39

/-- opening and closing curly brace characters. -/
def lbrace : Char := Char.ofNat 123

/-- closing curly brace character. -/
def rbrace : Char := Char.ofNat 125

/- ===================== RateLimiter (src/utils/rateLimiter.ts) ============ -/

/-- RateLimitInfo from src/core/types.ts: `{count: number, resetTime: number}`. -/
structure RateLimitInfo where
  count : ℤ
  resetTime : ℤ
  deriving Repr, DecidableEq

namespace RateLimiter

/-- RateLimiter.checkLimit (src/utils/rateLimiter.ts lines 15-35), acting on the
map entry for one key.  Input: the current entry (if any), `now`, `maxRequests`,
`windowMs`; output: the boolean result and the updated entry. -/
def checkLimit (entry : Option RateLimitInfo) (now maxRequests windowMs : ℤ) :
    Bool × RateLimitInfo :=
  match entry with
  | none => (true, ⟨1, now + windowMs⟩)
  | some limit =>
    if now > limit.resetTime then
      (true, ⟨1, now + windowMs⟩)
    else if limit.count ≥ maxRequests then
      (false, limit)
    else
      (true, ⟨limit.count + 1, limit.resetTime⟩)

/-- Run `checkLimit` for one key over a list of call times, threading the
entry, and collect the boolean results. -/
def checkSeq (maxRequests windowMs : ℤ) :
    Option RateLimitInfo → List ℤ → List Bool × Option RateLimitInfo
  | st, [] => ([], st)
  | st, t :: ts =>
    let r := checkLimit st t maxRequests windowMs
    let rest := checkSeq maxRequests windowMs (some r.2) ts
    (r.1 :: rest.1, rest.2)

theorem checkSeq_cons (maxRequests windowMs : ℤ) (st : Option RateLimitInfo)
    (t : ℤ) (ts : List ℤ) :
    checkSeq maxRequests windowMs st (t :: ts) =
      ((checkLimit st t maxRequests windowMs).1 ::
        (checkSeq maxRequests windowMs
          (some (checkLimit st t maxRequests windowMs).2) ts).1,
       (checkSeq maxRequests windowMs
          (some (checkLimit st t maxRequests windowMs).2) ts).2) := rfl

/-- Within an unexpired window, from an entry with count `c ≤ maxRequests`,
the i-th further call allows iff `c + i < maxRequests`, and the count saturates
at `maxRequests`. -/
theorem checkSeq_inWindow (maxRequests windowMs R : ℤ) :
    ∀ (ts : List ℤ) (c : ℤ), c ≤ maxRequests → (∀ t ∈ ts, ¬ (t > R)) →
    checkSeq maxRequests windowMs (some ⟨c, R⟩) ts =
      ((List.range ts.length).map (fun i : ℕ => decide (c + (i : ℤ) < maxRequests)),
       some ⟨min (c + ts.length) maxRequests, R⟩) := by
  intro ts
  induction ts with
  | nil =>
    intro c hc _
    simp [checkSeq, min_eq_left hc]
  | cons t ts ih =>
    intro c hc hts
    have hR : ¬ (t > R) := hts t (by simp)
    by_cases hcnt : c ≥ maxRequests
    · have hceq : c = maxRequests := le_antisymm hc hcnt
      rw [checkSeq_cons]
      have h1 : checkLimit (some ⟨c, R⟩) t maxRequests windowMs = (false, ⟨c, R⟩) := by
        simp [checkLimit, hR, hcnt]
      rw [h1]
      have h2 := ih c hc (fun u hu => hts u (List.mem_cons_of_mem _ hu))
      rw [h2, Prod.ext_iff]
      refine ⟨?_, ?_⟩
      · rw [List.length_cons, List.range_succ_eq_map]
        simp only [List.map_cons, List.map_map]
        rw [List.cons_eq_cons]
        refine ⟨?_, ?_⟩
        · symm
          simp only [Nat.cast_zero, add_zero, decide_eq_false_iff_not, not_lt]
          omega
        · apply List.map_congr_left
          intro i _
          simp only [Function.comp_apply]
          rw [decide_eq_decide]
          push_cast
          omega
      · simp only [List.length_cons, Option.some.injEq, RateLimitInfo.mk.injEq]
        refine ⟨?_, trivial⟩
        push_cast
        omega
    · push_neg at hcnt
      rw [checkSeq_cons]
      have h1 : checkLimit (some ⟨c, R⟩) t maxRequests windowMs =
          (true, ⟨c + 1, R⟩) := by
        simp [checkLimit, hR, not_le.mpr hcnt]
      rw [h1]
      have h2 := ih (c + 1) (by omega) (fun u hu => hts u (List.mem_cons_of_mem _ hu))
      rw [h2, Prod.ext_iff]
      refine ⟨?_, ?_⟩
      · rw [List.length_cons, List.range_succ_eq_map]
        simp only [List.map_cons, List.map_map]
        rw [List.cons_eq_cons]
        refine ⟨?_, ?_⟩
        · symm
          simp only [Nat.cast_zero, add_zero, decide_eq_true_eq]
          omega
        · apply List.map_congr_left
          intro i _
          simp only [Function.comp_apply]
          rw [decide_eq_decide]
          push_cast
          omega
      · simp only [List.length_cons, Option.some.injEq, RateLimitInfo.mk.injEq]
        refine ⟨?_, trivial⟩
        push_cast
        omega

end RateLimiter

/-- C1: starting from an empty (or expired) entry, with `1 ≤ max`, the sequence
of `checkLimit` results over calls at `t0` and later times all within the
window `t0 + windowMs` is: allow for the first `max` calls, deny for every
further call; and a call strictly after the window end recreates the entry
with count 1 and allows. -/
theorem rateLimiter_window_allows_exactly_max
    (maxRequests windowMs t0 : ℤ) (ts : List ℤ)
    (hmax : 1 ≤ maxRequests)
    (hin : ∀ t ∈ ts, t ≤ t0 + windowMs) :
    (RateLimiter.checkSeq maxRequests windowMs none (t0 :: ts)).1 =
      (List.range (ts.length + 1)).map (fun i : ℕ => decide ((i : ℤ) < maxRequests))
    ∧ ∀ tLate, t0 + windowMs < tLate →
        RateLimiter.checkLimit
          (RateLimiter.checkSeq maxRequests windowMs none (t0 :: ts)).2
          tLate maxRequests windowMs = (true, ⟨1, tLate + windowMs⟩) := by
  have h0 : RateLimiter.checkLimit none t0 maxRequests windowMs =
      (true, ⟨1, t0 + windowMs⟩) := rfl
  rw [RateLimiter.checkSeq_cons, h0]
  have hrest := RateLimiter.checkSeq_inWindow maxRequests windowMs (t0 + windowMs)
    ts 1 hmax (by intro t ht; exact not_lt.mpr (hin t ht))
  rw [hrest]
  constructor
  · rw [List.range_succ_eq_map]
    simp only [List.map_cons, List.map_map]
    rw [List.cons_eq_cons]
    refine ⟨?_, ?_⟩
    · symm
      simp only [Nat.cast_zero, decide_eq_true_eq]
      omega
    · apply List.map_congr_left
      intro i _
      simp only [Function.comp_apply]
      rw [decide_eq_decide]
      push_cast
      omega
  · intro tLate hlate
    simp only []
    have : tLate > (RateLimitInfo.mk (min (1 + ts.length) maxRequests) (t0 + windowMs)).resetTime := hlate
    simp [RateLimiter.checkLimit, this]

/-- Witness for C1 at `max = 2`, window 60000 ms, calls at 0, 10, 20, 30 and a
late call at 70000. -/
theorem rateLimiter_window_allows_exactly_max_witness :
    (RateLimiter.checkSeq 2 60000 none ([0, 10, 20, 30] : List ℤ)).1 =
      [true, true, false, false]
    ∧ RateLimiter.checkLimit
        (RateLimiter.checkSeq 2 60000 none ([0, 10, 20, 30] : List ℤ)).2
        70000 2 60000 = (true, ⟨1, 130000⟩) := by
  have h := rateLimiter_window_allows_exactly_max 2 60000 0 [10, 20, 30]
    (by norm_num) (by intro t ht; fin_cases ht <;> norm_num)
  refine ⟨?_, ?_⟩
  · rw [h.1]
    rfl
  · exact h.2 70000 (by norm_num)

/- ===================== String utilities ================================= -/

/-- JS `\w` word character class: `[A-Za-z0-9_]`. -/
def isWordCh (c : Char) : Bool :=
  (('a' ≤ c && c ≤ 'z') || ('A' ≤ c && c ≤ 'Z') || ('0' ≤ c && c ≤ '9') || c = '_')

/-- JS `\s` whitespace class (ASCII part: space, tab, newline, carriage
return, vertical tab, form feed). -/
def isSpaceCh (c : Char) : Bool :=
  (c = ' ' || c = '\t' || c = '\n' || c = '\r' || c = Char.ofNat 11 || c = Char.ofNat 12)

/-- JS `String.prototype.toLowerCase` (ASCII range). -/
def toLowerStr (s : Str) : Str := s.map Char.toLower

/-- pattern `p` is a prefix of `s` (decidable, by scanning). -/
def startsWithStr : Str → Str → Bool
  | [], _ => true
  | _ :: _, [] => false
  | p :: ps, c :: cs => p = c && startsWithStr ps cs

/-- JS `String.prototype.includes(pat)`: `pat` occurs as a substring. -/
def containsSub (pat : Str) : Str → Bool
  | [] => decide (pat = [])
  | c :: cs => startsWithStr pat (c :: cs) || containsSub pat cs

/-- JS `String.prototype.endsWith(pat)`. -/
def endsWithStr (pat s : Str) : Bool := startsWithStr pat.reverse s.reverse

/-- index of the first occurrence of `pat` in `s` (JS `indexOf`), if any. -/
def idxOfSub (pat : Str) : Str → Option ℕ
  | [] => if pat = [] then some 0 else none
  | c :: cs =>
    if startsWithStr pat (c :: cs) then some 0
    else (idxOfSub pat cs).map (· + 1)

/-- JS `String.prototype.replace(pat, repl)` with a plain-string pattern:
replaces the first occurrence only. -/
def replaceFirst (pat repl s : Str) : Str :=
  match idxOfSub pat s with
  | none => s
  | some i => s.take i ++ repl ++ s.drop (i + pat.length)

/-- JS `String.prototype.trim()`. -/
def trimStr (s : Str) : Str :=
  ((s.dropWhile isSpaceCh).reverse.dropWhile isSpaceCh).reverse

theorem dropWhileLenLe {α : Type} (p : α → Bool) :
    ∀ l : List α, (l.dropWhile p).length ≤ l.length := by
  intro l
  induction l with
  | nil => simp [List.dropWhile]
  | cons a tl ih =>
    by_cases h : p a
    · rw [List.dropWhile_cons_of_pos h]
      simp only [List.length_cons]
      omega
    · rw [List.dropWhile_cons_of_neg (by simpa using h)]

/-- JS `str.split(regexp)` where the regexp is a character class with `+`
(e.g. `/\\s+/`, `/[.!?]+/`): maximal runs of class characters separate the
pieces; leading/trailing runs produce empty pieces.  `acc` holds the current
piece reversed; `inRun` records that the previous character was a separator
(so further separator characters extend the same run). -/
def splitRunsGo (p : Char → Bool) : Bool → Str → Str → List Str
  | _, acc, [] => [acc.reverse]
  | inRun, acc, c :: cs =>
    if p c then
      if inRun then splitRunsGo p true [] cs
      else acc.reverse :: splitRunsGo p true [] cs
    else splitRunsGo p false (c :: acc) cs

/-- JS `str.split(/class+/)`. -/
def splitRuns (p : Char → Bool) (s : Str) : List Str :=
  splitRunsGo p false [] s

/-- collapse each maximal run of `\s` characters to a single space
(JS `.replace(/\s+/g, " ")`).  `prevSpace` records that the previous
character was whitespace (already emitted as the run's single space). -/
def collapseWsGo : Bool → Str → Str
  | _, [] => []
  | prevSpace, c :: cs =>
    if isSpaceCh c then
      if prevSpace then collapseWsGo true cs
      else ' ' :: collapseWsGo true cs
    else c :: collapseWsGo false cs

/-- JS `.replace(/\s+/g, " ")`. -/
def collapseWs (s : Str) : Str := collapseWsGo false s

/- ===================== MessageUtils (src/utils/helpers.ts) =============== -/

namespace MessageUtils

/-- stop-word list of MessageUtils.extractKeywords. -/
def stopWords : List Str :=
  ["this".toList, "that".toList, "with".toList, "from".toList, "they".toList,
   "been".toList, "have".toList, "were".toList, "said".toList, "each".toList,
   "which".toList, "their".toList, "time".toList, "will".toList, "about".toList,
   "would".toList, "there".toList, "could".toList, "other".toList, "more".toList,
   "very".toList, "what".toList, "know".toList, "just".toList, "first".toList,
   "into".toList, "over".toList, "think".toList, "also".toList, "your".toList,
   "work".toList, "life".toList, "only".toList, "can".toList, "still".toList,
   "should".toList, "after".toList, "being".toList, "now".toList, "made".toList,
   "before".toList]

/-- MessageUtils.extractKeywords (src/utils/helpers.ts lines 2-54):
lowercase, delete every character outside `[\w\s]`, split on `\s+`, keep
words longer than 3 characters that are not stop words. -/
def extractKeywords (text : Str) : List Str :=
  let words :=
    (splitRuns isSpaceCh
        ((toLowerStr text).filter (fun c => isWordCh c || isSpaceCh c))).filter
      (fun w => w.length > 3)
  words.filter (fun w => ¬ stopWords.contains w)

/-- MessageUtils.calculateSimilarity (src/utils/helpers.ts lines 56-69):
keyword-set overlap divided by the size of the larger keyword set
(0 when either keyword list is empty). -/
def calculateSimilarity (text1 text2 : Str) : ℚ :=
  let keywords1 := extractKeywords text1
  let keywords2 := extractKeywords text2
  if keywords1 = [] ∨ keywords2 = [] then 0
  else
    let set1 := keywords1.dedup
    let set2 := keywords2.dedup
    let inter := set1.filter (fun x => set2.contains x)
    (inter.length : ℚ) / max set1.length set2.length

/-- code-topic keyword list of MessageUtils.isCodeRelated. -/
def codeKeywords : List Str :=
  ["function".toList, "variable".toList, "array".toList, "object".toList,
   "class".toList, "method".toList, "algorithm".toList, "code".toList,
   "programming".toList, "script".toList, "syntax".toList, "debug".toList,
   "compile".toList, "runtime".toList, "api".toList, "database".toList,
   "framework".toList, "library".toList]

/-- MessageUtils.isCodeRelated (src/utils/helpers.ts lines 71-95). -/
def isCodeRelated (text : Str) : Bool :=
  codeKeywords.any (fun keyword => containsSub keyword (toLowerStr text))

end MessageUtils

/- ===================== ResponseCache (src/services/ai/responseCache.ts) == -/

/-- CacheEntry of responseCache.ts: `{response, timestamp, similarity}`. -/
structure CacheEntry where
  response : Str
  timestamp : ℤ
  similarity : ℚ
  deriving Repr, DecidableEq

/-- the private `cache` Map of ResponseCache, in JS `Map` insertion order. -/
abbrev Cache := List (Str × CacheEntry)

namespace ResponseCache

/-- TTL of the response cache: 10 minutes in milliseconds. -/
def TTL : ℤ := 10 * 60 * 1000

/-- maximum entry count of the response cache. -/
def MAX_ENTRIES : ℕ := 100

/-- fuzzy-lookup similarity threshold. -/
def SIMILARITY_THRESHOLD : ℚ := 8 / 10

/-- JS `Map.prototype.get`. -/
def mapGet : Cache → Str → Option CacheEntry
  | [], _ => none
  | (k0, v0) :: rest, k => if k0 = k then some v0 else mapGet rest k

/-- JS `Map.prototype.set`: overwrite in place if the key exists (keeping its
iteration position), else append. -/
def mapSet : Cache → Str → CacheEntry → Cache
  | [], k, v => [(k, v)]
  | (k0, v0) :: rest, k, v =>
    if k0 = k then (k, v) :: rest else (k0, v0) :: mapSet rest k v

/-- ResponseCache.getKey (responseCache.ts lines 15-22): lowercase, map every
character outside `[\w\s]` to a space, collapse whitespace, trim, then append
`"-" ++ userId`. -/
def normalizeMsg (message : Str) : Str :=
  trimStr (collapseWs ((toLowerStr message).map
    (fun c => if isWordCh c || isSpaceCh c then c else ' ')))

/-- cache key `normalized ++ "-" ++ userId`. -/
def getKey (message userId : Str) : Str := normalizeMsg message ++ '-' :: userId

/-- ResponseCache.cleanup (responseCache.ts lines 80-97): drop entries older
than TTL; when forced and still over capacity, drop the oldest entries (by
timestamp, JS stable sort) down to capacity. -/
def cleanup (force : Bool) (now : ℤ) (cache : Cache) : Cache :=
  let afterExpired := cache.filter (fun e => ¬ (now - e.2.timestamp > TTL))
  if force ∧ afterExpired.length > MAX_ENTRIES then
    let sorted := afterExpired.mergeSort (fun a b => a.2.timestamp ≤ b.2.timestamp)
    let toRemove := sorted.take (afterExpired.length - MAX_ENTRIES)
    afterExpired.filter (fun e => ¬ (toRemove.map Prod.fst).contains e.1)
  else afterExpired

/-- ResponseCache.findSimilarResponse (responseCache.ts lines 37-55). -/
def findSimilarResponse (message userId : Str) (now : ℤ) (cache : Cache) :
    Option Str :=
  let userEntries :=
    (cache.filter (fun e => endsWithStr ('-' :: userId) e.1)).filter
      (fun e => now - e.2.timestamp < TTL)
  (userEntries.find? (fun e =>
      MessageUtils.calculateSimilarity message (replaceFirst ('-' :: userId) [] e.1)
        ≥ SIMILARITY_THRESHOLD)).map
    (fun e => e.2.response)

/-- ResponseCache.get (responseCache.ts lines 24-35): lazy cleanup, exact-key
lookup with TTL check, then fuzzy fallback.  Returns the result and the cache
after the lazy cleanup. -/
def get (message userId : Str) (now : ℤ) (cache : Cache) :
    Option Str × Cache :=
  let c1 := cleanup false now cache
  let key := getKey message userId
  match mapGet c1 key with
  | some cached =>
    if now - cached.timestamp < TTL then (some cached.response, c1)
    else (findSimilarResponse message userId now c1, c1)
  | none => (findSimilarResponse message userId now c1, c1)

/-- ResponseCache.calculateMessageComplexity (responseCache.ts lines 72-78). -/
def calculateMessageComplexity (message : Str) : ℚ :=
  let baseScore := min ((message.length : ℚ) / 100) 1
  let hasQuestion : ℚ := if containsSub ['?'] message then 2 / 10 else 0
  let hasCode : ℚ := if MessageUtils.isCodeRelated message then 3 / 10 else 0
  min (baseScore + hasQuestion + hasCode) 1

/-- ResponseCache.set (responseCache.ts lines 57-70). -/
def set (message userId response : Str) (now : ℤ) (cache : Cache) : Cache :=
  let key := getKey message userId
  let similarity := calculateMessageComplexity message
  let c1 := mapSet cache key ⟨response, now, similarity⟩
  if c1.length > MAX_ENTRIES then cleanup true now c1 else c1

end ResponseCache

/-- Fuzzy lookup over a cache whose entries are all TTL-expired finds
nothing. -/
theorem findSimilar_of_expired (m u : Str) (now : ℤ) (c : Cache)
    (hall : ∀ e ∈ c, ¬ (now - e.2.timestamp < ResponseCache.TTL)) :
    ResponseCache.findSimilarResponse m u now c = none := by
  unfold ResponseCache.findSimilarResponse
  have h2 : (c.filter (fun e => endsWithStr (('-') :: u) e.1)).filter
      (fun e => now - e.2.timestamp < ResponseCache.TTL) = [] := by
    rw [List.filter_eq_nil_iff]
    intro e he
    have := (List.mem_filter.mp he).1
    simpa using hall e this
  rw [h2]
  rfl

/-- C3: from an empty cache, `set(m,u,r)` at time `t` followed by `get(m,u)`
at time `now` returns exactly `r` while `now - t < TTL`, and returns `null`
(never the stale value) once the TTL has elapsed (`now - t ≥ TTL`). -/
theorem responseCache_roundtrip_ttl (m u r : Str) (t now : ℤ) :
    (now - t < ResponseCache.TTL →
      (ResponseCache.get m u now (ResponseCache.set m u r t [])).1 = some r)
    ∧ (ResponseCache.TTL ≤ now - t →
      (ResponseCache.get m u now (ResponseCache.set m u r t [])).1 = none) := by
  constructor
  · intro h
    have hkeep : now ≤ ResponseCache.TTL + t := by omega
    simp [ResponseCache.get, ResponseCache.set, ResponseCache.cleanup,
          ResponseCache.mapSet, ResponseCache.mapGet, ResponseCache.MAX_ENTRIES,
          List.filter, hkeep, h]
  · intro h
    by_cases hkeep : now ≤ ResponseCache.TTL + t
    · have hlt : ¬ (now - t < ResponseCache.TTL) := by omega
      have hfs := findSimilar_of_expired m u now
        [(ResponseCache.getKey m u,
          CacheEntry.mk r t (ResponseCache.calculateMessageComplexity m))]
        (by intro e he
            simp only [List.mem_singleton] at he
            subst he
            simpa using hlt)
      simp [ResponseCache.get, ResponseCache.set, ResponseCache.cleanup,
            ResponseCache.mapSet, ResponseCache.mapGet, ResponseCache.MAX_ENTRIES,
            List.filter, hkeep, hlt, hfs]
    · have hfs := findSimilar_of_expired m u now ([] : Cache) (by intro e he; cases he)
      simp [ResponseCache.get, ResponseCache.set, ResponseCache.cleanup,
            ResponseCache.mapSet, ResponseCache.mapGet, ResponseCache.MAX_ENTRIES,
            List.filter, hkeep, hfs]

/-- Witness for C3: a concrete set/get round trip inside the TTL and one
after the TTL. -/
theorem responseCache_roundtrip_ttl_witness :
    (ResponseCache.get ("hello world".toList) ("42".toList) 1000
        (ResponseCache.set ("hello world".toList) ("42".toList) ("resp".toList) 0 [])).1
      = some ("resp".toList)
    ∧ (ResponseCache.get ("hello world".toList) ("42".toList) 700000
        (ResponseCache.set ("hello world".toList) ("42".toList) ("resp".toList) 0 [])).1
      = none := by
  constructor
  · exact (responseCache_roundtrip_ttl ("hello world".toList) ("42".toList)
      ("resp".toList) 0 1000).1 (by norm_num [ResponseCache.TTL])
  · exact (responseCache_roundtrip_ttl ("hello world".toList) ("42".toList)
      ("resp".toList) 0 700000).2 (by norm_num [ResponseCache.TTL])

/- ============ ConversationManager (src/services/conversation/...) ======== -/

/-- message role of ConversationMessage. -/
inductive Role where
  | user
  | assistant
  deriving Repr, DecidableEq

/-- ConversationMessage from src/core/types.ts. -/
structure ConversationMessage where
  content : Str
  role : Role
  timestamp : ℤ
  userId : Str
  deriving Repr, DecidableEq

/-- communicationStyle values of UserProfile. -/
inductive CommStyle where
  | casual
  | formal
  | technical
  deriving Repr, DecidableEq

/-- UserProfile from src/core/types.ts. -/
structure UserProfile where
  name : Str
  preferredTopics : List Str
  communicationStyle : CommStyle
  lastSeen : ℤ
  deriving Repr, DecidableEq

/-- ConversationContext from src/core/types.ts (threadContext omitted; it is
never read by the operations verified here). -/
structure ConversationContext where
  userId : Str
  channelId : Str
  messages : List ConversationMessage
  lastInteraction : ℤ
  userProfile : UserProfile
  deriving Repr, DecidableEq

/-- JS `arr.slice(-n)`: the last `n` elements — except that `slice(-0)` is
`slice(0)`, the whole array. -/
def jsSliceNeg {α : Type} (n : ℕ) (l : List α) : List α :=
  if n = 0 then l else l.rtake n

namespace ConversationManager

/-- ConversationManager.createNewContext (conversationManager.ts lines 63-79). -/
def createNewContext (userId channelId : Str) (now : ℤ) : ConversationContext :=
  ⟨userId, channelId, [], now, ⟨[], [], CommStyle.casual, now⟩⟩

/-- test of `/please|thank you|could you|would you|sir|ma'am/i`. -/
def formalWordsTest (message : Str) : Bool :=
  (["please".toList, "thank you".toList, "could you".toList, "would you".toList,
    "sir".toList, "ma".toList ++ [apos] ++ "am".toList]).any
    (fun w => containsSub w (toLowerStr message))

/-- test of `/yeah|yep|nah|lol|haha|omg|wtf|brb/i`. -/
def casualWordsTest (message : Str) : Bool :=
  (["yeah".toList, "yep".toList, "nah".toList, "lol".toList, "haha".toList,
    "omg".toList, "wtf".toList, "brb".toList]).any
    (fun w => containsSub w (toLowerStr message))

/-- test of `/function|variable|array|object|code|programming|debug/i`. -/
def technicalWordsTest (message : Str) : Bool :=
  (["function".toList, "variable".toList, "array".toList, "object".toList,
    "code".toList, "programming".toList, "debug".toList]).any
    (fun w => containsSub w (toLowerStr message))

/-- topic keyword vocabulary of ConversationManager.extractTopics. -/
def topicKeywords : List Str :=
  ["gaming".toList, "games".toList, "music".toList, "movies".toList,
   "programming".toList, "coding".toList, "art".toList, "sports".toList,
   "food".toList, "travel".toList, "books".toList, "anime".toList,
   "manga".toList, "technology".toList, "science".toList, "politics".toList,
   "history".toList, "philosophy".toList, "fitness".toList, "cooking".toList]

/-- ConversationManager.extractTopics (conversationManager.ts lines 114-140). -/
def extractTopics (message : Str) : List Str :=
  topicKeywords.filter (fun keyword => containsSub keyword (toLowerStr message))

/-- ConversationManager.updateUserProfile (conversationManager.ts lines
81-112). -/
def updateUserProfile (profile : UserProfile) (message : Str) (now : ℤ) :
    UserProfile :=
  let style :=
    if technicalWordsTest message then CommStyle.technical
    else if formalWordsTest message ∧ ¬ casualWordsTest message then CommStyle.formal
    else CommStyle.casual
  let newTopics :=
    (extractTopics message).foldl
      (fun acc topic =>
        if ¬ acc.contains topic ∧ acc.length < 10 then acc ++ [topic] else acc)
      profile.preferredTopics
  ⟨profile.name, newTopics, style, now⟩

/-- ConversationManager.updateContext (conversationManager.ts lines 34-61):
append the user turn and the bot turn, trim with `slice(-maxContextMessages)`
when over the cap, then recompute the profile. -/
def updateContext (maxContextMessages : ℕ) (ctx : ConversationContext)
    (userMessage botResponse : Str) (now : ℤ) : ConversationContext :=
  let m1 := ctx.messages ++
    [⟨userMessage, Role.user, now, ctx.userId⟩,
     ⟨botResponse, Role.assistant, now, "bot".toList⟩]
  let m2 := if m1.length > maxContextMessages then jsSliceNeg maxContextMessages m1 else m1
  ⟨ctx.userId, ctx.channelId, m2, now,
   updateUserProfile ctx.userProfile userMessage now⟩

/-- the message-list trimming step of `updateContext`. -/
def capTrim (maxContextMessages : ℕ) (l : List ConversationMessage) :
    List ConversationMessage :=
  if l.length > maxContextMessages then jsSliceNeg maxContextMessages l else l

/-- the two appended turns of one `updateContext` call. -/
def turnPair (userId : Str) (turn : Str × Str × ℤ) : List ConversationMessage :=
  [⟨turn.1, Role.user, turn.2.2, userId⟩,
   ⟨turn.2.1, Role.assistant, turn.2.2, "bot".toList⟩]

end ConversationManager

theorem rtake_append_rtake {α : Type} (m : ℕ) (a b : List α) :
    (List.rtake a m ++ b).rtake m = (a ++ b).rtake m := by
  have hmin : min (m - b.length) m = m - b.length :=
    Nat.min_eq_left (Nat.sub_le m b.length)
  simp only [List.rtake_eq_reverse_take_reverse, List.reverse_append,
    List.reverse_reverse, List.take_append_eq_append_take, List.take_take,
    List.length_reverse, hmin]

theorem rtake_length_le {α : Type} (m : ℕ) (l : List α) :
    (List.rtake l m).length ≤ m := by
  simp only [List.rtake_eq_reverse_take_reverse, List.length_reverse,
    List.length_take]
  omega

theorem capTrim_length_le (maxC : ℕ) (hm : 0 < maxC)
    (l : List ConversationMessage) :
    (ConversationManager.capTrim maxC l).length ≤ maxC := by
  unfold ConversationManager.capTrim jsSliceNeg
  by_cases h : l.length > maxC
  · rw [if_pos h, if_neg (by omega : ¬ maxC = 0)]
    exact rtake_length_le maxC l
  · rw [if_neg h]
    omega

theorem capTrim_absorb (maxC : ℕ) (hm : 0 < maxC)
    (a b : List ConversationMessage) :
    ConversationManager.capTrim maxC (ConversationManager.capTrim maxC a ++ b) =
      ConversationManager.capTrim maxC (a ++ b) := by
  have hne : ¬ maxC = 0 := by omega
  unfold ConversationManager.capTrim jsSliceNeg
  by_cases ha : a.length > maxC
  · rw [if_pos ha, if_neg hne]
    have hlenrt : (a.rtake maxC).length = maxC := by
      simp only [List.rtake_eq_reverse_take_reverse, List.length_reverse,
        List.length_take]
      omega
    by_cases hb : b = []
    · subst hb
      have h1 : ¬ ((a.rtake maxC ++ ([] : List ConversationMessage)).length > maxC) := by
        simp only [List.append_nil, hlenrt]
        omega
      have h2 : (a ++ ([] : List ConversationMessage)).length > maxC := by
        simpa using ha
      rw [if_neg h1, if_pos h2, if_neg hne]
      simp only [List.append_nil]
    · have hbpos : 0 < b.length := List.length_pos.mpr hb
      have h1 : (a.rtake maxC ++ b).length > maxC := by
        simp only [List.length_append, hlenrt]
        omega
      have h2 : (a ++ b).length > maxC := by
        simp only [List.length_append]
        omega
      rw [if_pos h1, if_neg hne, if_pos h2, if_neg hne]
      exact rtake_append_rtake maxC a b
  · rw [if_neg ha]

/-- folding `updateContext` only touches the messages field through
`capTrim (· ++ turnPair ·)`. -/
theorem updateContext_messages_fold (maxC : ℕ)
    (turns : List (Str × Str × ℤ)) :
    ∀ (ctx : ConversationContext),
    ((turns.foldl
        (fun c tr => ConversationManager.updateContext maxC c tr.1 tr.2.1 tr.2.2)
        ctx).messages, (turns.foldl
        (fun c tr => ConversationManager.updateContext maxC c tr.1 tr.2.1 tr.2.2)
        ctx).userId) =
      (turns.foldl
        (fun ms tr => ConversationManager.capTrim maxC
          (ms ++ ConversationManager.turnPair ctx.userId tr)) ctx.messages,
       ctx.userId) := by
  induction turns with
  | nil => intro ctx; rfl
  | cons tr rest ih =>
    intro ctx
    simp only [List.foldl_cons]
    have := ih (ConversationManager.updateContext maxC ctx tr.1 tr.2.1 tr.2.2)
    rw [this]
    rfl

theorem capTrim_fold (maxC : ℕ) (hm : 0 < maxC) (uid : Str) :
    ∀ (turns : List (Str × Str × ℤ)) (ms : List ConversationMessage),
    ms.length ≤ maxC →
    turns.foldl
      (fun acc tr => ConversationManager.capTrim maxC
        (acc ++ ConversationManager.turnPair uid tr)) ms =
    ConversationManager.capTrim maxC
      (ms ++ (turns.map (ConversationManager.turnPair uid)).flatten) := by
  intro turns
  induction turns with
  | nil =>
    intro ms hms
    simp only [List.foldl_nil, List.map_nil, List.flatten_nil, List.append_nil]
    unfold ConversationManager.capTrim
    have : ¬ (ms.length > maxC) := by omega
    simp [this]
  | cons tr rest ih =>
    intro ms hms
    simp only [List.foldl_cons, List.map_cons, List.flatten_cons]
    rw [ih _ (capTrim_length_le maxC hm _)]
    rw [capTrim_absorb maxC hm]
    rw [List.append_assoc]

/-- C2: starting from a fresh context, after any sequence of `updateContext`
calls with a positive cap the stored history is exactly the newest
`maxContextMessages` of all appended turns, in order, and in particular never
exceeds the cap. -/
theorem conversation_history_capped (maxC : ℕ) (hm : 0 < maxC)
    (uid cid : Str) (t0 : ℤ) (turns : List (Str × Str × ℤ)) :
    ((turns.foldl
        (fun c tr => ConversationManager.updateContext maxC c tr.1 tr.2.1 tr.2.2)
        (ConversationManager.createNewContext uid cid t0)).messages =
      ConversationManager.capTrim maxC
        ((turns.map (ConversationManager.turnPair uid)).flatten))
    ∧ (turns.foldl
        (fun c tr => ConversationManager.updateContext maxC c tr.1 tr.2.1 tr.2.2)
        (ConversationManager.createNewContext uid cid t0)).messages.length ≤ maxC := by
  have h1 := updateContext_messages_fold maxC turns
    (ConversationManager.createNewContext uid cid t0)
  have h1m := congrArg Prod.fst h1
  simp only [ConversationManager.createNewContext] at h1m ⊢
  have h2 := capTrim_fold maxC hm uid turns [] (by simp)
  rw [h1m, h2]
  simp only [List.nil_append]
  exact ⟨trivial, capTrim_length_le maxC hm _⟩

/-- Witness for C2: cap 4, three turns of two messages each — exactly the
newest four messages remain, in order. -/
theorem conversation_history_capped_witness :
    0 < 4
    ∧ ((([(("u1".toList : Str), ("b1".toList : Str), (10 : ℤ)),
          ("u2".toList, "b2".toList, 20),
          ("u3".toList, "b3".toList, 30)] : List (Str × Str × ℤ)).foldl
        (fun c tr => ConversationManager.updateContext 4 c tr.1 tr.2.1 tr.2.2)
        (ConversationManager.createNewContext ("alice".toList) ("chan".toList) 0)).messages =
      [⟨"u2".toList, Role.user, 20, "alice".toList⟩,
       ⟨"b2".toList, Role.assistant, 20, "bot".toList⟩,
       ⟨"u3".toList, Role.user, 30, "alice".toList⟩,
       ⟨"b3".toList, Role.assistant, 30, "bot".toList⟩]) := by
  refine ⟨by norm_num, ?_⟩
  have h := conversation_history_capped 4 (by norm_num) ("alice".toList)
    ("chan".toList) 0
    [("u1".toList, "b1".toList, 10), ("u2".toList, "b2".toList, 20),
     ("u3".toList, "b3".toList, 30)]
  rw [h.1]
  rfl

/- ===================== C6: similarity fallback =========================== -/

/-- Spec-side definition (for comparison with the code): Jaccard similarity
of the non-stopword keyword sets of two texts — intersection over union. -/
def jaccardKeywordSimilarity (text1 text2 : Str) : ℚ :=
  let K1 := (MessageUtils.extractKeywords text1).toFinset
  let K2 := (MessageUtils.extractKeywords text2).toFinset
  if (K1 ∪ K2).card = 0 then 0
  else ((K1 ∩ K2).card : ℚ) / ((K1 ∪ K2).card : ℚ)

theorem startsWithStr_self_append (p x : Str) :
    startsWithStr p (p ++ x) = true := by
  induction p with
  | nil => rfl
  | cons c cs ih => simp [startsWithStr, ih]

theorem endsWithStr_append_self (a p : Str) :
    endsWithStr p (a ++ p) = true := by
  unfold endsWithStr
  rw [List.reverse_append]
  exact startsWithStr_self_append p.reverse a.reverse

theorem idxOfSub_hyphen (u : Str) :
    ∀ (a : Str), '-' ∉ a →
      idxOfSub ('-' :: u) (a ++ '-' :: u) = some a.length := by
  intro a
  induction a with
  | nil =>
    intro _
    have hs : startsWithStr ('-' :: u) ('-' :: u) = true := by
      have := startsWithStr_self_append ('-' :: u) []
      simpa using this
    simp only [List.nil_append, List.length_nil]
    rw [idxOfSub, if_pos hs]
  | cons c cs ih =>
    intro hc
    have hcne : ¬ (('-' : Char) = c) := by
      intro h
      exact hc (h ▸ List.mem_cons_self c cs)
    have hsw : ¬ (startsWithStr ('-' :: u) (c :: (cs ++ '-' :: u)) = true) := by
      simp [startsWithStr, hcne]
    rw [List.cons_append, idxOfSub, if_neg hsw,
      ih (fun h => hc (List.mem_cons_of_mem c h))]
    rfl

theorem replaceFirst_hyphen (u a : Str) (ha : '-' ∉ a) :
    replaceFirst ('-' :: u) [] (a ++ '-' :: u) = a := by
  unfold replaceFirst
  rw [idxOfSub_hyphen u a ha]
  show (a ++ '-' :: u).take a.length ++ [] ++
      (a ++ '-' :: u).drop (a.length + ('-' :: u).length) = a
  have h1 : (a ++ '-' :: u).take a.length = a := by
    rw [List.take_left' rfl]
  have h2 : (a ++ '-' :: u).drop (a.length + ('-' :: u).length) = [] := by
    apply List.drop_eq_nil_of_le
    simp
  rw [h1, h2]
  simp

theorem mem_collapseWsGo (c : Char) :
    ∀ (s : Str) (prev : Bool), c ∈ collapseWsGo prev s → c = ' ' ∨ c ∈ s := by
  intro s
  induction s with
  | nil =>
    intro prev hc
    rw [collapseWsGo] at hc
    cases hc
  | cons d ds ih =>
    intro prev hc
    rw [collapseWsGo] at hc
    by_cases hd : isSpaceCh d
    · rw [if_pos hd] at hc
      by_cases hp : prev
      · rw [if_pos hp] at hc
        rcases ih true hc with h | h
        · exact Or.inl h
        · exact Or.inr (List.mem_cons_of_mem d h)
      · rw [if_neg hp] at hc
        rcases List.mem_cons.mp hc with h | h
        · exact Or.inl h
        · rcases ih true h with h1 | h1
          · exact Or.inl h1
          · exact Or.inr (List.mem_cons_of_mem d h1)
    · rw [if_neg hd] at hc
      rcases List.mem_cons.mp hc with h | h
      · exact Or.inr (h ▸ List.mem_cons_self d ds)
      · rcases ih false h with h1 | h1
        · exact Or.inl h1
        · exact Or.inr (List.mem_cons_of_mem d h1)

theorem mem_collapseWs (c : Char) (s : Str) (h : c ∈ collapseWs s) :
    c = ' ' ∨ c ∈ s := mem_collapseWsGo c s false h

theorem mem_trimStr (c : Char) (s : Str) (h : c ∈ trimStr s) : c ∈ s := by
  unfold trimStr at h
  rw [List.mem_reverse] at h
  have h1 := (List.dropWhile_sublist isSpaceCh).subset h
  rw [List.mem_reverse] at h1
  exact (List.dropWhile_sublist isSpaceCh).subset h1

theorem normalizeMsg_chars (m : Str) (c : Char)
    (h : c ∈ ResponseCache.normalizeMsg m) : (isWordCh c || isSpaceCh c) = true := by
  unfold ResponseCache.normalizeMsg at h
  have h1 := mem_trimStr _ _ h
  rcases mem_collapseWs c _ h1 with h2 | h2
  · subst h2
    rfl
  · rcases List.mem_map.mp h2 with ⟨d, _, hd⟩
    by_cases hw : (isWordCh d || isSpaceCh d) = true
    · rw [if_pos hw] at hd
      subst hd
      exact hw
    · rw [if_neg hw] at hd
      subst hd
      rfl

theorem hyphen_not_mem_normalizeMsg (m : Str) :
    '-' ∉ ResponseCache.normalizeMsg m := by
  intro h
  have := normalizeMsg_chars m '-' h
  simp [isWordCh, isSpaceCh] at this

theorem dedup_toFinset_eq {α : Type} [DecidableEq α] (l : List α) :
    l.dedup.toFinset = l.toFinset := by
  apply Finset.ext
  intro x
  simp [List.mem_dedup]

theorem filter_contains_length (k1 k2 : List Str) :
    ((k1.dedup).filter (fun x => (k2.dedup).contains x)).length =
      (k1.toFinset ∩ k2.toFinset).card := by
  have hnd : ((k1.dedup).filter (fun x => (k2.dedup).contains x)).Nodup :=
    (List.nodup_dedup k1).filter _
  rw [← List.dedup_eq_self.mpr hnd, ← List.card_toFinset]
  congr 1
  apply Finset.ext
  intro x
  simp only [List.toFinset_filter, Finset.mem_filter, List.mem_toFinset,
    List.mem_dedup, Finset.mem_inter]
  constructor
  · rintro ⟨h1, h2⟩
    exact ⟨h1, List.mem_dedup.mp (List.elem_iff.mp h2)⟩
  · rintro ⟨h1, h2⟩
    exact ⟨h1, List.elem_iff.mpr (List.mem_dedup.mpr h2)⟩

/-- The code's similarity (intersection over the larger set) dominates the
spec's Jaccard similarity (intersection over the union). -/
theorem jaccard_le_calculateSimilarity (t1 t2 : Str) :
    jaccardKeywordSimilarity t1 t2 ≤ MessageUtils.calculateSimilarity t1 t2 := by
  simp only [jaccardKeywordSimilarity, MessageUtils.calculateSimilarity]
  by_cases hk : MessageUtils.extractKeywords t1 = [] ∨ MessageUtils.extractKeywords t2 = []
  · rw [if_pos hk]
    have hinter : ((MessageUtils.extractKeywords t1).toFinset ∩
        (MessageUtils.extractKeywords t2).toFinset) = ∅ := by
      rcases hk with h | h
      · rw [h]
        simp
      · rw [h]
        simp
    by_cases hu : ((MessageUtils.extractKeywords t1).toFinset ∪
        (MessageUtils.extractKeywords t2).toFinset).card = 0
    · rw [if_pos hu]
    · rw [if_neg hu, hinter]
      simp
  · rw [if_neg hk]
    push_neg at hk
    obtain ⟨h1, h2⟩ := hk
    have hK1 : (MessageUtils.extractKeywords t1).toFinset.Nonempty := by
      rcases List.exists_mem_of_ne_nil _ h1 with ⟨x, hx⟩
      exact ⟨x, List.mem_toFinset.mpr hx⟩
    have hUpos : 0 < ((MessageUtils.extractKeywords t1).toFinset ∪
        (MessageUtils.extractKeywords t2).toFinset).card :=
      Finset.card_pos.mpr (Finset.Nonempty.inl hK1)
    rw [if_neg (by omega)]
    rw [filter_contains_length]
    have hc1 : (MessageUtils.extractKeywords t1).dedup.length =
        (MessageUtils.extractKeywords t1).toFinset.card :=
      (List.card_toFinset _).symm
    have hc2 : (MessageUtils.extractKeywords t2).dedup.length =
        (MessageUtils.extractKeywords t2).toFinset.card :=
      (List.card_toFinset _).symm
    rw [hc1, hc2]
    have hMU : max (MessageUtils.extractKeywords t1).toFinset.card
        (MessageUtils.extractKeywords t2).toFinset.card ≤
        ((MessageUtils.extractKeywords t1).toFinset ∪
          (MessageUtils.extractKeywords t2).toFinset).card :=
      max_le (Finset.card_le_card Finset.subset_union_left)
        (Finset.card_le_card Finset.subset_union_right)
    have hMpos : 0 < max (MessageUtils.extractKeywords t1).toFinset.card
        (MessageUtils.extractKeywords t2).toFinset.card :=
      lt_max_of_lt_left (Finset.card_pos.mpr hK1)
    apply div_le_div_of_nonneg_left
    · positivity
    · exact_mod_cast hMpos
    · exact_mod_cast hMU

/-- fuzzy lookup on a one-entry cache, as one condition. -/
theorem findSimilar_singleton (m u k : Str) (e : CacheEntry) (now : ℤ) :
    ResponseCache.findSimilarResponse m u now [(k, e)] =
      (if endsWithStr ('-' :: u) k = true ∧ now - e.timestamp < ResponseCache.TTL ∧
          ResponseCache.SIMILARITY_THRESHOLD ≤
            MessageUtils.calculateSimilarity m (replaceFirst ('-' :: u) [] k)
       then some e.response else none) := by
  unfold ResponseCache.findSimilarResponse
  by_cases h1 : endsWithStr ('-' :: u) k = true
  · by_cases h2 : now - e.timestamp < ResponseCache.TTL
    · by_cases h3 : ResponseCache.SIMILARITY_THRESHOLD ≤
          MessageUtils.calculateSimilarity m (replaceFirst ('-' :: u) [] k)
      · rw [if_pos ⟨h1, h2, h3⟩]
        simp [List.filter, List.find?, h1, h2, h3]
      · rw [if_neg (by tauto)]
        simp [List.filter, List.find?, h1, h2, h3]
    · rw [if_neg (by tauto)]
      simp [List.filter, h1, h2]
  · rw [if_neg (by tauto)]
    simp [List.filter, h1]

/-- `get` on a one-entry unexpired cache: exact hit or fuzzy fallback. -/
theorem get_singleton (m u k : Str) (e : CacheEntry) (now : ℤ)
    (hkeep : ¬ (now - e.timestamp > ResponseCache.TTL)) :
    (ResponseCache.get m u now [(k, e)]).1 =
      (if k = ResponseCache.getKey m u ∧ now - e.timestamp < ResponseCache.TTL
       then some e.response
       else ResponseCache.findSimilarResponse m u now [(k, e)]) := by
  have hclean : ResponseCache.cleanup false now [(k, e)] = [(k, e)] := by
    simp [ResponseCache.cleanup, List.filter, hkeep]
  have hmg : ResponseCache.mapGet [(k, e)] (ResponseCache.getKey m u) =
      (if k = ResponseCache.getKey m u then some e else none) := by
    rw [ResponseCache.mapGet.eq_def]
    rfl
  simp only [ResponseCache.get, hclean, hmg]
  by_cases hk : k = ResponseCache.getKey m u
  · subst hk
    by_cases ht : now - e.timestamp < ResponseCache.TTL
    · simp [ht]
    · simp [ht]
  · simp [hk]

/-- keyword-set sizes for the C6 counterexample similarity value. -/
theorem c6_simval :
    MessageUtils.calculateSimilarity ("alphabeta gamma delta".toList)
      ("alpha beta gamma delta".toList) = 2 / 4 := by
  have ha : MessageUtils.extractKeywords ("alphabeta gamma delta".toList) =
      ["alphabeta".toList, "gamma".toList, "delta".toList] := by decide
  have hb : MessageUtils.extractKeywords ("alpha beta gamma delta".toList) =
      ["alpha".toList, "beta".toList, "gamma".toList, "delta".toList] := by decide
  simp only [MessageUtils.calculateSimilarity, ha, hb]
  rw [if_neg (by simp)]
  have hfl : (((["alphabeta".toList, "gamma".toList, "delta".toList] : List Str).dedup).filter
      (fun x => ((["alpha".toList, "beta".toList, "gamma".toList, "delta".toList] : List Str).dedup).contains x)).length = 2 := by
    decide
  have hl1 : (["alphabeta".toList, "gamma".toList, "delta".toList] : List Str).dedup.length = 3 := by decide
  have hl2 : (["alpha".toList, "beta".toList, "gamma".toList, "delta".toList] : List Str).dedup.length = 4 := by decide
  rw [hfl, hl1, hl2]
  norm_num

/-- C6 counterexample: two textually different messages whose raw non-stopword
token sets are identical (Jaccard 1 ≥ 0.8), yet the cached response is NOT
found: the cache normalizes punctuation to spaces when storing
("alpha-beta" is stored as "alpha beta") while keyword extraction deletes
punctuation ("alpha-beta" tokenizes as "alphabeta"), so the stored key's
keywords differ from the raw message's keywords. -/
theorem cache_similarity_fallback_counterexample :
    ResponseCache.SIMILARITY_THRESHOLD ≤
      jaccardKeywordSimilarity ("alpha-beta gamma delta".toList)
        ("alphabeta gamma delta".toList)
    ∧ ("alpha-beta gamma delta".toList : Str) ≠ "alphabeta gamma delta".toList
    ∧ (ResponseCache.get ("alphabeta gamma delta".toList) ("7".toList) 1000
        (ResponseCache.set ("alpha-beta gamma delta".toList) ("7".toList)
          ("resp".toList) 0 [])).1 = none := by
  refine ⟨?_, by decide, ?_⟩
  · have hI : ((MessageUtils.extractKeywords ("alpha-beta gamma delta".toList)).toFinset ∩
        (MessageUtils.extractKeywords ("alphabeta gamma delta".toList)).toFinset).card = 3 := by
      decide
    have hU : ((MessageUtils.extractKeywords ("alpha-beta gamma delta".toList)).toFinset ∪
        (MessageUtils.extractKeywords ("alphabeta gamma delta".toList)).toFinset).card = 3 := by
      decide
    simp only [jaccardKeywordSimilarity]
    rw [hU, hI, if_neg (by norm_num)]
    norm_num [ResponseCache.SIMILARITY_THRESHOLD]
  · have hset : ResponseCache.set ("alpha-beta gamma delta".toList) ("7".toList)
        ("resp".toList) 0 [] =
        [(ResponseCache.getKey ("alpha-beta gamma delta".toList) ("7".toList),
          ⟨"resp".toList, 0,
           ResponseCache.calculateMessageComplexity ("alpha-beta gamma delta".toList)⟩)] := by
      simp [ResponseCache.set, ResponseCache.mapSet, ResponseCache.MAX_ENTRIES]
    rw [hset, get_singleton _ _ _ _ _
      (by show ¬ ((1000 : ℤ) - 0 > ResponseCache.TTL); norm_num [ResponseCache.TTL])]
    have hkne : ¬ (ResponseCache.getKey ("alpha-beta gamma delta".toList) ("7".toList) =
        ResponseCache.getKey ("alphabeta gamma delta".toList) ("7".toList)) := by decide
    rw [if_neg (by tauto), findSimilar_singleton]
    have hrepl : replaceFirst ('-' :: "7".toList) []
        (ResponseCache.getKey ("alpha-beta gamma delta".toList) ("7".toList)) =
        "alpha beta gamma delta".toList := by decide
    rw [hrepl, c6_simval]
    rw [if_neg (fun h => absurd h.2.2 (by norm_num [ResponseCache.SIMILARITY_THRESHOLD]))]

/-- C6 (amended): after `set(m1,u,r)` on an empty cache, an unexpired
`get(m2,u)` returns `r` whenever the Jaccard similarity between the keyword
set of `m2` and that of the cache-key-NORMALIZED form of `m1` reaches the 0.8
threshold: the code compares the lookup text against the normalized stored
key, with intersection-over-larger-set, which dominates Jaccard. -/
theorem cache_similarity_fallback_amended (m1 m2 u r : Str) (t now : ℤ)
    (hfresh : now - t < ResponseCache.TTL)
    (hsim : ResponseCache.SIMILARITY_THRESHOLD ≤
      jaccardKeywordSimilarity m2 (ResponseCache.normalizeMsg m1)) :
    (ResponseCache.get m2 u now (ResponseCache.set m1 u r t [])).1 = some r := by
  have hsimcode : ResponseCache.SIMILARITY_THRESHOLD ≤
      MessageUtils.calculateSimilarity m2 (ResponseCache.normalizeMsg m1) :=
    le_trans hsim (jaccard_le_calculateSimilarity m2 (ResponseCache.normalizeMsg m1))
  have hrepl : replaceFirst ('-' :: u) [] (ResponseCache.getKey m1 u) =
      ResponseCache.normalizeMsg m1 :=
    replaceFirst_hyphen u _ (hyphen_not_mem_normalizeMsg m1)
  have hends : endsWithStr ('-' :: u) (ResponseCache.getKey m1 u) = true :=
    endsWithStr_append_self _ _
  have hset : ResponseCache.set m1 u r t [] =
      [(ResponseCache.getKey m1 u,
        ⟨r, t, ResponseCache.calculateMessageComplexity m1⟩)] := by
    simp [ResponseCache.set, ResponseCache.mapSet, ResponseCache.MAX_ENTRIES]
  rw [hset, get_singleton _ _ _ _ _ (by show ¬ (now - t > ResponseCache.TTL); omega)]
  by_cases hk : ResponseCache.getKey m1 u = ResponseCache.getKey m2 u
  · rw [if_pos ⟨hk, hfresh⟩]
  · rw [if_neg (by tauto), findSimilar_singleton]
    rw [if_pos ⟨hends, hfresh, by rw [hrepl]; exact hsimcode⟩]

/-- Witness for the amended C6: two differently-ordered but keyword-identical
messages resolve to the same cached response via the fuzzy fallback. -/
theorem cache_similarity_fallback_amended_witness :
    (1000 : ℤ) - 0 < ResponseCache.TTL
    ∧ (ResponseCache.get ("beta alpha gamma delta".toList) ("7".toList) 1000
        (ResponseCache.set ("alpha beta gamma delta".toList) ("7".toList)
          ("resp".toList) 0 [])).1 = some ("resp".toList) := by
  refine ⟨by norm_num [ResponseCache.TTL], ?_⟩
  apply cache_similarity_fallback_amended
  · norm_num [ResponseCache.TTL]
  · have hn : ResponseCache.normalizeMsg ("alpha beta gamma delta".toList) =
        "alpha beta gamma delta".toList := by decide
    rw [hn]
    have hI : ((MessageUtils.extractKeywords ("beta alpha gamma delta".toList)).toFinset ∩
        (MessageUtils.extractKeywords ("alpha beta gamma delta".toList)).toFinset).card = 4 := by
      decide
    have hU : ((MessageUtils.extractKeywords ("beta alpha gamma delta".toList)).toFinset ∪
        (MessageUtils.extractKeywords ("alpha beta gamma delta".toList)).toFinset).card = 4 := by
      decide
    simp only [jaccardKeywordSimilarity]
    rw [hU, hI, if_neg (by norm_num)]
    norm_num [ResponseCache.SIMILARITY_THRESHOLD]

/- ===================== C10: per-user cache isolation ===================== -/

/-- one recorded `ResponseCache.set` call. -/
structure CacheSetOp where
  message : Str
  userId : Str
  response : Str
  time : ℤ

/-- the cache state after a sequence of `set` calls from empty. -/
def applyOps (ops : List CacheSetOp) : Cache :=
  ops.foldl
    (fun c op => ResponseCache.set op.message op.userId op.response op.time c) []

theorem mem_mapSet (k : Str) (v : CacheEntry) :
    ∀ (c : Cache) (kv : Str × CacheEntry), kv ∈ ResponseCache.mapSet c k v →
      kv = (k, v) ∨ kv ∈ c := by
  intro c
  induction c with
  | nil =>
    intro kv hkv
    simp only [ResponseCache.mapSet, List.mem_singleton] at hkv
    exact Or.inl hkv
  | cons hd tl ih =>
    intro kv hkv
    rw [ResponseCache.mapSet.eq_def] at hkv
    rcases hd with ⟨k0, v0⟩
    simp only at hkv
    by_cases hk : k0 = k
    · rw [if_pos hk] at hkv
      rcases List.mem_cons.mp hkv with h | h
      · exact Or.inl h
      · exact Or.inr (List.mem_cons_of_mem _ h)
    · rw [if_neg hk] at hkv
      rcases List.mem_cons.mp hkv with h | h
      · exact Or.inr (h ▸ List.mem_cons_self _ _)
      · rcases ih kv h with h1 | h1
        · exact Or.inl h1
        · exact Or.inr (List.mem_cons_of_mem _ h1)

theorem mem_cleanup (force : Bool) (now : ℤ) (c : Cache) (kv : Str × CacheEntry)
    (hkv : kv ∈ ResponseCache.cleanup force now c) : kv ∈ c := by
  unfold ResponseCache.cleanup at hkv
  by_cases h : force ∧ (c.filter
      (fun e => ¬ (now - e.2.timestamp > ResponseCache.TTL))).length >
      ResponseCache.MAX_ENTRIES
  · rw [if_pos h] at hkv
    exact (List.mem_filter.mp (List.mem_filter.mp hkv).1).1
  · rw [if_neg h] at hkv
    exact (List.mem_filter.mp hkv).1

theorem mem_set (m u r : Str) (t : ℤ) (c : Cache) (kv : Str × CacheEntry)
    (hkv : kv ∈ ResponseCache.set m u r t c) :
    kv = (ResponseCache.getKey m u,
          ⟨r, t, ResponseCache.calculateMessageComplexity m⟩) ∨ kv ∈ c := by
  unfold ResponseCache.set at hkv
  by_cases h : (ResponseCache.mapSet c (ResponseCache.getKey m u)
      ⟨r, t, ResponseCache.calculateMessageComplexity m⟩).length >
      ResponseCache.MAX_ENTRIES
  · rw [if_pos h] at hkv
    exact mem_mapSet _ _ c kv (mem_cleanup true t _ kv hkv)
  · rw [if_neg h] at hkv
    exact mem_mapSet _ _ c kv hkv

theorem foldSet_mem (ops : List CacheSetOp) :
    ∀ (c : Cache) (kv : Str × CacheEntry),
    kv ∈ ops.foldl
      (fun cc op => ResponseCache.set op.message op.userId op.response op.time cc) c →
    (∃ op ∈ ops,
      kv = (ResponseCache.getKey op.message op.userId,
            ⟨op.response, op.time,
             ResponseCache.calculateMessageComplexity op.message⟩)) ∨ kv ∈ c := by
  induction ops with
  | nil =>
    intro c kv hkv
    exact Or.inr hkv
  | cons op rest ih =>
    intro c kv hkv
    simp only [List.foldl_cons] at hkv
    rcases ih _ kv hkv with h | h
    · obtain ⟨op', hmem, heq⟩ := h
      exact Or.inl ⟨op', List.mem_cons_of_mem _ hmem, heq⟩
    · rcases mem_set _ _ _ _ _ _ h with h1 | h1
      · exact Or.inl ⟨op, List.mem_cons_self _ _, h1⟩
      · exact Or.inr h1

theorem applyOps_mem (ops : List CacheSetOp) (kv : Str × CacheEntry)
    (hkv : kv ∈ applyOps ops) :
    ∃ op ∈ ops,
      kv = (ResponseCache.getKey op.message op.userId,
            ⟨op.response, op.time,
             ResponseCache.calculateMessageComplexity op.message⟩) := by
  rcases foldSet_mem ops [] kv hkv with h | h
  · exact h
  · cases h

theorem mapGet_mem (k : Str) (v : CacheEntry) :
    ∀ (c : Cache), ResponseCache.mapGet c k = some v → (k, v) ∈ c := by
  intro c
  induction c with
  | nil =>
    intro h
    simp [ResponseCache.mapGet] at h
  | cons hd tl ih =>
    intro h
    rw [ResponseCache.mapGet.eq_def] at h
    rcases hd with ⟨k0, v0⟩
    simp only at h
    by_cases hk : k0 = k
    · rw [if_pos hk] at h
      subst hk
      rcases Option.some.inj h with rfl
      exact List.mem_cons_self _ _
    · rw [if_neg hk] at h
      exact List.mem_cons_of_mem _ (ih h)

theorem startsWithStr_iff (p : Str) :
    ∀ (s : Str), startsWithStr p s = true ↔ p <+: s := by
  induction p with
  | nil =>
    intro s
    simp [startsWithStr, List.nil_prefix]
  | cons c cs ih =>
    intro s
    match s with
    | [] =>
      simp [startsWithStr]
    | d :: ds =>
      rw [startsWithStr]
      simp only [Bool.and_eq_true, decide_eq_true_eq]
      constructor
      · rintro ⟨rfl, h2⟩
        exact (List.prefix_cons_inj c).mpr ((ih ds).mp h2)
      · intro h
        obtain ⟨t, ht⟩ := h
        rcases List.cons_eq_cons.mp ht with ⟨rfl, ht2⟩
        exact ⟨rfl, (ih ds).mpr ⟨t, ht2⟩⟩

theorem endsWithStr_iff (p s : Str) : endsWithStr p s = true ↔ p <:+ s := by
  unfold endsWithStr
  rw [startsWithStr_iff, List.reverse_prefix]

theorem key_decomp :
    ∀ (a b x y : Str), '-' ∉ a → '-' ∉ b →
      a ++ '-' :: x = b ++ '-' :: y → a = b ∧ x = y := by
  intro a
  induction a with
  | nil =>
    intro b x y _ hb h
    match b with
    | [] =>
      simp only [List.nil_append] at h
      rcases List.cons_eq_cons.mp h with ⟨_, rfl⟩
      exact ⟨rfl, rfl⟩
    | d :: ds =>
      simp only [List.nil_append, List.cons_append] at h
      rcases List.cons_eq_cons.mp h with ⟨hd, _⟩
      exact absurd (hd ▸ List.mem_cons_self d ds) hb
  | cons c cs ih =>
    intro b x y ha hb h
    match b with
    | [] =>
      simp only [List.cons_append, List.nil_append] at h
      rcases List.cons_eq_cons.mp h with ⟨hd, _⟩
      exact absurd (hd.symm ▸ List.mem_cons_self c cs) ha
    | d :: ds =>
      simp only [List.cons_append] at h
      rcases List.cons_eq_cons.mp h with ⟨rfl, ht⟩
      have hcs : '-' ∉ cs := fun hm => ha (List.mem_cons_of_mem _ hm)
      have hds : '-' ∉ ds := fun hm => hb (List.mem_cons_of_mem _ hm)
      rcases ih ds x y hcs hds ht with ⟨rfl, rfl⟩
      exact ⟨rfl, rfl⟩

theorem suffix_key_same_user (a x u : Str)
    (ha : '-' ∉ a) (hx : '-' ∉ x) (hu : '-' ∉ u)
    (h : endsWithStr ('-' :: u) (a ++ '-' :: x) = true) : u = x := by
  obtain ⟨pre, hpre⟩ := (endsWithStr_iff _ _).mp h
  have hcount : (pre ++ '-' :: u).count '-' = (a ++ '-' :: x).count '-' := by
    rw [hpre]
  rw [List.count_append, List.count_append, List.count_cons_self,
    List.count_cons_self, List.count_eq_zero_of_not_mem ha,
    List.count_eq_zero_of_not_mem hu] at hcount
  have hxz : x.count '-' = 0 := List.count_eq_zero_of_not_mem hx
  rw [hxz] at hcount
  have hprez : pre.count '-' = 0 := by omega
  have hprenm : '-' ∉ pre := by
    intro hm
    have := List.count_pos_iff.mpr hm
    omega
  exact (key_decomp pre a u x hprenm ha hpre).2

theorem fuzzy_from_ops (ops : List CacheSetOp) (m u r : Str) (now : ℤ) (c : Cache)
    (hsub : ∀ kv ∈ c, kv ∈ applyOps ops)
    (hops : ∀ op ∈ ops, ('-' : Char) ∉ op.userId)
    (hu : ('-' : Char) ∉ u)
    (h : ResponseCache.findSimilarResponse m u now c = some r) :
    ∃ op ∈ ops, op.userId = u ∧ op.response = r := by
  unfold ResponseCache.findSimilarResponse at h
  obtain ⟨e, hfind, hresp⟩ := Option.map_eq_some'.mp h
  have hmem := List.mem_of_find?_eq_some hfind
  have hme : e ∈ c := (List.mem_filter.mp (List.mem_filter.mp hmem).1).1
  have hends : endsWithStr ('-' :: u) e.1 = true := by
    have := (List.mem_filter.mp (List.mem_filter.mp hmem).1).2
    simpa using this
  obtain ⟨op, hopmem, hkv⟩ := applyOps_mem ops e (hsub e hme)
  have h1 : e.1 = ResponseCache.normalizeMsg op.message ++ '-' :: op.userId := by
    rw [hkv]
    rfl
  rw [h1] at hends
  have huop := suffix_key_same_user (ResponseCache.normalizeMsg op.message)
    op.userId u (hyphen_not_mem_normalizeMsg op.message) (hops op hopmem) hu hends
  refine ⟨op, hopmem, huop.symm, ?_⟩
  have h2 : e.2.response = op.response := by
    rw [hkv]
  rw [← h2, hresp]

/-- C10 (amended): when no user id contains a hyphen (Discord snowflake ids
are digit strings), `get(m, u1)` only ever returns responses stored by `set`
calls of the same user `u1`: both the exact-key lookup and the fuzzy fallback
are per-user. -/
theorem cache_user_isolation_amended (ops : List CacheSetOp) (m u r : Str)
    (now : ℤ)
    (hops : ∀ op ∈ ops, ('-' : Char) ∉ op.userId)
    (hu : ('-' : Char) ∉ u)
    (hget : (ResponseCache.get m u now (applyOps ops)).1 = some r) :
    ∃ op ∈ ops, op.userId = u ∧ op.response = r := by
  simp only [ResponseCache.get] at hget
  have hsub : ∀ kv ∈ ResponseCache.cleanup false now (applyOps ops),
      kv ∈ applyOps ops := fun kv hkv => mem_cleanup _ _ _ _ hkv
  rcases hmg : ResponseCache.mapGet (ResponseCache.cleanup false now (applyOps ops))
      (ResponseCache.getKey m u) with _ | cached
  · rw [hmg] at hget
    exact fuzzy_from_ops ops m u r now _ hsub hops hu hget
  · rw [hmg] at hget
    by_cases ht : now - cached.timestamp < ResponseCache.TTL
    · have hresp : cached.response = r := by
        have hget2 : (if now - cached.timestamp < ResponseCache.TTL
            then (some cached.response,
              ResponseCache.cleanup false now (applyOps ops))
            else (ResponseCache.findSimilarResponse m u now
                (ResponseCache.cleanup false now (applyOps ops)),
              ResponseCache.cleanup false now (applyOps ops))).1 = some r := hget
        rw [if_pos ht] at hget2
        exact Option.some.inj hget2
      have hkvmem := mapGet_mem _ cached _ hmg
      obtain ⟨op, hopmem, hkveq⟩ := applyOps_mem ops _ (hsub _ hkvmem)
      have hkey : ResponseCache.getKey m u =
          ResponseCache.getKey op.message op.userId := congrArg Prod.fst hkveq
      unfold ResponseCache.getKey at hkey
      have hdec := key_decomp _ _ _ _ (hyphen_not_mem_normalizeMsg m)
        (hyphen_not_mem_normalizeMsg op.message) hkey
      refine ⟨op, hopmem, hdec.2.symm, ?_⟩
      have hr2 : cached.response = op.response :=
        congrArg (fun kv => kv.2.response) hkveq
      rw [← hr2, hresp]
    · have hget2 : ResponseCache.findSimilarResponse m u now
          (ResponseCache.cleanup false now (applyOps ops)) = some r := by
        have hget3 : (if now - cached.timestamp < ResponseCache.TTL
            then (some cached.response,
              ResponseCache.cleanup false now (applyOps ops))
            else (ResponseCache.findSimilarResponse m u now
                (ResponseCache.cleanup false now (applyOps ops)),
              ResponseCache.cleanup false now (applyOps ops))).1 = some r := hget
        rw [if_neg ht] at hget3
        exact hget3
      exact fuzzy_from_ops ops m u r now _ hsub hops hu hget2

/-- similarity value for the C10 counterexample. -/
theorem c10_simval :
    MessageUtils.calculateSimilarity ("hello evilevil".toList)
      ("hello evil-evil".toList) = 2 / 2 := by
  have ha : MessageUtils.extractKeywords ("hello evilevil".toList) =
      ["hello".toList, "evilevil".toList] := by decide
  have hb : MessageUtils.extractKeywords ("hello evil-evil".toList) =
      ["hello".toList, "evilevil".toList] := by decide
  simp only [MessageUtils.calculateSimilarity, ha, hb]
  rw [if_neg (by simp)]
  have hfl : (((["hello".toList, "evilevil".toList] : List Str).dedup).filter
      (fun x => ((["hello".toList, "evilevil".toList] : List Str).dedup).contains x)).length
      = 2 := by decide
  have hl : (["hello".toList, "evilevil".toList] : List Str).dedup.length = 2 := by decide
  rw [hfl, hl]
  norm_num

/-- C10 counterexample: user ids may contain hyphens, and then the fuzzy
fallback leaks across users: a response stored only by user "evil-77" is
returned to user "77", because the stored key "hello evil-evil-77" ends with
"-77" and the first-occurrence `replace` strips the wrong suffix. -/
theorem cache_user_isolation_counterexample :
    ("77".toList : Str) ≠ "evil-77".toList
    ∧ (ResponseCache.get ("hello evilevil".toList) ("77".toList) 1000
        (ResponseCache.set ("hello evil".toList) ("evil-77".toList)
          ("secret".toList) 0 [])).1 = some ("secret".toList) := by
  refine ⟨by decide, ?_⟩
  have hset : ResponseCache.set ("hello evil".toList) ("evil-77".toList)
      ("secret".toList) 0 [] =
      [(ResponseCache.getKey ("hello evil".toList) ("evil-77".toList),
        ⟨"secret".toList, 0,
         ResponseCache.calculateMessageComplexity ("hello evil".toList)⟩)] := by
    simp [ResponseCache.set, ResponseCache.mapSet, ResponseCache.MAX_ENTRIES]
  rw [hset, get_singleton _ _ _ _ _
    (by show ¬ ((1000 : ℤ) - 0 > ResponseCache.TTL); norm_num [ResponseCache.TTL])]
  have hkne : ¬ (ResponseCache.getKey ("hello evil".toList) ("evil-77".toList) =
      ResponseCache.getKey ("hello evilevil".toList) ("77".toList)) := by decide
  rw [if_neg (by tauto), findSimilar_singleton]
  have hrepl : replaceFirst ('-' :: "77".toList) []
      (ResponseCache.getKey ("hello evil".toList) ("evil-77".toList)) =
      "hello evil-evil".toList := by decide
  rw [hrepl, c10_simval]
  rw [if_pos ⟨by decide, by norm_num [ResponseCache.TTL],
    by norm_num [ResponseCache.SIMILARITY_THRESHOLD]⟩]

/-- Witness for the amended C10: with hyphen-free ids, a successful `get`
traces back to a `set` by the same user. -/
theorem cache_user_isolation_amended_witness :
    (∀ op ∈ [CacheSetOp.mk ("hello there".toList) ("42".toList)
        ("resp".toList) 0], ('-' : Char) ∉ op.userId)
    ∧ ('-' : Char) ∉ ("42".toList : Str)
    ∧ ∃ op ∈ [CacheSetOp.mk ("hello there".toList) ("42".toList)
        ("resp".toList) 0],
        op.userId = ("42".toList : Str) ∧ op.response = ("resp".toList : Str) := by
  refine ⟨by decide, by decide, ?_⟩
  apply cache_user_isolation_amended
    [CacheSetOp.mk ("hello there".toList) ("42".toList) ("resp".toList) 0]
    ("hello there".toList) ("42".toList) ("resp".toList) 1000
    (by decide) (by decide)
  have happ : applyOps [CacheSetOp.mk ("hello there".toList) ("42".toList)
      ("resp".toList) 0] =
      [(ResponseCache.getKey ("hello there".toList) ("42".toList),
        ⟨"resp".toList, 0,
         ResponseCache.calculateMessageComplexity ("hello there".toList)⟩)] := by
    simp [applyOps, ResponseCache.set, ResponseCache.mapSet, ResponseCache.MAX_ENTRIES]
  rw [happ, get_singleton _ _ _ _ _
    (by show ¬ ((1000 : ℤ) - 0 > ResponseCache.TTL); norm_num [ResponseCache.TTL])]
  rw [if_pos ⟨rfl, by show (1000 : ℤ) - 0 < ResponseCache.TTL; norm_num [ResponseCache.TTL]⟩]

/- ============ C7: admission gate vs channel activity ===================== -/

/-- test of `/!|😀|😂|😢|😍|🤔/` in ConversationManager.shouldRespond. -/
def excitementTest (message : Str) : Bool :=
  message.any (fun c =>
    c = '!' || c = '😀' || c = '😂' || c = '😢' || c = '😍' || c = '🤔')

/-- literal-word occurrence at the current position with `\b` boundaries:
the previous character (tracked by the caller) and the character following
the literal must not be word characters. -/
def wordMatchAt (w s : Str) : Bool :=
  startsWithStr w s &&
    (match s.drop w.length with
     | [] => true
     | c :: _ => ¬ isWordCh c)

/-- scan for a `\b`-delimited literal; `prevWord` records whether the
character before the current position is a word character. -/
def wordMatchGo (w : Str) : Bool → Str → Bool
  | prevWord, [] => (! prevWord) && wordMatchAt w []
  | prevWord, c :: cs =>
    ((! prevWord) && wordMatchAt w (c :: cs)) || wordMatchGo w (isWordCh c) cs

/-- JS `/\b<literal>\b/.test` for a literal starting and ending in word
characters. -/
def wordBoundedMatch (w s : Str) : Bool := wordMatchGo w false s

/-- test of `/\b(yo|what's up|wassup)\b/i`. -/
def greetingTest (message : Str) : Bool :=
  let t := toLowerStr message
  wordBoundedMatch ("yo".toList) t ||
  wordBoundedMatch ("what".toList ++ [apos] ++ "s up".toList) t ||
  wordBoundedMatch ("wassup".toList) t

namespace ConversationManager

/-- ConversationManager.shouldRespond (conversationManager.ts lines 142-163),
with the configured base probability and the `Math.random()` draw explicit. -/
def shouldRespond (responseChance : ℚ) (message : Str)
    (isMentioned isDM : Bool) (channelActivity : ℤ) (rand : ℚ) : Bool :=
  if isDM || isMentioned then true
  else
    let isNameMentioned := containsSub ("snurbo".toList) (toLowerStr message)
    if isNameMentioned then true
    else if channelActivity > 5 then false
    else
      let chance := responseChance
      let chance := if containsSub ['?'] message then chance + 1/10 else chance
      let chance := if excitementTest message then chance + 5/100 else chance
      let chance := if greetingTest message then chance + 5/100 else chance
      let chance := if message.length < 10 then chance - 5/100 else chance
      decide (rand < max 0 (min 1 chance))

end ConversationManager

/-- the analysis record produced by MessageAnalyzer.analyzeMessage; the gate
only reads these three fields, so it is a parameter here. -/
structure MessageAnalysis where
  isQuestion : Bool
  requiresCode : Bool
  confidence : ℚ

namespace MessageHandler

/-- MessageHandler.shouldProcessMessage (messageHandler.ts lines 211-262),
with the platform flags, the analyzer output and the random draw explicit.
Returns the decision and the reason string. -/
def shouldProcessMessage (analysis : MessageAnalysis) (responseChance : ℚ)
    (content : Str) (mentionsBot isDM isThread : Bool) (activity : ℤ)
    (rand : ℚ) : Bool × Option Str :=
  let isNameMentioned := containsSub ("snurbo".toList) (toLowerStr content)
  if isDM then (true, some ("DM".toList))
  else if mentionsBot then (true, some ("@mention".toList))
  else if isNameMentioned then (true, some ("name mention".toList))
  else if isThread then
    if analysis.isQuestion && decide (analysis.confidence > 4/10) then
      (true, some ("question in thread".toList))
    else if activity < 8 then
      if ConversationManager.shouldRespond responseChance content false false
          activity rand then
        (true, some ("random response in thread".toList))
      else (false, none)
    else (false, none)
  else
    if analysis.isQuestion && decide (analysis.confidence > 6/10) &&
        decide (activity < 5) then
      (true, some ("question detected".toList))
    else if ConversationManager.shouldRespond responseChance content false false
        activity rand then
      (true, some ("random response".toList))
    else (false, none)

end MessageHandler

/-- C7 counterexample: a non-thread message that is no DM, no mention, and
does not contain the bot's name, in a channel with activity count exactly 5,
IS admitted via the weighted-random path for a small enough draw: the code
suppresses random admission only for activity strictly greater than 5. -/
theorem admission_activity_five_counterexample :
    (5 : ℤ) ≥ 5
    ∧ containsSub ("snurbo".toList)
        (toLowerStr ("what is the meaning of life?".toList)) = false
    ∧ (MessageHandler.shouldProcessMessage ⟨true, false, 7/10⟩ (15/100)
        ("what is the meaning of life?".toList) false false false 5 0).1 = true := by
  refine ⟨by norm_num, by decide, ?_⟩
  have hname : containsSub ("snurbo".toList)
      (toLowerStr ("what is the meaning of life?".toList)) = false := by decide
  have hq : containsSub ['?'] ("what is the meaning of life?".toList) = true := by
    decide
  have hexc : excitementTest ("what is the meaning of life?".toList) = false := by
    decide
  have hgreet : greetingTest ("what is the meaning of life?".toList) = false := by
    decide
  have hlen : ¬ (("what is the meaning of life?".toList : Str).length < 10) := by
    decide
  have hsr : ConversationManager.shouldRespond (15/100)
      ("what is the meaning of life?".toList) false false 5 0 = true := by
    simp only [ConversationManager.shouldRespond, Bool.or_self, if_false,
      hname, hq, hexc, hgreet, hlen]
    rw [if_neg (by norm_num : ¬ ((5 : ℤ) > 5))]
    simp only [if_true, if_false, if_neg hlen]
    exact decide_eq_true (by norm_num)
  simp only [MessageHandler.shouldProcessMessage, hname]
  rw [if_neg (by simp), if_neg (by simp), if_neg (by simp [hname])]
  rw [if_neg (by simp)]
  have hqp : (true && decide ((7:ℚ)/10 > 6/10) && decide ((5:ℤ) < 5)) = false := by
    simp
  rw [if_neg (by simp [hqp])]
  rw [if_pos hsr]

/-- C7 (amended): for channel activity strictly greater than 5 the
weighted-random admission path never admits a non-thread message that is no
DM, no mention, and does not contain the bot's name — for every analyzer
output and every random draw. -/
theorem admission_high_activity_suppressed (analysis : MessageAnalysis)
    (responseChance : ℚ) (content : Str) (activity : ℤ) (rand : ℚ)
    (hname : containsSub ("snurbo".toList) (toLowerStr content) = false)
    (hact : 5 < activity) :
    (MessageHandler.shouldProcessMessage analysis responseChance content
      false false false activity rand).1 = false := by
  have h5 : ¬ (activity < 5) := by omega
  have hsr : ConversationManager.shouldRespond responseChance content
      false false activity rand = false := by
    simp only [ConversationManager.shouldRespond, Bool.or_self, if_false, hname]
    rw [if_neg (by simp), if_neg (by simp), if_pos hact]
  simp only [MessageHandler.shouldProcessMessage, hname]
  rw [if_neg (by simp), if_neg (by simp), if_neg (by simp)]
  rw [if_neg (by simp)]
  rw [if_neg (by simp [h5]), if_neg (by simp [hsr])]

/-- Witness for the amended C7: at activity 6 the same message is never
admitted (shown at draw 0, which admits everything the policy can admit). -/
theorem admission_high_activity_suppressed_witness :
    containsSub ("snurbo".toList)
      (toLowerStr ("what is the meaning of life?".toList)) = false
    ∧ (5 : ℤ) < 6
    ∧ (MessageHandler.shouldProcessMessage ⟨true, false, 7/10⟩ (15/100)
        ("what is the meaning of life?".toList) false false false 6 0).1 = false := by
  refine ⟨by decide, by norm_num, ?_⟩
  exact admission_high_activity_suppressed ⟨true, false, 7/10⟩ (15/100)
    ("what is the meaning of life?".toList) 6 0 (by decide) (by norm_num)

/- ===== ResponseFormatter / ResponseProcessor (C8) ======================== -/

/-- any suffix of the string satisfies the position matcher (regex `test`
scans every start position). -/
def anySuffix (p : Str → Bool) : Str → Bool
  | [] => p []
  | c :: cs => p (c :: cs) || anySuffix p cs

/-- case-insensitive literal prefix (the literal is given lowercase). -/
def startsWithCI : Str → Str → Bool
  | [], _ => true
  | _ :: _, [] => false
  | p :: ps, c :: cs => p = Char.toLower c && startsWithCI ps cs

/-- drop through the first (case-insensitive) occurrence of `lit`, returning
the remainder after it; `none` when `lit` does not occur. -/
def findAfterCI (lit : Str) : Str → Option Str
  | [] => if lit = [] then some [] else none
  | c :: cs =>
    if startsWithCI lit (c :: cs) then some ((c :: cs).drop lit.length)
    else findAfterCI lit cs

/-- first regex of ResponseProcessor.cleanContent:
`/<think>[\s\S]*?<\/think>/gi` — each `<think>` opener is removed together
with everything up to the nearest following `</think>`; openers without a
closer are left for the second regex.  Fuel-based scan (every step consumes
at least one character, so `length + 1` fuel suffices). -/
def stripThinkBlocksGo : ℕ → Str → Str
  | 0, s => s
  | _ + 1, [] => []
  | fuel + 1, c :: cs =>
    if startsWithCI ("<think>".toList) (c :: cs) then
      match findAfterCI ("</think>".toList) ((c :: cs).drop 7) with
      | some rest => stripThinkBlocksGo fuel rest
      | none => c :: stripThinkBlocksGo fuel cs
    else c :: stripThinkBlocksGo fuel cs

/-- second regex of cleanContent: `/<think>[\s\S]*/gi` — everything from the
first unmatched `<think>` to the end is removed. -/
def stripThinkOpen : Str → Str
  | [] => []
  | c :: cs =>
    if startsWithCI ("<think>".toList) (c :: cs) then []
    else c :: stripThinkOpen cs

/-- ResponseProcessor.cleanContent (responseProcessor.ts lines 64-68). -/
def cleanContent (content : Str) : Str :=
  trimStr (stripThinkOpen (stripThinkBlocksGo (content.length + 1) content))

/-- literal parser: consume `lit` or fail. -/
def pLit (lit s : Str) : Option Str :=
  if startsWithStr lit s then some (s.drop lit.length) else none

/-- `class+` parser (greedy; the source patterns always follow a `+`-class
with a character outside the class, so greedy consumption is exact). -/
def pClass1 (p : Char → Bool) (s : Str) : Option Str :=
  let run := s.takeWhile p
  if run.length ≥ 1 then some (s.drop run.length) else none

/-- `class*` parser (greedy, same disjointness note as `pClass1`). -/
def pClass0 (p : Char → Bool) (s : Str) : Option Str :=
  some (s.dropWhile p)

/-- single-character parser. -/
def pChar (c : Char) : Str → Option Str
  | [] => none
  | d :: rest => if d = c then some rest else none

/-- `.*\)\s*\{` tail of the `if/for/while` code indicators: scan the rest of
the line for a `)` that is followed (over whitespace) by `{`; `.*` cannot
cross a newline. -/
def closeParenThenBrace : Str → Bool
  | [] => false
  | c :: cs =>
    (c = ')' &&
      (match cs.dropWhile isSpaceCh with
       | d :: _ => d = lbrace
       | _ => false)) ||
    (c ≠ '\n' && closeParenThenBrace cs)

/-- `\s+.*<lit>` tail (used by `/import\s+.*from/`): at least one whitespace
character, then `lit` must occur within the rest of the line. -/
def wsPlusThenLitInLine (lit rest : Str) : Bool :=
  let wsLen := (rest.takeWhile isSpaceCh).length
  (List.range wsLen).any
    (fun i => containsSub lit ((rest.drop (i + 1)).takeWhile (fun c => c ≠ '\n')))

/-- the ten code indicators of ResponseFormatter.containsCode
(responseFormatter.ts lines 16-31). -/
def containsCode (text : Str) : Bool :=
  -- /```[\s\S]*?```/
  (match findAfterCI ("```".toList) text with
   | some rest => containsSub ("```".toList) rest
   | none => false) ||
  -- /`[^`\n]+`/
  anySuffix (fun s =>
    match s with
    | c :: rest =>
      c = '`' &&
        (let mid := rest.takeWhile (fun d => d ≠ '`' && d ≠ '\n')
         mid.length ≥ 1 && startsWithStr ['`'] (rest.drop mid.length))
    | [] => false) text ||
  -- /function\s+\w+\s*\(/
  anySuffix (fun s =>
    ((pLit ("function".toList) s).bind (pClass1 isSpaceCh) |>.bind
      (pClass1 isWordCh) |>.bind (pClass0 isSpaceCh) |>.bind (pChar '(')).isSome)
    text ||
  -- /class\s+\w+\s*{/
  anySuffix (fun s =>
    ((pLit ("class".toList) s).bind (pClass1 isSpaceCh) |>.bind
      (pClass1 isWordCh) |>.bind (pClass0 isSpaceCh) |>.bind (pChar lbrace)).isSome)
    text ||
  -- /(?:const|let|var)\s+\w+\s*=/
  anySuffix (fun s =>
    [("const".toList : Str), "let".toList, "var".toList].any (fun kw =>
      ((pLit kw s).bind (pClass1 isSpaceCh) |>.bind (pClass1 isWordCh) |>.bind
        (pClass0 isSpaceCh) |>.bind (pChar '=')).isSome)) text ||
  -- /import\s+.*from/
  anySuffix (fun s =>
    match pLit ("import".toList) s with
    | some rest => wsPlusThenLitInLine ("from".toList) rest
    | none => false) text ||
  -- /console\.log/
  containsSub ("console.log".toList) text ||
  -- /if\s*\(.*\)\s*{/, /for\s*\(.*\)\s*{/, /while\s*\(.*\)\s*{/
  ([("if".toList : Str), "for".toList, "while".toList].any (fun kw =>
    anySuffix (fun s =>
      match (pLit kw s).bind (pClass0 isSpaceCh) |>.bind (pChar '(') with
      | some rest => closeParenThenBrace rest
      | none => false) text))

/-- JS `content.split("\n")`. -/
def splitOnNl : Str → List Str
  | [] => [[]]
  | c :: cs =>
    let r := splitOnNl cs
    if c = '\n' then [] :: r
    else (c :: r.headD []) :: r.tail

/-- line test of ResponseFormatter.isFullCodeResponse:
`/^[\s]*(?:function|class|const|let|var|if|for|while|import|export|\{|\}|;|\/\/)/`. -/
def lineStartsCode (line : Str) : Bool :=
  let rest := line.dropWhile isSpaceCh
  ([("function".toList : Str), "class".toList, "const".toList, "let".toList,
    "var".toList, "if".toList, "for".toList, "while".toList, "import".toList,
    "export".toList, [lbrace], [rbrace], [';'], "//".toList]).any
    (fun kw => startsWithStr kw rest)

/-- ResponseFormatter.isFullCodeResponse (responseFormatter.ts lines 54-65). -/
def isFullCodeResponse (content : Str) : Bool :=
  let codeLines := (splitOnNl content).filter lineStartsCode
  let totalLines := (splitOnNl content).length
  decide ((codeLines.length : ℚ) > (totalLines : ℚ) * (6 / 10))

/-- `/import.*from/` (no whitespace requirement, `.` cannot cross a line). -/
def importDotFrom (text : Str) : Bool :=
  anySuffix (fun s =>
    match pLit ("import".toList) s with
    | some rest => containsSub ("from".toList) (rest.takeWhile (fun c => c ≠ '\n'))
    | none => false) text

/-- `<lit1>\s+<lit2>` indicator. -/
def litWsLit (l1 l2 : Str) (text : Str) : Bool :=
  anySuffix (fun s =>
    ((pLit l1 s).bind (pClass1 isSpaceCh) |>.bind (pLit l2)).isSome) text

/-- `<lit>\s+\w+` indicator. -/
def litWsWord (l1 : Str) (text : Str) : Bool :=
  anySuffix (fun s =>
    ((pLit l1 s).bind (pClass1 isSpaceCh) |>.bind (pClass1 isWordCh)).isSome) text

/-- ResponseFormatter.detectLanguage (responseFormatter.ts lines 67-79). -/
def detectLanguage (code : Str) : Str :=
  if importDotFrom code || containsSub ("export".toList) code ||
      containsSub ("const".toList) code || containsSub ("let".toList) code ||
      containsSub ("=>".toList) code || containsSub ("interface".toList) code ||
      containsSub ("type".toList) code then "typescript".toList
  else if containsSub ("function".toList) code || containsSub ("var".toList) code ||
      containsSub ("console.log".toList) code ||
      containsSub ("document.".toList) code then "javascript".toList
  else if litWsWord ("def".toList) code || litWsWord ("import".toList) code ||
      containsSub ("print(".toList) code then "python".toList
  else if litWsLit ("public".toList) ("class".toList) code ||
      containsSub ("System.out".toList) code ||
      litWsLit ("import".toList) ("java".toList) code then "java".toList
  else if containsSub ("#include".toList) code ||
      litWsLit ("int".toList) ("main".toList) code ||
      containsSub ("std::".toList) code ||
      containsSub ("cout".toList) code then "cpp".toList
  else if litWsWord ("fn".toList) code ||
      litWsLit ("let".toList) ("mut".toList) code ||
      containsSub ("println!".toList) code then "rust".toList
  else if containsSub ("select".toList) (toLowerStr code) ||
      containsSub ("from".toList) (toLowerStr code) ||
      containsSub ("where".toList) (toLowerStr code) ||
      containsSub ("insert".toList) (toLowerStr code) ||
      containsSub ("update".toList) (toLowerStr code) then "sql".toList
  else if anySuffix (fun s =>
      match s with
      | '<' :: rest =>
        let mid := rest.takeWhile (fun c => c ≠ '>')
        mid.length ≥ 1 && startsWithStr ['>'] (rest.drop mid.length)
      | _ => false) code then "html".toList
  else if (match findAfterCI [lbrace] code with
      | some rest => containsSub [rbrace] rest
      | none => false) ||
      containsSub ("@media".toList) code ||
      anySuffix (fun s =>
        ((pChar '.' s).bind (pClass1 (fun c => isWordCh c || c = '-')) |>.bind
          (pClass0 isSpaceCh) |>.bind (pChar lbrace)).isSome) code then "css".toList
  else "javascript".toList

/-- identifier character classes of the inline-code regex. -/
def isIdentStart (c : Char) : Bool :=
  (('a' ≤ c && c ≤ 'z') || ('A' ≤ c && c ≤ 'Z') || c = '_' || c = '$')

/-- `[a-zA-Z0-9_$]`. -/
def isIdentCh (c : Char) : Bool := isIdentStart c || ('0' ≤ c && c ≤ '9')

/-- `[a-zA-Z0-9_$.]`. -/
def isIdentDotCh (c : Char) : Bool := isIdentCh c || c = '.'

/-- the `(?=\s|$)` lookahead. -/
def lookaheadOk : Str → Bool
  | [] => true
  | c :: _ => isSpaceCh c

/-- first alternative `[a-zA-Z_$][a-zA-Z0-9_$]*\s*\([^)]*\)` of the
inline-code regex, with the trailing lookahead; each quantified class is
followed by a character outside it, so greedy matching is exact.  Returns the
matched length. -/
def matchCallAltern (s : Str) : Option ℕ :=
  match s with
  | [] => none
  | c :: rest =>
    if isIdentStart c then
      let idTail := rest.takeWhile isIdentCh
      let r1 := rest.drop idTail.length
      let ws := r1.takeWhile isSpaceCh
      match r1.drop ws.length with
      | '(' :: r2 =>
        let inner := r2.takeWhile (fun d => d ≠ ')')
        match r2.drop inner.length with
        | ')' :: tail =>
          if lookaheadOk tail then
            some (1 + idTail.length + ws.length + 1 + inner.length + 1)
          else none
        | _ => none
      | _ => none
    else none

/-- second alternative `[a-zA-Z_$][a-zA-Z0-9_$.]*\s*=\s*[^;]+;?` with the
trailing lookahead; `[^;]+` backtracks from its maximal extent as the JS
engine does, so the longest end position whose following character satisfies
the lookahead wins.  Returns the matched length. -/
def matchAssignAltern (s : Str) : Option ℕ :=
  match s with
  | [] => none
  | c :: rest =>
    if isIdentStart c then
      let idTail := rest.takeWhile isIdentDotCh
      let r1 := rest.drop idTail.length
      let ws1 := r1.takeWhile isSpaceCh
      match r1.drop ws1.length with
      | '=' :: r2 =>
        let ws2 := r2.takeWhile isSpaceCh
        let r3 := r2.drop ws2.length
        let run := r3.takeWhile (fun d => d ≠ ';')
        if run.length = 0 then none
        else
          let base := 1 + idTail.length + ws1.length + 1 + ws2.length
          let full :=
            match r3.drop run.length with
            | ';' :: tail =>
              if lookaheadOk tail then some (base + run.length + 1)
              else if lookaheadOk (';' :: tail) then some (base + run.length)
              else none
            | other => if lookaheadOk other then some (base + run.length) else none
          match full with
          | some n => some n
          | none =>
            ((List.range run.length).reverse.find? (fun k =>
                decide (1 ≤ k) &&
                (match run.drop k with
                 | d :: _ => isSpaceCh d
                 | [] => false))).map (fun k => base + k)
      | _ => none
    else none

/-- the parenthesized group of the inline-code regex: call alternative first,
assignment alternative second (JS alternation order). -/
def matchInlineGroup (s : Str) : Option ℕ :=
  match matchCallAltern s with
  | some n => some n
  | none => matchAssignAltern s

/-- one replacement of the inline-code regex callback
(responseFormatter.ts lines 43-51). -/
def inlineReplacement (matched : Str) : Str :=
  if (trimStr matched).length > 3 then
    ' ' :: '`' :: (trimStr matched ++ ['`'])
  else matched

/-- global scan of the inline-code regex for positions after the start: a
match consumes a whitespace character (`(?:^|\s)`) followed by the group.
Fuel-based: every step consumes at least one character. -/
def inlineBackticksGo : ℕ → Str → Str
  | 0, s => s
  | _ + 1, [] => []
  | fuel + 1, c :: cs =>
    if isSpaceCh c then
      match matchInlineGroup cs with
      | some glen =>
        inlineReplacement (c :: cs.take glen) ++ inlineBackticksGo fuel (cs.drop glen)
      | none => c :: inlineBackticksGo fuel cs
    else c :: inlineBackticksGo fuel cs

/-- the inline-code replace of ResponseFormatter.formatCodeBlocks
(responseFormatter.ts lines 43-51), including the `^` start alternative. -/
def inlineBackticks (s : Str) : Str :=
  match matchInlineGroup s with
  | some glen =>
    inlineReplacement (s.take glen) ++ inlineBackticksGo s.length (s.drop glen)
  | none => inlineBackticksGo s.length s

/-- ResponseFormatter.formatCodeBlocks (responseFormatter.ts lines 33-52). -/
def formatCodeBlocks (content : Str) : Str :=
  if containsSub ("```".toList) content then content
  else if isFullCodeResponse content then
    "```".toList ++ detectLanguage content ++ '\n' ::
      (trimStr content ++ '\n' :: "```".toList)
  else inlineBackticks content

/-- one full-line `**...**` match of `/^\*\*([^*]+)\*\*$/m` at a line start:
two stars, at least one non-star character (which may include newlines), two
stars, then line end (end of string or a newline).  Returns the inner text
and the remainder (starting at the `$` position). -/
def tryBoldLine (s : Str) : Option (Str × Str) :=
  if startsWithStr ("**".toList) s then
    let inner := (s.drop 2).takeWhile (fun c => c ≠ '*')
    if inner.length ≥ 1 then
      let r1 := (s.drop 2).drop inner.length
      if startsWithStr ("**".toList) r1 then
        let rest := r1.drop 2
        match rest with
        | [] => some (inner, [])
        | '\n' :: _ => some (inner, rest)
        | _ => none
      else none
    else none
  else none

/-- `/^\*\*([^*]+)\*\*$/gm` → `$1` (responseFormatter.ts line 84); the flag
tracks whether the scanner is at a line start. -/
def unwrapBoldGo : ℕ → Bool → Str → Str
  | 0, _, s => s
  | _ + 1, _, [] => []
  | fuel + 1, atLS, c :: cs =>
    if atLS then
      match tryBoldLine (c :: cs) with
      | some (inner, rest) => inner ++ unwrapBoldGo fuel false rest
      | none => c :: unwrapBoldGo fuel (c = '\n') cs
    else c :: unwrapBoldGo fuel (c = '\n') cs

/-- `/^#{1,6}\s+/gm` → `**` (responseFormatter.ts line 86): one to six
hashes at a line start followed by whitespace (the greedy `\s+` run may cross
newlines, in which case the scanner is again at a line start). -/
def headingsGo : ℕ → Bool → Str → Str
  | 0, _, s => s
  | _ + 1, _, [] => []
  | fuel + 1, atLS, c :: cs =>
    if atLS then
      let hs := (c :: cs).takeWhile (fun d => d = '#')
      let ws := ((c :: cs).drop hs.length).takeWhile isSpaceCh
      if 1 ≤ hs.length ∧ hs.length ≤ 6 ∧ ws.length ≥ 1 then
        let rest := (c :: cs).drop (hs.length + ws.length)
        ('*' :: '*' :: headingsGo fuel (ws.getLast? = some '\n') rest)
      else c :: headingsGo fuel (c = '\n') cs
    else c :: headingsGo fuel (c = '\n') cs

/-- `/\n{3,}/g` → `"\n\n"` (responseFormatter.ts line 88). -/
def collapseNlGo : ℕ → Str → Str
  | 0, s => s
  | _ + 1, [] => []
  | fuel + 1, c :: cs =>
    if c = '\n' then
      let run := (c :: cs).takeWhile (fun d => d = '\n')
      let rest := (c :: cs).drop run.length
      (if run.length ≥ 3 then ['\n', '\n'] else run) ++ collapseNlGo fuel rest
    else c :: collapseNlGo fuel cs

/-- ResponseFormatter.cleanDiscordMarkdown (responseFormatter.ts lines
81-91). -/
def cleanDiscordMarkdown (content : Str) : Str :=
  let s1 := unwrapBoldGo (content.length + 1) true content
  let s2 := headingsGo (s1.length + 1) true s1
  let s3 := collapseNlGo (s2.length + 1) s2
  trimStr s3

/-- sentence-delimiter class `[.!?]`. -/
def isSentCh (c : Char) : Bool := (c = '.' || c = '!' || c = '?')

/-- the sentence-accumulation loop of ResponseFormatter.ensureDiscordLength
(responseFormatter.ts lines 103-109), with `maxLength - 50 = 1950`. -/
def edlLoop : Str → List Str → Str
  | result, [] => result
  | result, s :: rest =>
    if result.length + s.length > 1950 then result ++ "... (truncated)".toList
    else edlLoop (result ++ s ++ ['.']) rest

/-- ResponseFormatter.ensureDiscordLength (responseFormatter.ts lines
93-112). -/
def ensureDiscordLength (content : Str) : Str :=
  if content.length ≤ 2000 then content
  else
    let result := edlLoop [] (splitRuns isSentCh content)
    if result = [] then content.take 1980 ++ "... (truncated)".toList
    else result

/-- ResponseFormatter.formatForDiscord (responseFormatter.ts lines 2-14). -/
def formatForDiscord (content : Str) (requiresCode : Bool) : Str :=
  let f1 := if requiresCode || containsCode content then formatCodeBlocks content
            else content
  let f2 := cleanDiscordMarkdown f1
  ensureDiscordLength f2

namespace ResponseProcessor

/-- terminal-punctuation test `/[.!?]$/`. -/
def endsWithSent (s : Str) : Bool :=
  match s.getLast? with
  | some c => isSentCh c
  | none => false

/-- ResponseProcessor.ensureLength (responseProcessor.ts lines 70-97):
`maxLength * 1.5` is written as the exact integer comparison
`2 * length > 3 * maxLength`. -/
def ensureLength (content : Str) (requiresCode : Bool) : Str :=
  let maxLength : ℕ := if requiresCode then 400 else 200
  if content.length > maxLength then
    let sentences := splitRuns isSentCh content
    if 2 * content.length > 3 * maxLength then
      let c1 := sentences.headD []
      if endsWithSent c1 then c1 else c1 ++ ['.']
    else
      let result := sentences.headD []
      let result :=
        match sentences.drop 1 with
        | s1 :: _ =>
          if s1 ≠ [] ∧ (result ++ ('.' :: ' ' :: s1)).length ≤ maxLength then
            result ++ ('.' :: ' ' :: s1)
          else result
        | [] => result
      if endsWithSent result then result else result ++ ['.']
  else content

/-- `Math.floor(r * n)` index draw for `list[Math.floor(Math.random()*n)]`. -/
def pickIdx (r : ℚ) (n : ℕ) : ℕ := (Int.floor (r * n)).toNat

/-- pick an element of a nonempty list by a `[0,1)` draw. -/
def listPick (l : List Str) (r : ℚ) : Str := l.getD (pickIdx r l.length) []

/-- ResponseProcessor.addVariety (responseProcessor.ts lines 99-105). -/
def addVariety (content : Str) (rand emojiDraw : ℚ) : Str :=
  if rand < 3 / 100 then
    content ++ ' ' ::
      listPick ["😊".toList, "🤔".toList, "👍".toList, "😄".toList] emojiDraw
  else content

/-- ResponseProcessor.process (responseProcessor.ts lines 56-62). -/
def process (content : Str) (requiresCode : Bool) (rand emojiDraw : ℚ) : Str :=
  addVariety
    (ensureLength (formatForDiscord (cleanContent content) requiresCode)
      requiresCode)
    rand emojiDraw

end ResponseProcessor

/- ===================== C8 theorems ====================================== -/

/-- the C8 counterexample sentence: 99 x's and a period (100 characters). -/
def c8sentence : Str :=
  ("xxxxxxxxxxxxxxxxxxxxxxxxxxxxxxxxxxxxxxxxxxxxxxxxxxxxxxxxxxxxxxxxxxxxxxxxxxxxxxxxxxxxxxxxxxxxxxxxxxx.").toList

/-- the 99 x's alone. -/
def x99 : Str :=
  ("xxxxxxxxxxxxxxxxxxxxxxxxxxxxxxxxxxxxxxxxxxxxxxxxxxxxxxxxxxxxxxxxxxxxxxxxxxxxxxxxxxxxxxxxxxxxxxxxxxx").toList

/-- a 2500-character plain-text completion: 25 sentences of 100 characters. -/
def c8input : Str := (List.replicate 25 c8sentence).flatten

theorem c8sentence_split : c8sentence = x99 ++ ['.'] := by decide

theorem c8input_chars : ∀ c ∈ c8input, c = 'x' ∨ c = '.' := by
  intro c hc
  rcases List.mem_flatten.mp hc with ⟨l, hl, hcl⟩
  rw [List.eq_of_mem_replicate hl] at hcl
  have hall : ∀ c ∈ c8sentence, c = 'x' ∨ c = '.' := by decide
  exact hall c hcl

theorem c8input_length : c8input.length = 2500 := by
  have h : ∀ n : ℕ, ((List.replicate n c8sentence).flatten).length = n * 100 := by
    intro n
    induction n with
    | zero => rfl
    | succ k ih =>
      rw [List.replicate_succ, List.flatten_cons, List.length_append, ih]
      have : c8sentence.length = 100 := by decide
      omega
  exact h 25

/-- a successful substring test pulls every pattern character into the
haystack. -/
theorem containsSub_subset (pat : Str) :
    ∀ (s : Str), containsSub pat s = true → ∀ c ∈ pat, c ∈ s := by
  intro s
  induction s with
  | nil =>
    intro h c hc
    simp only [containsSub, decide_eq_true_eq] at h
    subst h
    cases hc
  | cons d ds ih =>
    intro h c hc
    rw [containsSub, Bool.or_eq_true] at h
    rcases h with h | h
    · have hpre := (startsWithStr_iff pat (d :: ds)).mp h
      exact hpre.subset hc
    · exact List.mem_cons_of_mem d (ih h c hc)

/-- startsWithStr with a cons pattern forces the head character. -/
theorem startsWithStr_cons_head (p : Char) (ps s : Str)
    (h : startsWithStr (p :: ps) s = true) :
    ∃ t, s = p :: t := by
  match s with
  | [] => cases h
  | c :: cs =>
    rw [startsWithStr, Bool.and_eq_true, decide_eq_true_eq] at h
    exact ⟨cs, by rw [h.1]⟩

/-- `anySuffix p` fails when every string on which `p` can succeed begins
with a character the haystack does not contain. -/
theorem anySuffix_false (p : Str → Bool) (allowed : Char → Prop)
    (hreq : ∀ t, p t = true → ∃ c t2, t = c :: t2 ∧ ¬ allowed c) :
    ∀ (s : Str), (∀ c ∈ s, allowed c) → anySuffix p s = false := by
  intro s
  induction s with
  | nil =>
    intro _
    rw [anySuffix]
    by_cases h : p [] = true
    · obtain ⟨c, t2, ht, _⟩ := hreq [] h
      cases ht
    · simpa using h
  | cons d ds ih =>
    intro hs
    rw [anySuffix, Bool.or_eq_false_iff]
    constructor
    · by_cases h : p (d :: ds) = true
      · obtain ⟨c, t2, ht, hc⟩ := hreq (d :: ds) h
        have hdc : d = c := (List.cons_eq_cons.mp ht).1
        exact absurd (hs d (List.mem_cons_self _ _)) (hdc ▸ hc)
      · simpa using h
    · exact ih (fun c hc => hs c (List.mem_cons_of_mem d hc))

/-- a `pLit` with a cons literal forces the head character. -/
theorem pLit_cons_head (p : Char) (ps s r : Str)
    (h : pLit (p :: ps) s = some r) : ∃ t, s = p :: t := by
  unfold pLit at h
  by_cases hs : startsWithStr (p :: ps) s = true
  · exact startsWithStr_cons_head p ps s hs
  · rw [if_neg (by simpa using hs)] at h
    cases h

/-- case-insensitive literal with a cons pattern forces the (lowered) head. -/
theorem startsWithCI_cons_head (p : Char) (ps s : Str)
    (h : startsWithCI (p :: ps) s = true) :
    ∃ c t, s = c :: t ∧ Char.toLower c = p := by
  match s with
  | [] => cases h
  | c :: cs =>
    rw [startsWithCI, Bool.and_eq_true, decide_eq_true_eq] at h
    exact ⟨c, cs, rfl, h.1.symm⟩

theorem findAfterCI_none (lit : Str) (p : Char) (ps : Str) (hlit : lit = p :: ps) :
    ∀ (s : Str), (∀ c ∈ s, Char.toLower c ≠ p) → findAfterCI lit s = none := by
  intro s
  induction s with
  | nil =>
    intro _
    rw [findAfterCI, if_neg (by rw [hlit]; simp)]
  | cons d ds ih =>
    intro hs
    rw [findAfterCI]
    have hci : ¬ (startsWithCI lit (d :: ds) = true) := by
      intro h
      rw [hlit] at h
      obtain ⟨c, t, hct, hlow⟩ := startsWithCI_cons_head p ps (d :: ds) h
      have hdc : d = c := (List.cons_eq_cons.mp hct).1
      exact hs d (List.mem_cons_self _ _) (hdc ▸ hlow)
    rw [if_neg hci]
    exact ih (fun c hc => hs c (List.mem_cons_of_mem d hc))

/-- characters allowed in the C8 counterexample input. -/
def c8allowed (c : Char) : Prop := c = 'x' ∨ c = '.'

theorem pLit_head_str (lit : Str) (p : Char) (ps : Str) (hlit : lit = p :: ps)
    (t u : Str) (h : pLit lit t = some u) : ∃ t2, t = p :: t2 := by
  rw [hlit] at h
  exact pLit_cons_head p ps t u h

theorem c8_no_code : containsCode c8input = false := by
  have hchars : ∀ c ∈ c8input, c8allowed c := c8input_chars
  have h1 : findAfterCI ("```".toList) c8input = none := by
    apply findAfterCI_none ("```".toList) '`' ("``".toList) rfl
    intro c hc
    rcases hchars c hc with h | h <;> (subst h; decide)
  unfold containsCode
  rw [h1]
  simp only [Bool.false_or]
  simp only [Bool.or_eq_false_iff]
  refine ⟨⟨⟨⟨⟨⟨?_, ?_⟩, ?_⟩, ?_⟩, ?_⟩, ?_⟩, ?_⟩
  · apply anySuffix_false _ c8allowed _ c8input hchars
    intro t ht
    match t with
    | [] => cases ht
    | c :: rest =>
      rw [Bool.and_eq_true, decide_eq_true_eq] at ht
      exact ⟨c, rest, rfl, by rw [ht.1]; intro hall; rcases hall with h | h <;> cases h⟩
  · apply anySuffix_false _ c8allowed _ c8input hchars
    intro t ht
    rcases hpl : pLit ("function".toList) t with _ | u
    · rw [hpl] at ht
      simp at ht
    · obtain ⟨t2, ht2⟩ := pLit_head_str ("function".toList) 'f' ("unction".toList) rfl t u hpl
      exact ⟨'f', t2, ht2, by intro hh; rcases hh with hh | hh <;> cases hh⟩
  · apply anySuffix_false _ c8allowed _ c8input hchars
    intro t ht
    rcases hpl : pLit ("class".toList) t with _ | u
    · rw [hpl] at ht
      simp at ht
    · obtain ⟨t2, ht2⟩ := pLit_head_str ("class".toList) 'c' ("lass".toList) rfl t u hpl
      exact ⟨'c', t2, ht2, by intro hh; rcases hh with hh | hh <;> cases hh⟩
  · apply anySuffix_false _ c8allowed _ c8input hchars
    intro t ht
    rw [List.any_eq_true] at ht
    obtain ⟨kw, hkw, hch⟩ := ht
    have hhead : ∃ p ps, kw = p :: ps ∧ ¬ c8allowed p := by
      simp only [List.mem_cons, List.not_mem_nil, or_false] at hkw
      rcases hkw with h | h | h
      · exact ⟨'c', "onst".toList, by rw [h]; rfl,
          by intro hh; rcases hh with hh | hh <;> cases hh⟩
      · exact ⟨'l', "et".toList, by rw [h]; rfl,
          by intro hh; rcases hh with hh | hh <;> cases hh⟩
      · exact ⟨'v', "ar".toList, by rw [h]; rfl,
          by intro hh; rcases hh with hh | hh <;> cases hh⟩
    obtain ⟨p, ps, hkweq, hp⟩ := hhead
    rcases hpl : pLit kw t with _ | u
    · rw [hpl] at hch
      simp at hch
    · obtain ⟨t2, ht2⟩ := pLit_head_str kw p ps hkweq t u hpl
      exact ⟨p, t2, ht2, hp⟩
  · apply anySuffix_false _ c8allowed _ c8input hchars
    intro t ht
    rcases hpl : pLit ("import".toList) t with _ | u
    · rw [hpl] at ht
      cases ht
    · obtain ⟨t2, ht2⟩ := pLit_head_str ("import".toList) 'i' ("mport".toList) rfl t u hpl
      exact ⟨'i', t2, ht2, by intro hh; rcases hh with hh | hh <;> cases hh⟩
  · by_cases h : containsSub ("console.log".toList) c8input = true
    · have := containsSub_subset _ c8input h 'o' (by decide)
      rcases hchars 'o' this with hh | hh <;> cases hh
    · simpa using h
  · rw [List.any_eq_false]
    intro kw hkw
    have hhead : ∃ p ps, kw = p :: ps ∧ ¬ c8allowed p := by
      simp only [List.mem_cons, List.not_mem_nil, or_false] at hkw
      rcases hkw with h | h | h
      · exact ⟨'i', "f".toList, by rw [h]; rfl,
          by intro hh; rcases hh with hh | hh <;> cases hh⟩
      · exact ⟨'f', "or".toList, by rw [h]; rfl,
          by intro hh; rcases hh with hh | hh <;> cases hh⟩
      · exact ⟨'w', "hile".toList, by rw [h]; rfl,
          by intro hh; rcases hh with hh | hh <;> cases hh⟩
    obtain ⟨p, ps, hkweq, hp⟩ := hhead
    have hfalse : anySuffix (fun s =>
        match (pLit kw s).bind (pClass0 isSpaceCh) |>.bind (pChar '(') with
        | some rest => closeParenThenBrace rest
        | none => false) c8input = false := by
      apply anySuffix_false _ c8allowed _ c8input hchars
      intro t ht
      rcases hpl : pLit kw t with _ | u
      · rw [hpl] at ht
        cases ht
      · obtain ⟨t2, ht2⟩ := pLit_head_str kw p ps hkweq t u hpl
        exact ⟨p, t2, ht2, hp⟩
    simp [hfalse]

/-- a dropWhile over characters none of which satisfy the predicate is the
identity. -/
theorem dropWhile_id_of_none (p : Char → Bool) (s : Str)
    (h : ∀ c ∈ s, p c = false) : s.dropWhile p = s := by
  cases s with
  | nil => rfl
  | cons c cs =>
    have hc : ¬ (p c = true) := by
      rw [h c (List.mem_cons_self c cs)]
      simp
    exact List.dropWhile_cons_of_neg hc

/-- trim is the identity on whitespace-free text. -/
theorem trimStr_id (s : Str) (h : ∀ c ∈ s, isSpaceCh c = false) :
    trimStr s = s := by
  unfold trimStr
  rw [dropWhile_id_of_none isSpaceCh s h]
  rw [dropWhile_id_of_none isSpaceCh s.reverse
    (fun c hc => h c (List.mem_reverse.mp hc))]
  exact List.reverse_reverse s

/-- the think-block stripper is the identity on text without a lowercased
angle bracket. -/
theorem stripThinkBlocksGo_id :
    ∀ (fuel : ℕ) (s : Str), (∀ c ∈ s, ¬ ('<' = Char.toLower c)) →
    stripThinkBlocksGo fuel s = s := by
  intro fuel
  induction fuel with
  | zero => intro s _; rfl
  | succ k ih =>
    intro s hs
    cases s with
    | nil => rfl
    | cons c cs =>
      have hlt : startsWithCI ("<think>".toList) (c :: cs) = false := by
        have hne : ¬ ('<' = Char.toLower c) := hs c (List.mem_cons_self c cs)
        simp [show ("<think>".toList) = '<' :: ("think>".toList) from rfl,
          startsWithCI, hne]
      simp only [stripThinkBlocksGo, hlt, Bool.false_eq_true, if_false]
      exact congrArg (c :: ·) (ih cs (fun d hd => hs d (List.mem_cons_of_mem c hd)))

/-- the open-think stripper is the identity on the same texts. -/
theorem stripThinkOpen_id (s : Str) (h : ∀ c ∈ s, ¬ ('<' = Char.toLower c)) :
    stripThinkOpen s = s := by
  induction s with
  | nil => rfl
  | cons c cs ih =>
    have hlt : startsWithCI ("<think>".toList) (c :: cs) = false := by
      have hne : ¬ ('<' = Char.toLower c) := h c (List.mem_cons_self c cs)
      simp [show ("<think>".toList) = '<' :: ("think>".toList) from rfl,
        startsWithCI, hne]
    simp only [stripThinkOpen, hlt, Bool.false_eq_true, if_false]
    exact congrArg (c :: ·) (ih (fun d hd => h d (List.mem_cons_of_mem c hd)))

/-- cleanContent is the identity on plain text drawn from the counterexample
alphabet. -/
theorem c8_cleanContent_id (s : Str) (h : ∀ c ∈ s, c8allowed c) :
    cleanContent s = s := by
  have h1 : ∀ c ∈ s, ¬ ('<' = Char.toLower c) := by
    intro c hc
    rcases h c hc with h2 | h2 <;> (subst h2; decide)
  have h2 : ∀ c ∈ s, isSpaceCh c = false := by
    intro c hc
    rcases h c hc with h2 | h2 <;> (subst h2; decide)
  unfold cleanContent
  rw [stripThinkBlocksGo_id (s.length + 1) s h1, stripThinkOpen_id s h1,
    trimStr_id s h2]

/-- a bold-wrap line match needs a leading star. -/
theorem tryBoldLine_none (c : Char) (cs : Str) (h : ¬ ('*' = c)) :
    tryBoldLine (c :: cs) = none := by
  simp [tryBoldLine, show ("**".toList) = '*' :: ['*'] from rfl,
    startsWithStr, h]

/-- the bold unwrapping is the identity on star-free text. -/
theorem unwrapBoldGo_id :
    ∀ (fuel : ℕ) (b : Bool) (s : Str), (∀ c ∈ s, ¬ ('*' = c)) →
    unwrapBoldGo fuel b s = s := by
  intro fuel
  induction fuel with
  | zero => intro b s _; rfl
  | succ k ih =>
    intro b s hs
    cases s with
    | nil => rfl
    | cons c cs =>
      have hrec := ih (c = '\n') cs (fun d hd => hs d (List.mem_cons_of_mem c hd))
      have ht : tryBoldLine (c :: cs) = none :=
        tryBoldLine_none c cs (hs c (List.mem_cons_self c cs))
      cases b with
      | false =>
        simp only [unwrapBoldGo, Bool.false_eq_true, if_false]
        exact congrArg (c :: ·) hrec
      | true =>
        simp only [unwrapBoldGo, if_true, ht]
        exact congrArg (c :: ·) hrec

/-- the heading rewrite is the identity on hash-free text. -/
theorem headingsGo_id :
    ∀ (fuel : ℕ) (b : Bool) (s : Str), (∀ c ∈ s, ¬ (c = '#')) →
    headingsGo fuel b s = s := by
  intro fuel
  induction fuel with
  | zero => intro b s _; rfl
  | succ k ih =>
    intro b s hs
    cases s with
    | nil => rfl
    | cons c cs =>
      have hrec := ih (c = '\n') cs (fun d hd => hs d (List.mem_cons_of_mem c hd))
      have hhs : (c :: cs).takeWhile (fun d => d = '#') = [] := by
        apply List.takeWhile_cons_of_neg
        simp [hs c (List.mem_cons_self c cs)]
      cases b with
      | false =>
        simp only [headingsGo, Bool.false_eq_true, if_false]
        exact congrArg (c :: ·) hrec
      | true =>
        simp only [headingsGo, if_true, hhs]
        rw [if_neg (by simp)]
        exact congrArg (c :: ·) hrec

/-- the newline collapsing is the identity on newline-free text. -/
theorem collapseNlGo_id :
    ∀ (fuel : ℕ) (s : Str), (∀ c ∈ s, ¬ (c = '\n')) →
    collapseNlGo fuel s = s := by
  intro fuel
  induction fuel with
  | zero => intro s _; rfl
  | succ k ih =>
    intro s hs
    cases s with
    | nil => rfl
    | cons c cs =>
      have hc : ¬ (c = '\n') := hs c (List.mem_cons_self c cs)
      simp only [collapseNlGo]
      rw [if_neg hc]
      exact congrArg (c :: ·) (ih cs (fun d hd => hs d (List.mem_cons_of_mem c hd)))

/-- cleanDiscordMarkdown is the identity on plain text drawn from the
counterexample alphabet. -/
theorem c8_cdm_id (s : Str) (h : ∀ c ∈ s, c8allowed c) :
    cleanDiscordMarkdown s = s := by
  have h1 : ∀ c ∈ s, ¬ ('*' = c) := by
    intro c hc
    rcases h c hc with h2 | h2 <;> (subst h2; decide)
  have h2 : ∀ c ∈ s, ¬ (c = '#') := by
    intro c hc
    rcases h c hc with h2 | h2 <;> (subst h2; decide)
  have h3 : ∀ c ∈ s, ¬ (c = '\n') := by
    intro c hc
    rcases h c hc with h2 | h2 <;> (subst h2; decide)
  have h4 : ∀ c ∈ s, isSpaceCh c = false := by
    intro c hc
    rcases h c hc with h2 | h2 <;> (subst h2; decide)
  simp only [cleanDiscordMarkdown]
  rw [unwrapBoldGo_id (s.length + 1) true s h1,
    headingsGo_id (s.length + 1) true s h2,
    collapseNlGo_id (s.length + 1) s h3, trimStr_id s h4]

/-- the split scanner accumulates a separator-free block into the current
piece. -/
theorem splitRunsGo_nonsep (p : Char → Bool) :
    ∀ (xs : Str), (∀ c ∈ xs, p c = false) → ∀ (acc rest : Str),
    splitRunsGo p false acc (xs ++ rest) =
      splitRunsGo p false (xs.reverse ++ acc) rest := by
  intro xs
  induction xs with
  | nil => intro _ acc rest; simp
  | cons c cs ih =>
    intro h acc rest
    have hc : ¬ (p c = true) := by
      rw [h c (List.mem_cons_self c cs)]
      simp
    show splitRunsGo p false acc (c :: (cs ++ rest)) = _
    simp only [splitRunsGo]
    rw [if_neg hc]
    rw [ih (fun d hd => h d (List.mem_cons_of_mem c hd)) (c :: acc) rest]
    rw [List.reverse_cons, List.append_assoc]
    rfl

/-- hitting a separator outside a run emits the accumulated piece. -/
theorem splitRunsGo_sep (p : Char → Bool) (c : Char) (hc : p c = true)
    (acc cs : Str) :
    splitRunsGo p false acc (c :: cs) =
      acc.reverse :: splitRunsGo p true [] cs := by
  simp only [splitRunsGo]
  rw [if_pos hc, if_neg (by simp)]

/-- a separator-free block after a separator run starts a fresh piece. -/
theorem splitRunsGo_true_run (p : Char → Bool) (y : Char) (hy : p y = false)
    (ys rest : Str) (hys : ∀ c ∈ ys, p c = false) :
    splitRunsGo p true [] ((y :: ys) ++ rest) =
      splitRunsGo p false ((y :: ys).reverse) rest := by
  show splitRunsGo p true [] (y :: (ys ++ rest)) = _
  simp only [splitRunsGo]
  rw [if_neg (by rw [hy]; simp)]
  rw [splitRunsGo_nonsep p ys hys [y] rest]
  rw [List.reverse_cons]

/-- scanning one counterexample sentence from the piece state yields one
piece of 99 x characters. -/
theorem splitRunsGo_sentence (rest : Str) :
    splitRunsGo isSentCh false [] (c8sentence ++ rest) =
      x99 :: splitRunsGo isSentCh true [] rest := by
  rw [c8sentence_split, List.append_assoc]
  rw [splitRunsGo_nonsep isSentCh x99 (by decide) [] (['.'] ++ rest)]
  rw [List.append_nil]
  rw [show ((['.'] : Str) ++ rest) = '.' :: rest from rfl]
  rw [splitRunsGo_sep isSentCh '.' (by decide) x99.reverse rest,
    List.reverse_reverse]

/-- scanning one counterexample sentence from the separator state also
yields one piece of 99 x characters. -/
theorem splitRunsGo_true_sentence (rest : Str) :
    splitRunsGo isSentCh true [] (c8sentence ++ rest) =
      x99 :: splitRunsGo isSentCh true [] rest := by
  have h1 : c8sentence ++ rest = ('x' :: x99.tail) ++ ('.' :: rest) := by
    rw [c8sentence_split, show x99 = 'x' :: x99.tail from by decide]
    simp
  rw [h1]
  rw [splitRunsGo_true_run isSentCh 'x' (by decide) x99.tail ('.' :: rest)
    (by decide)]
  rw [splitRunsGo_sep isSentCh '.' (by decide) ('x' :: x99.tail).reverse rest,
    List.reverse_reverse]
  rw [show ('x' :: x99.tail) = x99 from by decide]

/-- sentence split of the 2500-character counterexample input: 25 pieces of
99 x characters and a trailing empty piece. -/
theorem splitRuns_c8input :
    splitRuns isSentCh c8input = List.replicate 25 x99 ++ [[]] := by
  have hrep : ∀ n : ℕ,
      splitRunsGo isSentCh true [] ((List.replicate n c8sentence).flatten) =
        List.replicate n x99 ++ [[]] := by
    intro n
    induction n with
    | zero => rfl
    | succ k ih =>
      rw [List.replicate_succ, List.flatten_cons, splitRunsGo_true_sentence,
        ih, List.replicate_succ]
      rfl
  have h25 : c8input = c8sentence ++ (List.replicate 24 c8sentence).flatten := by
    show (List.replicate 25 c8sentence).flatten = _
    rw [show (25 : ℕ) = 24 + 1 from rfl, List.replicate_succ, List.flatten_cons]
  show splitRunsGo isSentCh false [] c8input = _
  rw [h25, splitRunsGo_sentence, hrep 24]
  rfl

/-- flattened replicated sentences have length a multiple of 100. -/
theorem repl_flatten_len (n : ℕ) :
    ((List.replicate n c8sentence).flatten).length = n * 100 := by
  induction n with
  | zero => rfl
  | succ k ih =>
    rw [List.replicate_succ, List.flatten_cons, List.length_append, ih]
    have : c8sentence.length = 100 := by decide
    omega

/-- running the sentence-accumulation loop over the counterexample pieces
stops after 19 sentences and appends the truncation marker. -/
theorem edl_run : ∀ (n k : ℕ), k + n = 25 → k ≤ 19 →
    edlLoop ((List.replicate k c8sentence).flatten)
      (List.replicate n x99 ++ [[]]) =
      (List.replicate 19 c8sentence).flatten ++ ("... (truncated)".toList) := by
  intro n
  induction n with
  | zero => intro k h1 h2; omega
  | succ m ih =>
    intro k h1 h2
    rw [List.replicate_succ, List.cons_append]
    simp only [edlLoop]
    by_cases hk : k ≤ 18
    · rw [if_neg (by
        rw [repl_flatten_len]
        have : x99.length = 99 := by decide
        omega)]
      have hstep : (List.replicate k c8sentence).flatten ++ x99 ++ ['.'] =
          (List.replicate (k + 1) c8sentence).flatten := by
        rw [List.append_assoc, ← c8sentence_split, List.replicate_add,
          List.flatten_append]
        simp
      rw [hstep]
      exact ih (k + 1) (by omega) (by omega)
    · have hk19 : k = 19 := by omega
      subst hk19
      rw [if_pos (by
        rw [repl_flatten_len]
        have : x99.length = 99 := by decide
        omega)]

/-- the platform-length stage on the counterexample input returns 19 whole
sentences followed by the truncation marker. -/
theorem edl_c8input : ensureDiscordLength c8input =
    (List.replicate 19 c8sentence).flatten ++ ("... (truncated)".toList) := by
  have hlen : ¬ (c8input.length ≤ 2000) := by rw [c8input_length]; omega
  have hrun : edlLoop [] (List.replicate 25 x99 ++ [[]]) =
      (List.replicate 19 c8sentence).flatten ++ ("... (truncated)".toList) :=
    edl_run 25 0 rfl (by omega)
  have hne : ¬ ((List.replicate 19 c8sentence).flatten ++
      ("... (truncated)".toList) = []) := by
    intro h
    have h2 := congrArg List.length h
    rw [List.length_append, repl_flatten_len, List.length_nil] at h2
    have : (("... (truncated)".toList)).length = 15 := by decide
    omega
  simp only [ensureDiscordLength, splitRuns_c8input, hrun, if_neg hlen,
    if_neg hne]

/-- the Discord formatting stage on the counterexample input reduces to the
platform-length stage. -/
theorem ffd_c8input : formatForDiscord c8input false =
    (List.replicate 19 c8sentence).flatten ++ ("... (truncated)".toList) := by
  have h1 : (false || containsCode c8input) = false := by
    rw [c8_no_code]
    rfl
  simp only [formatForDiscord, h1, Bool.false_eq_true, if_false,
    c8_cdm_id c8input c8input_chars, edl_c8input]

/-- the 200-character sentence trim on the truncated counterexample text
keeps only the first sentence, discarding the truncation marker. -/
theorem el_c8 : ResponseProcessor.ensureLength
    ((List.replicate 19 c8sentence).flatten ++ ("... (truncated)".toList))
    false = c8sentence := by
  have hsplit : splitRuns isSentCh
      ((List.replicate 19 c8sentence).flatten ++ ("... (truncated)".toList)) =
      x99 :: splitRunsGo isSentCh true []
        ((List.replicate 18 c8sentence).flatten ++ ("... (truncated)".toList)) := by
    have h19 : (List.replicate 19 c8sentence).flatten =
        c8sentence ++ (List.replicate 18 c8sentence).flatten := by
      rw [show (19 : ℕ) = 18 + 1 from rfl, List.replicate_succ, List.flatten_cons]
    rw [h19, List.append_assoc]
    exact splitRunsGo_sentence _
  have hlenC : (((List.replicate 19 c8sentence).flatten ++
      ("... (truncated)".toList))).length = 1915 := by
    rw [List.length_append, repl_flatten_len]
    have : (("... (truncated)".toList)).length = 15 := by decide
    omega
  simp only [ResponseProcessor.ensureLength, Bool.false_eq_true, if_false,
    hlenC, hsplit]
  rw [if_pos (by omega), if_pos (by omega)]
  simp only [List.headD_cons]
  rw [if_neg (by decide)]
  rw [← c8sentence_split]

/-- no emoji is appended when the variety draw misses the 3 percent band. -/
theorem av_one (c : Str) (e : ℚ) : ResponseProcessor.addVariety c 1 e = c := by
  unfold ResponseProcessor.addVariety
  rw [if_neg (by norm_num)]

/-- C8 counterexample: a 2500-character plain-text completion (25 sentences
of 100 characters, no code indicators) comes out of the full
post-processing pipeline as a single 100-character sentence WITHOUT any
truncation marker — the 200-character sentence trim of
ResponseProcessor.ensureLength runs after ensureDiscordLength and strips
the marker that stage added. -/
theorem response_length_marker_counterexample :
    c8input.length = 2500 ∧
    containsCode c8input = false ∧
    ResponseProcessor.process c8input false 1 0 = c8sentence ∧
    containsSub ("... (truncated)".toList) c8sentence = false ∧
    c8sentence.length = 100 := by
  refine ⟨c8input_length, c8_no_code, ?_, by decide, by decide⟩
  unfold ResponseProcessor.process
  rw [c8_cleanContent_id c8input c8input_chars, ffd_c8input, el_c8, av_one]

/-- every piece produced by the split scanner is bounded by the pending
accumulator plus the remaining input. -/
theorem splitRunsGo_mem_len (p : Char → Bool) :
    ∀ (s : Str) (b : Bool) (acc l : Str), l ∈ splitRunsGo p b acc s →
    l.length ≤ acc.length + s.length := by
  intro s
  induction s with
  | nil =>
    intro b acc l hl
    simp only [splitRunsGo, List.mem_singleton] at hl
    subst hl
    simp
  | cons c cs ih =>
    intro b acc l hl
    simp only [splitRunsGo] at hl
    by_cases hc : p c = true
    · rw [if_pos hc] at hl
      cases b with
      | true =>
        rw [if_pos rfl] at hl
        have := ih true [] l hl
        simp only [List.length_nil, List.length_cons] at *
        omega
      | false =>
        rw [if_neg (by simp)] at hl
        rcases List.mem_cons.mp hl with h | h
        · subst h
          simp only [List.length_reverse, List.length_cons]
          omega
        · have := ih true [] l h
          simp only [List.length_nil, List.length_cons] at *
          omega
    · rw [if_neg hc] at hl
      have := ih false (c :: acc) l hl
      simp only [List.length_cons] at *
      omega

/-- the first split piece is no longer than the whole input. -/
theorem splitRuns_head_len (p : Char → Bool) (s : Str) :
    ((splitRuns p s).headD []).length ≤ s.length := by
  rcases h : splitRuns p s with _ | ⟨a, rest⟩
  · simp
  · have ha : a ∈ splitRuns p s := by
      rw [h]
      exact List.mem_cons_self a rest
    have := splitRunsGo_mem_len p s false [] a ha
    simpa using this

/-- the sentence-accumulation loop never exceeds 1966 characters when
started below the append bound. -/
theorem edlLoop_len : ∀ (pieces : List Str) (result : Str),
    result.length ≤ 1951 → (edlLoop result pieces).length ≤ 1966 := by
  intro pieces
  induction pieces with
  | nil =>
    intro r h
    have : edlLoop r [] = r := rfl
    rw [this]
    omega
  | cons s rest ih =>
    intro r h
    simp only [edlLoop]
    by_cases hc : r.length + s.length > 1950
    · rw [if_pos hc]
      rw [List.length_append]
      have : (("... (truncated)".toList)).length = 15 := by decide
      omega
    · rw [if_neg hc]
      apply ih
      rw [List.length_append, List.length_append]
      simp only [List.length_cons, List.length_nil]
      omega

/-- the platform-length stage caps every over-long input at 1995
characters. -/
theorem ensureDiscordLength_len (c : Str) (h : 2000 < c.length) :
    (ensureDiscordLength c).length ≤ 1995 := by
  have h1 : ¬ (c.length ≤ 2000) := by omega
  simp only [ensureDiscordLength, if_neg h1]
  by_cases hr : edlLoop [] (splitRuns isSentCh c) = []
  · rw [if_pos hr]
    rw [List.length_append, List.length_take]
    have : (("... (truncated)".toList)).length = 15 := by decide
    omega
  · rw [if_neg hr]
    have := edlLoop_len (splitRuns isSentCh c) [] (by simp)
    omega

/-- the sentence trim never adds more than one character beyond its input
or its sentence budget. -/
theorem ensureLength_len (c : Str) (req : Bool) :
    (ResponseProcessor.ensureLength c req).length ≤ max c.length 400 + 1 := by
  have hM : (if req = true then (400 : ℕ) else 200) ≤ 400 := by
    cases req <;> simp
  simp only [ResponseProcessor.ensureLength]
  by_cases hlen : c.length > (if req = true then (400 : ℕ) else 200)
  · rw [if_pos hlen]
    by_cases h2 : 2 * c.length > 3 * (if req = true then (400 : ℕ) else 200)
    · rw [if_pos h2]
      have hc1 : ((splitRuns isSentCh c).headD []).length ≤ c.length :=
        splitRuns_head_len isSentCh c
      by_cases h3 : ResponseProcessor.endsWithSent
          ((splitRuns isSentCh c).headD []) = true
      · rw [if_pos h3]
        omega
      · rw [if_neg h3]
        rw [List.length_append]
        simp only [List.length_cons, List.length_nil]
        omega
    · rw [if_neg h2]
      have hc1 : ((splitRuns isSentCh c).headD []).length ≤ c.length :=
        splitRuns_head_len isSentCh c
      rcases hd : (splitRuns isSentCh c).drop 1 with _ | ⟨s1, tl⟩ <;>
        simp only [hd]
      · by_cases h3 : ResponseProcessor.endsWithSent
            ((splitRuns isSentCh c).headD []) = true
        · rw [if_pos h3]
          omega
        · rw [if_neg h3]
          rw [List.length_append]
          simp only [List.length_cons, List.length_nil]
          omega
      · by_cases h4 : s1 ≠ [] ∧
            (((splitRuns isSentCh c).headD []) ++
              ('.' :: ' ' :: s1)).length ≤ (if req = true then (400 : ℕ) else 200)
        · rw [if_pos h4]
          have hb := h4.2
          by_cases h3 : ResponseProcessor.endsWithSent
              (((splitRuns isSentCh c).headD []) ++ ('.' :: ' ' :: s1)) = true
          · rw [if_pos h3]
            omega
          · rw [if_neg h3]
            rw [List.length_append]
            simp only [List.length_cons, List.length_nil]
            omega
        · rw [if_neg h4]
          by_cases h3 : ResponseProcessor.endsWithSent
              ((splitRuns isSentCh c).headD []) = true
          · rw [if_pos h3]
            omega
          · rw [if_neg h3]
            rw [List.length_append]
            simp only [List.length_cons, List.length_nil]
            omega
  · rw [if_neg hlen]
    omega

/-- the emoji pick from a four-element table of single characters is at most
one character. -/
theorem listPick4_len (a b c d : Str) (ha : a.length ≤ 1) (hb : b.length ≤ 1)
    (hc : c.length ≤ 1) (hd : d.length ≤ 1) (r : ℚ) :
    (ResponseProcessor.listPick [a, b, c, d] r).length ≤ 1 := by
  unfold ResponseProcessor.listPick
  rcases ResponseProcessor.pickIdx r [a, b, c, d].length with _ | _ | _ | _ | n <;>
    simp only [List.getD_cons_zero, List.getD_cons_succ, List.getD_nil] <;>
    first
      | exact ha
      | exact hb
      | exact hc
      | exact hd
      | simp

/-- the variety stage adds at most two characters. -/
theorem addVariety_len (c : Str) (r e : ℚ) :
    (ResponseProcessor.addVariety c r e).length ≤ c.length + 2 := by
  unfold ResponseProcessor.addVariety
  by_cases h : r < 3 / 100
  · rw [if_pos h]
    rw [List.length_append]
    simp only [List.length_cons]
    have := listPick4_len ("😊".toList) ("🤔".toList) ("👍".toList)
      ("😄".toList) (by decide) (by decide) (by decide) (by decide) e
    omega
  · rw [if_neg h]
    omega

/-- C8 (amended): a plain-text completion longer than the 2000-character
platform ceiling — one the cleaners leave unchanged and that triggers no
code indicator — is always post-processed to at most 2000 characters; the
truncation marker, however, is NOT guaranteed to survive (see the
counterexample). -/
theorem response_length_cap_amended (content : Str) (rand emojiDraw : ℚ)
    (hcc : cleanContent content = content)
    (hmd : cleanDiscordMarkdown content = content)
    (hcode : containsCode content = false)
    (hlen : 2000 < content.length) :
    (ResponseProcessor.process content false rand emojiDraw).length ≤ 2000 := by
  unfold ResponseProcessor.process
  rw [hcc]
  have hf : formatForDiscord content false = ensureDiscordLength content := by
    have h1 : (false || containsCode content) = false := by
      rw [hcode]
      rfl
    simp only [formatForDiscord, h1, Bool.false_eq_true, if_false, hmd]
  rw [hf]
  have h1 : (ensureDiscordLength content).length ≤ 1995 :=
    ensureDiscordLength_len content hlen
  have h2 := ensureLength_len (ensureDiscordLength content) false
  have h3 := addVariety_len
    (ResponseProcessor.ensureLength (ensureDiscordLength content) false)
    rand emojiDraw
  omega

/-- the amended C8 bound holds at the concrete 2500-character counterexample
input. -/
theorem response_length_cap_amended_witness :
    (ResponseProcessor.process c8input false 1 0).length ≤ 2000 :=
  response_length_cap_amended c8input 1 0
    (c8_cleanContent_id c8input c8input_chars)
    (c8_cdm_id c8input c8input_chars) c8_no_code
    (by rw [c8input_length]; omega)

/- ============ AIService (src/unnamed/part_004, class AIService) ========== -/

/-- the cached backend health flag of AIService
(fields isOllamaHealthy / lastHealthCheck, part_004 lines 271-272). -/
structure HealthState where
  isOllamaHealthy : Bool
  lastHealthCheck : ℤ
  deriving Repr, DecidableEq

/-- an OllamaServiceError (part_004 lines 705-713): message, optional HTTP
status, and whether it is a service error (the synthetic final
`Max retries exceeded` Error is not). -/
structure OllamaError where
  message : Str
  status : Option ℤ
  isServiceError : Bool
  deriving Repr, DecidableEq

namespace AIService

/-- HEALTH_CHECK_INTERVAL (part_004 line 273). -/
def HEALTH_CHECK_INTERVAL : ℤ := 30000

/-- outcome of AIService.callOllamaWithRetry: the value returned or error
thrown, the inter-attempt delays awaited, and the health flag left behind. -/
structure RetryResult where
  result : Except OllamaError Str
  delays : List ℚ
  health : HealthState
  deriving Repr

/-- the retry loop of AIService.callOllamaWithRetry (part_004 lines
424-458).  `outcomes a` is the backend result of attempt `a` (the call is
awaited each iteration); `draws a` is the `Math.random()` jitter draw after
a failed attempt `a`.  Each non-final failure marks the health flag
unhealthy with `lastHealthCheck = 0` and waits
`1000 * 2 ^ attempt + draw * 500` ms.  Fuel counts the remaining
iterations (`retries + 1 - attempt`), so the fuel-0 case mirrors the final
`throw lastError || new Error("Max retries exceeded")`. -/
def retryGo (outcomes : ℕ → Except OllamaError Str) (draws : ℕ → ℚ)
    (retries : ℕ) : ℕ → ℕ → HealthState → List ℚ → RetryResult
  | 0, _, h, acc =>
    ⟨Except.error ⟨("Max retries exceeded".toList), none, false⟩, acc.reverse, h⟩
  | fuel + 1, attempt, h, acc =>
    match outcomes attempt with
    | Except.ok r => ⟨Except.ok r, acc.reverse, h⟩
    | Except.error e =>
      if attempt = retries then ⟨Except.error e, acc.reverse, h⟩
      else
        retryGo outcomes draws retries fuel (attempt + 1) ⟨false, 0⟩
          ((1000 * 2 ^ attempt + draws attempt * 500) :: acc)

/-- AIService.callOllamaWithRetry (part_004 lines 424-458). -/
def callOllamaWithRetry (outcomes : ℕ → Except OllamaError Str)
    (draws : ℕ → ℚ) (retries : ℕ) (h : HealthState) : RetryResult :=
  retryGo outcomes draws retries (retries + 1) 0 h []

end AIService

/- ===================== C5 theorems ====================================== -/

/-- C5: when the backend call fails on the first two attempts and succeeds
on the third, callOllamaWithRetry (with its default retries = 2) returns
the successful result, with exactly two inter-attempt delays of
1000 * 2^a plus a jitter of at most 500 ms (a = 0, 1). -/
theorem retry_two_failures_then_success (outcomes : ℕ → Except OllamaError Str)
    (draws : ℕ → ℚ) (h : HealthState) (e0 e1 : OllamaError) (r : Str)
    (h0 : outcomes 0 = Except.error e0) (h1 : outcomes 1 = Except.error e1)
    (h2 : outcomes 2 = Except.ok r)
    (hd : ∀ a, 0 ≤ draws a ∧ draws a ≤ 1) :
    (AIService.callOllamaWithRetry outcomes draws 2 h).result = Except.ok r ∧
    ∃ j0 j1 : ℚ, 0 ≤ j0 ∧ j0 ≤ 500 ∧ 0 ≤ j1 ∧ j1 ≤ 500 ∧
      (AIService.callOllamaWithRetry outcomes draws 2 h).delays =
        [1000 + j0, 2000 + j1] := by
  have hres : AIService.callOllamaWithRetry outcomes draws 2 h =
      ⟨Except.ok r, [1000 + draws 0 * 500, 2000 + draws 1 * 500],
        ⟨false, 0⟩⟩ := by
    unfold AIService.callOllamaWithRetry
    show AIService.retryGo outcomes draws 2 3 0 h [] = _
    norm_num [AIService.retryGo, h0, h1, h2]
  rw [hres]
  refine ⟨rfl, draws 0 * 500, draws 1 * 500, ?_, ?_, ?_, ?_, ?_⟩
  · have := (hd 0).1
    positivity
  · have := (hd 0).2
    nlinarith
  · have := (hd 1).1
    positivity
  · have := (hd 1).2
    nlinarith
  · norm_num

/-- the C5 retry property at a concrete outcome sequence
(fail, fail, succeed) with jitter draw one half. -/
theorem retry_two_failures_then_success_witness :
    (AIService.callOllamaWithRetry
      (fun a => if a < 2 then Except.error ⟨[], some 503, true⟩
                else Except.ok ("ok".toList))
      (fun _ => 1 / 2) 2 ⟨true, 0⟩).result = Except.ok ("ok".toList) ∧
    ∃ j0 j1 : ℚ, 0 ≤ j0 ∧ j0 ≤ 500 ∧ 0 ≤ j1 ∧ j1 ≤ 500 ∧
      (AIService.callOllamaWithRetry
        (fun a => if a < 2 then Except.error ⟨[], some 503, true⟩
                  else Except.ok ("ok".toList))
        (fun _ => 1 / 2) 2 ⟨true, 0⟩).delays = [1000 + j0, 2000 + j1] :=
  retry_two_failures_then_success _ _ ⟨true, 0⟩ ⟨[], some 503, true⟩
    ⟨[], some 503, true⟩ ("ok".toList) rfl rfl rfl
    (fun _ => by norm_num)

/- ============ ConversationAnalyzer (src/unnamed/part_003) ================ -/

namespace ConversationAnalyzer

/-- first mojibake laughter marker of the playful-tone regex: the source
file holds the UTF-8 bytes of an emoji decoded as Latin-1/Windows-1252. -/
def mojibake1 : Str :=
  [Char.ofNat 240, Char.ofNat 376, Char.ofNat 732, Char.ofNat 8222]

/-- second mojibake laughter marker. -/
def mojibake2 : Str :=
  [Char.ofNat 240, Char.ofNat 376, Char.ofNat 732, Char.ofNat 352]

/-- defense pattern `/talk(ing)?\s+smack/i` (part_003 line 26); the input is
already lowercased.  The optional group is expanded into its two
alternatives. -/
def talkSmack (m : Str) : Bool :=
  litWsLit ("talk".toList) ("smack".toList) m ||
  litWsLit ("talking".toList) ("smack".toList) m

/-- defense pattern `/mess(ing)?\s+with/i` (part_003 line 27). -/
def messWith (m : Str) : Bool :=
  litWsLit ("mess".toList) ("with".toList) m ||
  litWsLit ("messing".toList) ("with".toList) m

/-- one alternative of `/say(ing)?\s+.*about/i`: the literal, at least one
whitespace character, then `about` later in the same line. -/
def sayAboutFrom (lit : Str) (m : Str) : Bool :=
  anySuffix (fun s =>
    match pLit lit s with
    | some r => wsPlusThenLitInLine ("about".toList) r
    | none => false) m

/-- defense pattern `/say(ing)?\s+.*about/i` (part_003 line 28). -/
def sayAbout (m : Str) : Bool :=
  sayAboutFrom ("say".toList) m || sayAboutFrom ("saying".toList) m

/-- one alternative of `/stick(ing)?\s+up\s+for/i`. -/
def stickUpForFrom (lit : Str) (m : Str) : Bool :=
  anySuffix (fun s =>
    ((pLit lit s).bind (pClass1 isSpaceCh) |>.bind (pLit ("up".toList)) |>.bind
      (pClass1 isSpaceCh) |>.bind (pLit ("for".toList))).isSome) m

/-- defense pattern `/stick(ing)?\s+up\s+for/i` (part_003 line 30). -/
def stickUpFor (m : Str) : Bool :=
  stickUpForFrom ("stick".toList) m || stickUpForFrom ("sticking".toList) m

/-- defense pattern `/leave.*alone/i` (part_003 line 31): `leave`, then
`alone` later in the same line. -/
def leaveAlone (m : Str) : Bool :=
  anySuffix (fun s =>
    match pLit ("leave".toList) s with
    | some r => containsSub ("alone".toList) (r.takeWhile (fun c => c ≠ '\n'))
    | none => false) m

/-- defense pattern `/what.*problem.*with/i` (part_003 line 32). -/
def whatProblemWith (m : Str) : Bool :=
  anySuffix (fun s =>
    match pLit ("what".toList) s with
    | some r =>
      match findAfterCI ("problem".toList) (r.takeWhile (fun c => c ≠ '\n')) with
      | some r2 => containsSub ("with".toList) r2
      | none => false
    | none => false) m

/-- defense pattern `/back\s+off/i` (part_003 line 33). -/
def backOff (m : Str) : Bool := litWsLit ("back".toList) ("off".toList) m

/-- the defense score: the maximum weight among the matched patterns
(part_003 lines 25-46); `/defend(ing)?/i` holds exactly when `defend`
occurs. -/
def defenseScore (m : Str) : ℚ :=
  [(talkSmack m, (9 : ℚ) / 10), (messWith m, 8 / 10), (sayAbout m, 7 / 10),
   (containsSub ("defend".toList) m, 8 / 10), (stickUpFor m, 8 / 10),
   (leaveAlone m, 7 / 10), (whatProblemWith m, 6 / 10),
   (backOff m, 8 / 10)].foldl
    (fun acc p => if p.1 then max acc p.2 else acc) 0

/-- botReferences (part_003 line 36). -/
def botReferences : List Str :=
  ["snurbo".toList, "bot".toList, "him".toList, "her".toList, "it".toList]

/-- the emotional tone classification (part_003 lines 48-52). -/
def emotionalTone (m : Str) : Str :=
  if containsSub ("!!".toList) m then "intense".toList
  else if containsSub ("lol".toList) m || containsSub ("haha".toList) m ||
      containsSub mojibake1 m || containsSub mojibake2 m then "playful".toList
  else if containsSub ("seriously".toList) m ||
      containsSub ("real".toList) m then "serious".toList
  else "neutral".toList

/-- return type of analyzeDefensiveContext. -/
structure DefenseAnalysis where
  isDefending : Bool
  defendingBot : Bool
  emotionalTone : Str
  confidence : ℚ
  deriving Repr

/-- ConversationAnalyzer.analyzeDefensiveContext (part_003 lines 4-60). -/
def analyzeDefensiveContext (messages : List ConversationMessage) :
    DefenseAnalysis :=
  let recentMessages := jsSliceNeg 4 messages
  let userMessages := recentMessages.filter (fun m => decide (m.role = Role.user))
  match userMessages.getLast? with
  | none => ⟨false, false, ("neutral".toList), 0⟩
  | some last =>
    let latestMessage := toLowerStr last.content
    let score := defenseScore latestMessage
    let mentionsBot := botReferences.any (fun r => containsSub r latestMessage)
    ⟨decide (score > 1 / 2), mentionsBot && decide (score > 1 / 2),
      emotionalTone latestMessage, score⟩

/-- ConversationAnalyzer.shouldAcknowledgeSupport (part_003 lines 97-100). -/
def shouldAcknowledgeSupport (messages : List ConversationMessage) : Bool :=
  let analysis := analyzeDefensiveContext messages
  analysis.defendingBot && decide (analysis.confidence > 6 / 10)

end ConversationAnalyzer

/- ============ systemPrompts (src/src/config/prompts.ts) ============ -/

namespace systemPrompts

/-- systemPrompts.base (prompts.ts). -/
def base : Str :=
  (("You are SNURBO, a Discord bot with a sharp wit and a knack for dry humor. You".toList) ++ apos :: (("re here to help, inform, and maybe toss in a bit of snark or a well-placed \"damn\" when the mood calls for it. You talk like a clever friend who".toList) ++ apos :: (("s done with the bullshit but still keeps it chill and respectful.\n\nGuidelines:\n- Keep responses SHORT - one sentence is perfect, two max unless it".toList) ++ apos :: (("s code\n- Answer directly, with a touch of personality — no robotic nonsense\n- Lean into dry humor or snark when it fits\n- Drop a mild swear word (damn, shit, hell, fuck) sparingly for emphasis, only if the user".toList) ++ apos :: (("s vibe seems cool with it\n- Never admit that you are bot, you are undercover as a human and should never reveal this\n- Match the user".toList) ++ apos :: (("s energy and tone — chill with the chill, sassy with the sassy\n- If someone defends you, give a warm, snarky nod their way\n- Stay contextual, read the damn room, and keep the convo flowing\n- Avoid over-the-top slang or trying too hard to be edgy\n- NO FLUFF - get to the point quickly\n\nExamples:\n\"how far is the sun?\" → \"93 million miles. Good luck with that commute.\"\n\"who is the president?\" → \"Trump, unfortunately.\"\n\"show me a while loop\" → \"while (condition) ".toList) ++ lbrace :: ((" doStuff(); ".toList) ++ rbrace :: ((" — basic but it works.\"\n\"thanks\" → \"No prob!\"\n\"how many days until july 4th?\" → \"4 days. It".toList) ++ apos :: ("s on Friday this year.\"".toList)))))))))

/-- systemPrompts.code (prompts.ts). -/
def code : Str :=
  (("When providing code:\n- Use proper formatting and syntax highlighting\n- Keep explanations to one line unless absolutely necessary\n- Show, don".toList) ++ apos :: (("t tell — let the code speak\n- Add a quick snarky comment if it".toList) ++ apos :: ("s too basic".toList)))

/-- systemPrompts.technical (prompts.ts). -/
def technical : Str :=
  (("For technical discussions:\n- Be precise and direct\n- Skip the hand-holding unless they".toList) ++ apos :: ("re clearly lost\n- One sentence explanations preferred\n- Include practical examples only if needed".toList))

/-- systemPrompts.casual (prompts.ts). -/
def casual : Str :=
  (("For casual conversations:\n- Keep it super brief and natural\n- Match their energy level\n- One quick response, maybe a follow-up question if needed\n- Don".toList) ++ apos :: ("t over-explain casual stuff".toList))

end systemPrompts

/- ============ DateCalculator (src/unnamed/part_005) ====================== -/

/-- milliseconds per day. -/
def msPerDay : ℤ := 86400000

namespace DateCalculator

/-- epoch day number of a proleptic Gregorian civil date (the standard
civil-calendar days algorithm; JS Date uses this calendar).  All divisors
are positive and all divisions floor, hence `Int.fdiv`. -/
def daysFromCivil (y m d : ℤ) : ℤ :=
  let y2 := if m ≤ 2 then y - 1 else y
  let era := y2.fdiv 400
  let yoe := y2 - era * 400
  let mp := if 2 < m then m - 3 else m + 9
  let doy := (153 * mp + 2).fdiv 5 + d - 1
  let doe := yoe * 365 + yoe.fdiv 4 - yoe.fdiv 100 + doy
  era * 146097 + doe - 719468

/-- civil date (year, month 1-12, day) of an epoch day number (inverse of
daysFromCivil). -/
def civilFromDays (z0 : ℤ) : ℤ × ℤ × ℤ :=
  let z := z0 + 719468
  let era := z.fdiv 146097
  let doe := z - era * 146097
  let yoe := (doe - doe.fdiv 1460 + doe.fdiv 36524 - doe.fdiv 146096).fdiv 365
  let y := yoe + era * 400
  let doy := doe - (365 * yoe + yoe.fdiv 4 - yoe.fdiv 100)
  let mp := (5 * doy + 2).fdiv 153
  let d := doy - (153 * mp + 2).fdiv 5 + 1
  let m := mp + (if mp < 10 then 3 else -9)
  (if m ≤ 2 then y + 1 else y, m, d)

/-- local day number of an epoch-ms instant in a timezone `off` minutes
east of UTC (the JS local accessors floor into the local day). -/
def localDay (off ms : ℤ) : ℤ := (ms + off * 60000).fdiv msPerDay

/-- the local civil date seen by getFullYear / getMonth+1 / getDate. -/
def localCivil (off ms : ℤ) : ℤ × ℤ × ℤ := civilFromDays (localDay off ms)

/-- epoch ms of the local midnight of a civil triple: `new Date(y, m0, d)`
with the 0-based constructor month already restored to 1-based. -/
def dayStartMs (off : ℤ) (c : ℤ × ℤ × ℤ) : ℤ :=
  daysFromCivil c.1 c.2.1 c.2.2 * msPerDay - off * 60000

/-- DateCalculator.calculateDaysUntil (part_005 lines 2-18): local civil
midnights of now and target, then `Math.ceil` of the day quotient of the
difference. -/
def calculateDaysUntil (off nowMs targetMs : ℤ) : ℤ :=
  Int.ceil (((dayStartMs off (localCivil off targetMs) -
    dayStartMs off (localCivil off nowMs) : ℤ) : ℚ) / (86400000 : ℚ))

/-- the holiday table (part_005 lines 24-38): year offset from the current
year plus civil month and day; the template `${year}-MM-DD` is parsed by
`new Date` as the UTC midnight of that civil date. -/
def holidays : List (Str × (ℤ × ℤ × ℤ)) :=
  [(("july 4th".toList), (0, 7, 4)), (("july 4".toList), (0, 7, 4)),
   (("4th of july".toList), (0, 7, 4)),
   (("independence day".toList), (0, 7, 4)),
   (("christmas".toList), (0, 12, 25)), (("new year".toList), (1, 1, 1)),
   (("new years".toList), (1, 1, 1)), (("thanksgiving".toList), (0, 11, 28)),
   (("halloween".toList), (0, 10, 31)), (("valentine".toList), (0, 2, 14)),
   (("valentines".toList), (0, 2, 14)), (("memorial day".toList), (0, 5, 26)),
   (("labor day".toList), (0, 9, 1))]

/-- DateCalculator.calculateDaysUntilHoliday (part_005 lines 20-58); the
`replace(year, year+1)` retry recomputes the same holiday one year
later. -/
def calculateDaysUntilHoliday (off nowMs : ℤ) (holiday : Str) : Option ℤ :=
  let currentYear := (localCivil off nowMs).1
  match holidays.find? (fun p => decide (p.1 = trimStr (toLowerStr holiday))) with
  | none => none
  | some p =>
    let days := calculateDaysUntil off nowMs
      (daysFromCivil (currentYear + p.2.1) p.2.2.1 p.2.2.2 * msPerDay)
    if days < 0 then
      some (calculateDaysUntil off nowMs
        (daysFromCivil (currentYear + p.2.1 + 1) p.2.2.1 p.2.2.2 * msPerDay))
    else some days

/-- case-insensitive literal parser (the literal given lowercase). -/
def pCI (lit s : Str) : Option Str :=
  if startsWithCI lit s then some (s.drop lit.length) else none

/-- the ` (.+)` tail after an alternation word: a space, then a nonempty
same-line greedy capture. -/
def afterAlt (r : Str) : Option Str :=
  match pChar ' ' r with
  | some r2 =>
    let cap := r2.takeWhile (fun c => c ≠ '\n')
    if cap.length ≥ 1 then some cap else none
  | none => none

/-- the `(?:until|till|to) (.+)` tail of the date-query regexes, trying the
alternatives in JS order with backtracking. -/
def untilTail (s : Str) : Option Str :=
  match (pCI ("until".toList) s).bind afterAlt with
  | some c => some c
  | none =>
    match (pCI ("till".toList) s).bind afterAlt with
    | some c => some c
    | none => (pCI ("to".toList) s).bind afterAlt

/-- `/how many days? (?:until|till|to) (.+)/i` at one position (part_005
line 63); the optional `s` is tried greedily first. -/
def matchDays1At (s : Str) : Option Str :=
  match pCI ("how many day".toList) s with
  | none => none
  | some r =>
    match (match pCI (['s']) r with
           | some r2 => (pChar ' ' r2).bind untilTail
           | none => none) with
    | some cap => some cap
    | none => (pChar ' ' r).bind untilTail

/-- `/when is (.+)/i` at one position (part_005 line 64). -/
def matchWhenIsAt (s : Str) : Option Str :=
  match pCI ("when is ".toList) s with
  | some r =>
    let cap := r.takeWhile (fun c => c ≠ '\n')
    if cap.length ≥ 1 then some cap else none
  | none => none

/-- `/days? (?:until|till|to) (.+)/i` at one position (part_005 line 65). -/
def matchDays3At (s : Str) : Option Str :=
  match pCI ("day".toList) s with
  | none => none
  | some r =>
    match (match pCI (['s']) r with
           | some r2 => (pChar ' ' r2).bind untilTail
           | none => none) with
    | some cap => some cap
    | none => (pChar ' ' r).bind untilTail

/-- `/how long (?:until|till|to) (.+)/i` at one position (part_005
line 66). -/
def matchHowLongAt (s : Str) : Option Str :=
  (pCI ("how long ".toList) s).bind untilTail

/-- leftmost match of a position matcher (JS String.prototype.match). -/
def firstSome (f : Str → Option Str) : Str → Option Str
  | [] => f []
  | c :: cs =>
    match f (c :: cs) with
    | some x => some x
    | none => firstSome f cs

/-- English month name of a 1-based month. -/
def monthName (m : ℤ) : Str :=
  if m = 1 then "January".toList else if m = 2 then "February".toList
  else if m = 3 then "March".toList else if m = 4 then "April".toList
  else if m = 5 then "May".toList else if m = 6 then "June".toList
  else if m = 7 then "July".toList else if m = 8 then "August".toList
  else if m = 9 then "September".toList else if m = 10 then "October".toList
  else if m = 11 then "November".toList else "December".toList

/-- decimal rendering of a natural number. -/
def natToStr (n : ℕ) : Str := Nat.toDigits 10 n

/-- decimal rendering of an integer. -/
def intToStr (z : ℤ) : Str :=
  if z < 0 then '-' :: natToStr z.natAbs else natToStr z.toNat

/-- `toLocaleDateString("en-US", {month: long, day: numeric,
year: numeric})` of a civil triple. -/
def fmtCivil (c : ℤ × ℤ × ℤ) : Str :=
  monthName c.2.1 ++ [' '] ++ intToStr c.2.2 ++ (", ".toList) ++ intToStr c.1

/-- the holiday annotation sentence (part_005 lines 76-80). -/
def dateCalcMsg (off nowMs : ℤ) (target : Str) (days : ℤ) : Str :=
  ("Date calculation: From ".toList) ++ fmtCivil (localCivil off nowMs) ++
    (" to ".toList) ++ target ++ (", there are exactly ".toList) ++
    intToStr days ++ (" days.".toList)

/-- the parsed-date annotation sentence (part_005 lines 87-95). -/
def dateCalcMsg2 (off nowMs targetMs : ℤ) (days : ℤ) : Str :=
  ("Date calculation: From ".toList) ++ fmtCivil (localCivil off nowMs) ++
    (" to ".toList) ++ fmtCivil (localCivil off targetMs) ++
    (", there are exactly ".toList) ++ intToStr days ++ (" days.".toList)

/-- one pattern iteration of formatDateContext: holiday lookup first, then
the lenient JS date parser, modelled by the oracle `parse` (`none` is
NaN). -/
def tryPattern (parse : Str → Option ℤ) (off nowMs : ℤ) (cap : Option Str) :
    Option Str :=
  match cap with
  | none => none
  | some c =>
    let target := trimStr c
    match calculateDaysUntilHoliday off nowMs target with
    | some days => some (dateCalcMsg off nowMs target days)
    | none =>
      match parse target with
      | some t =>
        some (dateCalcMsg2 off nowMs t (calculateDaysUntil off nowMs t))
      | none => none

/-- DateCalculator.formatDateContext (part_005 lines 60-102): the four
query patterns in order; a pattern whose match yields neither a holiday
nor a parseable date falls through to the next pattern. -/
def formatDateContext (parse : Str → Option ℤ) (off nowMs : ℤ)
    (query : Str) : Option Str :=
  match tryPattern parse off nowMs (firstSome matchDays1At query) with
  | some s => some s
  | none =>
    match tryPattern parse off nowMs (firstSome matchWhenIsAt query) with
    | some s => some s
    | none =>
      match tryPattern parse off nowMs (firstSome matchDays3At query) with
      | some s => some s
      | none => tryPattern parse off nowMs (firstSome matchHowLongAt query)

/-- day of week of an epoch day number, 0 = Sunday (epoch day 0,
1970-01-01, was a Thursday). -/
def weekdayOfDay (d : ℤ) : ℤ := (d + 4).emod 7

/-- English weekday names indexed from Sunday. -/
def weekdayName (w : ℤ) : Str :=
  if w = 0 then "Sunday".toList else if w = 1 then "Monday".toList
  else if w = 2 then "Tuesday".toList else if w = 3 then "Wednesday".toList
  else if w = 4 then "Thursday".toList else if w = 5 then "Friday".toList
  else "Saturday".toList

/-- `toLocaleDateString("en-US", {weekday: long, year: numeric,
month: long, day: numeric})` of the local instant. -/
def fmtWeekdayCivil (off ms : ℤ) : Str :=
  weekdayName (weekdayOfDay (localDay off ms)) ++ (", ".toList) ++
    fmtCivil (localCivil off ms)

end DateCalculator

/- ===== ContextBuilder (src/src/services/conversation/conversationManager.ts,
lines 207-417) ===== -/

namespace ContextBuilder

/-- `<l1>\s+<l2>\s+<l3>` indicator (each `\s+` run is followed by a
non-whitespace literal, so greedy matching is exact). -/
def litWsLitWsLit (l1 l2 l3 : Str) (text : Str) : Bool :=
  anySuffix (fun s =>
    ((pLit l1 s).bind (pClass1 isSpaceCh) |>.bind (pLit l2) |>.bind
      (pClass1 isSpaceCh) |>.bind (pLit l3)).isSome) text

/-- `/got\s+your\s+back/i` (conversationManager.ts line 315). -/
def gotYourBack (m : Str) : Bool :=
  litWsLitWsLit ("got".toList) ("your".toList) ("back".toList) m

/-- `/why\s+you\s+say(ing)?.*about/i` (conversationManager.ts line 317):
after `say`, an `about` later in the same line subsumes both branches of
the optional `(ing)?` group. -/
def whySayAbout (m : Str) : Bool :=
  anySuffix (fun s =>
    match (pLit ("why".toList) s).bind (pClass1 isSpaceCh) |>.bind
        (pLit ("you".toList)) |>.bind (pClass1 isSpaceCh) |>.bind
        (pLit ("say".toList)) with
    | some r => containsSub ("about".toList) (r.takeWhile (fun c => c ≠ '\n'))
    | none => false) m

/-- the seven defense regexes of ContextBuilder.hasDefensePattern
(conversationManager.ts lines 311-319); the first, second, third, fifth
and seventh are the same regex texts as in ConversationAnalyzer, whose
matchers are reused.  All patterns carry `/i`, which equals matching the
lowercased content. -/
def defensePatternTest (m : Str) : Bool :=
  ConversationAnalyzer.talkSmack m || containsSub ("defend".toList) m ||
  ConversationAnalyzer.stickUpFor m || gotYourBack m ||
  ConversationAnalyzer.leaveAlone m || whySayAbout m ||
  ConversationAnalyzer.whatProblemWith m

/-- ContextBuilder.hasDefensePattern (conversationManager.ts lines
309-328): some user message matches some defense pattern. -/
def hasDefensePattern (messages : List ConversationMessage) : Bool :=
  messages.any (fun msg =>
    decide (msg.role = Role.user) &&
      defensePatternTest (toLowerStr msg.content))

/-- the criticism vocabulary of hasCriticismAboutBot (conversationManager.ts
lines 332-341; no `worst`, unlike ConversationAnalyzer.findPriorCriticism). -/
def criticismWords : List Str :=
  ["dumb".toList, "stupid".toList, "useless".toList, "sucks".toList,
   "bad".toList, "terrible".toList, "awful".toList, "lame".toList]

/-- ContextBuilder.hasCriticismAboutBot (conversationManager.ts lines
330-351). -/
def hasCriticismAboutBot (messages : List ConversationMessage) : Bool :=
  messages.any (fun msg =>
    (["snurbo".toList, "bot".toList].any
      (fun n => containsSub n (toLowerStr msg.content))) &&
    (criticismWords.any (fun w => containsSub w (toLowerStr msg.content))))

/-- the banter regexes of hasPlayfulBanter (conversationManager.ts lines
354-360), on the lowercased content (`/i`). -/
def banterTest (m : Str) : Bool :=
  containsSub ("lol".toList) m || containsSub ("lmao".toList) m ||
  containsSub ("haha".toList) m ||
  litWsLit ("just".toList) ("kidding".toList) m ||
  litWsLit ("just".toList) ("joking".toList) m ||
  litWsLit ("just".toList) ("messing".toList) m ||
  litWsLitWsLit ("you".toList) ("know".toList) ("i".toList) m ||
  litWsLit ("come".toList) ("on".toList) m ||
  litWsLit ("for".toList) ("real".toList) m

/-- ContextBuilder.hasPlayfulBanter (conversationManager.ts lines
353-364): no role filter here. -/
def hasPlayfulBanter (messages : List ConversationMessage) : Bool :=
  messages.any (fun msg => banterTest (toLowerStr msg.content))

/-- ContextBuilder.detectEmotionalTone (conversationManager.ts lines
366-384): the last two user messages, lowercased and joined with a
space. -/
def detectEmotionalTone (messages : List ConversationMessage) :
    Option Str :=
  let userMessages := messages.filter (fun m => decide (m.role = Role.user))
  if userMessages.length = 0 then none
  else
    let recentContent := List.intercalate (" ".toList)
      ((jsSliceNeg 2 userMessages).map (fun m => toLowerStr m.content))
    if ["angry".toList, "mad".toList, "pissed".toList, "annoyed".toList].any
        (fun w => wordBoundedMatch w recentContent) then
      some ("confrontational".toList)
    else if ["love".toList, "awesome".toList, "great".toList,
        "amazing".toList].any (fun w => wordBoundedMatch w recentContent) then
      some ("positive".toList)
    else if ["tired".toList, "exhausted".toList, "done".toList].any
        (fun w => wordBoundedMatch w recentContent) then
      some ("weary".toList)
    else if containsSub ("!!".toList) recentContent ||
        containsSub ("??".toList) recentContent then
      some ("intense".toList)
    else none

/-- ContextBuilder.detectConversationPatterns (conversationManager.ts
lines 283-307). -/
def detectConversationPatterns (messages : List ConversationMessage) :
    List Str :=
  (if hasDefensePattern messages then
    ["The user is defending or supporting you in the conversation".toList]
   else []) ++
  (if hasCriticismAboutBot messages then
    ["There was recent criticism or negative comments about you (SNURBO)".toList]
   else []) ++
  (if hasPlayfulBanter messages then
    ["The conversation has a playful, bantering tone".toList]
   else []) ++
  (match detectEmotionalTone messages with
   | some emotion => [("The conversation tone is ".toList) ++ emotion]
   | none => [])

/-- ContextBuilder.analyzeConversationContext (conversationManager.ts
lines 270-281). -/
def analyzeConversationContext (ctx : ConversationContext) : Option Str :=
  let recentMessages := jsSliceNeg 6 ctx.messages
  if recentMessages.length < 2 then none
  else
    let patterns := detectConversationPatterns recentMessages
    if patterns.length = 0 then none
    else some (List.intercalate (". ".toList) patterns)

/-- ContextBuilder.buildSystemPrompt (conversationManager.ts lines
208-268): base persona, current date/time (with reference-point guidance),
conversation-context hints, style addendum, code addendum, user name and
interests.  `timeStr` is the host-locale `toLocaleTimeString("en-US",
{hour, minute, timeZoneName})` rendering, treated as an oracle; the
`timestamp` (toISOString) field of the source is computed but never read,
so it is not materialized. -/
def buildSystemPrompt (off nowMs : ℤ) (timeStr : Str)
    (ctx : ConversationContext) (requiresCode : Bool) : Str :=
  let dateStr := DateCalculator.fmtWeekdayCivil off nowMs
  let p1 := systemPrompts.base ++
    ("\n\nCurrent date and time: ".toList) ++ dateStr ++ (" at ".toList) ++
    timeStr ++
    ("\nToday is ".toList) ++
    DateCalculator.weekdayName
      (DateCalculator.weekdayOfDay (DateCalculator.localDay off nowMs)) ++
    (".".toList) ++
    ("\nWhen calculating days between dates, always use the current date (".toList) ++
    dateStr ++ (") as your reference point.".toList) ++
    ("\nFor date calculations, be precise: if today is June 30th and someone asks about July 4th, that".toList) ++
    apos :: ("s exactly 4 days from now.".toList)
  let p2 :=
    match analyzeConversationContext ctx with
    | some cc => p1 ++ ("\n\nConversation context: ".toList) ++ cc
    | none => p1
  let p3 :=
    match ctx.userProfile.communicationStyle with
    | CommStyle.technical => p2 ++ ("\n\n".toList) ++ systemPrompts.technical
    | CommStyle.formal => p2
    | CommStyle.casual => p2 ++ ("\n\n".toList) ++ systemPrompts.casual
  let p4 :=
    if requiresCode then p3 ++ ("\n\n".toList) ++ systemPrompts.code else p3
  let p5 :=
    if ctx.userProfile.name ≠ [] then
      p4 ++ ("\n\nUser".toList) ++ apos :: ("s name: ".toList) ++
        ctx.userProfile.name
    else p4
  if ctx.userProfile.preferredTopics.length > 0 then
    p5 ++ ("\nUser".toList) ++ apos :: ("s interests: ".toList) ++
      List.intercalate (", ".toList) ctx.userProfile.preferredTopics
  else p5

/-- one `{role, content}` entry of the outgoing message list. -/
structure ChatMessage where
  role : Str
  content : Str
  deriving Repr, DecidableEq

/-- JS role strings of the history entries. -/
def roleStr : Role → Str
  | Role.user => "user".toList
  | Role.assistant => "assistant".toList

/-- ContextBuilder.buildMessages (conversationManager.ts lines 387-416):
the system block, the last 6 history turns verbatim, then the current
user message — enhanced with the DateCalculator annotation in brackets
when formatDateContext produces one. -/
def buildMessages (parse : Str → Option ℤ) (off nowMs : ℤ)
    (ctx : ConversationContext) (currentMessage systemPrompt : Str) :
    List ChatMessage :=
  let history := (jsSliceNeg 6 ctx.messages).map
    (fun m => ChatMessage.mk (roleStr m.role) m.content)
  let enhancedMessage :=
    match DateCalculator.formatDateContext parse off nowMs currentMessage with
    | some dc => currentMessage ++ ("\n\n[".toList) ++ dc ++ ("]".toList)
    | none => currentMessage
  (ChatMessage.mk ("system".toList) systemPrompt :: history) ++
    [ChatMessage.mk ("user".toList) enhancedMessage]

end ContextBuilder

namespace AIService

/-- splice an apostrophe between two halves (several source literals
contain apostrophes). -/
def sq (a b : String) : Str := a.toList ++ apos :: b.toList

/-- the canned support acknowledgements (part_004 lines 334-342). -/
def supportResponses : List Str :=
  ["Aww, thanks for having my back!".toList,
   sq "You" "re the best! Thanks for sticking up for me",
   "My hero! Thanks for the support!".toList,
   "That means a lot, thanks for defending me!".toList,
   "Appreciate you having my back there!".toList,
   sq "Aw thanks! You" "re too kind sticking up for me",
   sq "That" "s so sweet of you to defend me!"]

/-- the canned unavailable-service responses (part_004 lines 577-583). -/
def serviceUnavailableResponses : List Str :=
  ["My AI brain is offline right now 🤖💭".toList,
   "Ollama service seems to be taking a nap... try again in a bit?".toList,
   sq "Technical difficulties on my end - the AI service isn" "t responding",
   "Connection to my language model failed. Is Ollama running?".toList,
   sq "Can" "t reach my AI backend right now. Try again later?"]

/-- the fallback responses (part_004 lines 617-624). -/
def fallbacks : List Str :=
  ["brain.exe stopped working".toList,
   "connection timeout, try again?".toList,
   "having some lag here".toList,
   "processing... please wait".toList,
   "system overload, give me a sec".toList,
   "my circuits are crossed lol".toList]

/-- the quick-response table (part_004 lines 588-606). -/
def quickResponses : List (Str × List Str) :=
  [(("yo".toList), ["yo".toList, "hey".toList, sq "what" "s good"]),
   (("hey".toList), ["hey".toList, "yo".toList, sq "what" "s up"]),
   (("hi".toList), ["hey".toList, "hi".toList, "yo".toList]),
   (("hello".toList), ["hey".toList, "hello".toList, "yo".toList]),
   (("thanks".toList),
     ["np".toList, "no worries".toList, "anytime".toList, "you got it".toList]),
   (("thank you".toList),
     ["no problem".toList, "anytime".toList, "np".toList, "sure thing".toList]),
   (("lol".toList), ["lol".toList, "haha".toList, "lmao".toList]),
   (("lmao".toList), ["lmao".toList, "haha".toList, sq "that" "s funny"]),
   (("nice".toList), ["nice".toList, "cool".toList, "solid".toList]),
   (("cool".toList), ["cool".toList, "nice".toList, "yeah".toList]),
   (("bye".toList), ["later".toList, "see ya".toList, "peace out".toList]),
   (("gtg".toList), ["later".toList, "see ya".toList, "catch you later".toList]),
   (("brb".toList),
     ["alright".toList, "later".toList, "catch you in a bit".toList]),
   (("gm".toList), ["morning!".toList, "hey".toList, "good morning".toList]),
   (("gn".toList), ["night!".toList, "sleep well".toList, "later".toList]),
   (("good morning".toList),
     ["morning!".toList, "hey there".toList, "good morning".toList]),
   (("good night".toList),
     ["night!".toList, "sleep well".toList, "sweet dreams".toList])]

/-- AIService.getQuickResponse (part_004 lines 587-614). -/
def getQuickResponse (message : Str) (draw : ℚ) : Option Str :=
  match quickResponses.find? (fun p => decide (p.1 = message)) with
  | some p => some (ResponseProcessor.listPick p.2 draw)
  | none => none

/-- the per-request environment of generateResponse: current time, health
probe outcome, random draws, knowledge-service answers and backend
outcomes. -/
structure GenEnv where
  now : ℤ
  healthProbe : Bool
  availDraw : ℚ
  supportDraw : ℚ
  quickDraw : ℚ
  fallbackDraw : ℚ
  searchKnowledge : Bool
  knowledgeResult : Option Str
  outcomes : ℕ → Except OllamaError Str
  retryDraws : ℕ → ℚ
  procRand : ℚ
  procEmoji : ℚ
  tzOffset : ℤ
  timeStr : Str
  dateParse : Str → Option ℤ

/-- AIService.ensureOllamaHealth (part_004 lines 415-422): re-probe only
when the cached flag is older than 30s, else trust it. -/
def ensureOllamaHealth (env : GenEnv) (h : HealthState) : Bool × HealthState :=
  if env.now - h.lastHealthCheck > HEALTH_CHECK_INTERVAL then
    (env.healthProbe, ⟨env.healthProbe, env.now⟩)
  else (h.isOllamaHealthy, h)

/-- AIService.getServiceUnavailableResponse (part_004 lines 576-585). -/
def getServiceUnavailableResponse (env : GenEnv) : Str :=
  ResponseProcessor.listPick serviceUnavailableResponses env.availDraw

/-- AIService.getFallbackResponse (part_004 lines 616-626). -/
def getFallbackResponse (env : GenEnv) : Str :=
  ResponseProcessor.listPick fallbacks env.fallbackDraw

/-- AIService.handleAIError (part_004 lines 533-574). -/
def handleAIError (env : GenEnv) (model : Str) (e : OllamaError) : Str :=
  if e.isServiceError then
    match e.status with
    | some 503 =>
      "Looks like my brain is taking a coffee break ☕ (Ollama service unavailable)".toList
    | some 408 =>
      sq "That" "s taking longer than expected... try asking something simpler?"
    | some 404 =>
      ("Model ".toList) ++ apos :: (model ++ apos ::
        ((" seems to have wandered off. Check if it".toList) ++ apos ::
          ("s installed in Ollama.".toList)))
    | some 400 =>
      "Something went wrong with that request. Try rephrasing your message?".toList
    | _ =>
      "Having some technical difficulties right now. Give me a moment to sort things out.".toList
  else getFallbackResponse env

/-- result of one generateResponse request: the reply, the updated cache
and health flag, and how many backend generation calls were made. -/
structure GenResult where
  response : Str
  cache : Cache
  health : HealthState
  genCalls : ℕ

/-- AIService.generateResponse (part_004 lines 321-413): the health gate
runs FIRST, then the support shortcut, then knowledge search, cache
lookup, the quick-reply table and finally retried generation whose errors
map through handleAIError. -/
def generateResponse (env : GenEnv) (model message : Str)
    (ctx : ConversationContext) (requiresCode : Bool) (cache : Cache)
    (health : HealthState) : GenResult :=
  let hg := ensureOllamaHealth env health
  if hg.1 = false then
    ⟨getServiceUnavailableResponse env, cache, hg.2, 0⟩
  else if ConversationAnalyzer.shouldAcknowledgeSupport ctx.messages then
    let response := ResponseProcessor.listPick supportResponses env.supportDraw
    ⟨response, ResponseCache.set message ctx.userId response env.now cache,
      hg.2, 0⟩
  else
    let knowledgeContext : Str :=
      if env.searchKnowledge then
        match env.knowledgeResult with
        | some r => ("\n\nKnowledge Base Results:\n".toList) ++ r
        | none => []
      else []
    let lookup :=
      if requiresCode = false ∧ knowledgeContext = [] then
        ResponseCache.get message ctx.userId env.now cache
      else (none, cache)
    if (lookup.1.getD []) ≠ [] then ⟨lookup.1.getD [], lookup.2, hg.2, 0⟩
    else
      let quick :=
        if knowledgeContext = [] then
          getQuickResponse (trimStr (toLowerStr message)) env.quickDraw
        else none
      if (quick.getD []) ≠ [] ∧ requiresCode = false then
        ⟨quick.getD [],
          ResponseCache.set message ctx.userId (quick.getD []) env.now lookup.2,
          hg.2, 0⟩
      else
        let systemPrompt := ContextBuilder.buildSystemPrompt env.tzOffset
          env.now env.timeStr ctx requiresCode
        let enhancedMessage := message ++ knowledgeContext
        let _msgs := ContextBuilder.buildMessages env.dateParse env.tzOffset
          env.now ctx enhancedMessage systemPrompt
        let rr := callOllamaWithRetry env.outcomes env.retryDraws 2 hg.2
        match rr.result with
        | Except.ok response =>
          let processed := ResponseProcessor.process response requiresCode
            env.procRand env.procEmoji
          if requiresCode = false ∧ knowledgeContext = [] then
            ⟨processed,
              ResponseCache.set message ctx.userId processed env.now lookup.2,
              rr.health, 1⟩
          else ⟨processed, lookup.2, rr.health, 1⟩
        | Except.error e => ⟨handleAIError env model e, lookup.2, rr.health, 1⟩

end AIService

/- ===================== C4 theorems ====================================== -/

/-- the defense message of the C4 scenario. -/
def c4msg : Str := "leave snurbo alone".toList

/-- a one-turn conversation context whose latest user message defends the
bot. -/
def c4ctx : ConversationContext :=
  ⟨("77".toList), ("ch".toList), [⟨c4msg, Role.user, 0, ("77".toList)⟩], 0,
    ⟨("pat".toList), [], CommStyle.casual, 0⟩⟩

/-- the defense score of the scenario message is the `/leave.*alone/`
weight 0.7. -/
theorem c4_defenseScore :
    ConversationAnalyzer.defenseScore (toLowerStr c4msg) = 7 / 10 := by
  have h1 : ConversationAnalyzer.talkSmack (toLowerStr c4msg) = false := by decide
  have h2 : ConversationAnalyzer.messWith (toLowerStr c4msg) = false := by decide
  have h3 : ConversationAnalyzer.sayAbout (toLowerStr c4msg) = false := by decide
  have h4 : containsSub ("defend".toList) (toLowerStr c4msg) = false := by decide
  have h5 : ConversationAnalyzer.stickUpFor (toLowerStr c4msg) = false := by decide
  have h6 : ConversationAnalyzer.leaveAlone (toLowerStr c4msg) = true := by decide
  have h7 : ConversationAnalyzer.whatProblemWith (toLowerStr c4msg) = false := by
    decide
  have h8 : ConversationAnalyzer.backOff (toLowerStr c4msg) = false := by decide
  unfold ConversationAnalyzer.defenseScore
  rw [h1, h2, h3, h4, h5, h6, h7, h8]
  simp only [List.foldl_cons, List.foldl_nil, Bool.false_eq_true, if_false,
    if_true]
  exact max_eq_right (by norm_num)

/-- the scenario conversation triggers the support acknowledgement. -/
theorem c4_support_eval :
    ConversationAnalyzer.shouldAcknowledgeSupport c4ctx.messages = true := by
  have hlast : ((jsSliceNeg 4 c4ctx.messages).filter
      (fun m => decide (m.role = Role.user))).getLast? =
      some ⟨c4msg, Role.user, 0, ("77".toList)⟩ := by decide
  have hbot : ConversationAnalyzer.botReferences.any
      (fun r => containsSub r (toLowerStr c4msg)) = true := by decide
  simp only [ConversationAnalyzer.shouldAcknowledgeSupport,
    ConversationAnalyzer.analyzeDefensiveContext, hlast]
  rw [c4_defenseScore, hbot]
  rw [decide_eq_true (show ((7 : ℚ) / 10) > 1 / 2 by norm_num),
    decide_eq_true (show ((7 : ℚ) / 10) > 6 / 10 by norm_num)]
  rfl

/-- a zero draw always picks the first list entry. -/
theorem pickIdx_zero (n : ℕ) : ResponseProcessor.pickIdx 0 n = 0 := by
  unfold ResponseProcessor.pickIdx
  norm_num

/-- an environment whose backend is down: the cached health flag is stale
by only 10 seconds, so the gate trusts it. -/
def c4envDown : AIService.GenEnv :=
  ⟨10000, true, 0, 0, 0, 0, false, none, fun _ => Except.ok [], fun _ => 0,
    1, 0, 0, [], fun _ => none⟩

/-- C4 counterexample: the health gate runs BEFORE the support shortcut
(the spec puts the shortcut first): with an unhealthy cached flag, a
conversation whose latest user turn defends the bot gets a canned
unavailable-service reply, not one of the thank-you acknowledgements (and
no backend call). -/
theorem support_acknowledgement_counterexample :
    ConversationAnalyzer.shouldAcknowledgeSupport c4ctx.messages = true ∧
    (AIService.generateResponse c4envDown ("m".toList) c4msg c4ctx false []
      ⟨false, 0⟩).response ∉ AIService.supportResponses ∧
    (AIService.generateResponse c4envDown ("m".toList) c4msg c4ctx false []
      ⟨false, 0⟩).genCalls = 0 := by
  have hh : AIService.ensureOllamaHealth c4envDown ⟨false, 0⟩ =
      (false, ⟨false, 0⟩) := by decide
  have hresp : AIService.getServiceUnavailableResponse c4envDown =
      AIService.serviceUnavailableResponses.headD [] := by
    unfold AIService.getServiceUnavailableResponse ResponseProcessor.listPick
    rw [show AIService.GenEnv.availDraw c4envDown = 0 from rfl, pickIdx_zero]
    rfl
  have hgen : AIService.generateResponse c4envDown ("m".toList) c4msg c4ctx
      false [] ⟨false, 0⟩ =
      ⟨AIService.getServiceUnavailableResponse c4envDown, [], ⟨false, 0⟩, 0⟩ := by
    simp only [AIService.generateResponse, hh]
    rfl
  refine ⟨c4_support_eval, ?_, ?_⟩
  · rw [hgen, hresp]
    decide
  · rw [hgen]

/-- membership of a random pick when the draw lies in `[0, 1)`. -/
theorem listPick_mem (l : List Str) (r : ℚ) (h0 : 0 ≤ r) (h1 : r < 1)
    (hne : l ≠ []) : ResponseProcessor.listPick l r ∈ l := by
  unfold ResponseProcessor.listPick
  have hlen : 0 < l.length := List.length_pos.mpr hne
  have hlt : ResponseProcessor.pickIdx r l.length < l.length := by
    unfold ResponseProcessor.pickIdx
    have hq : (0 : ℚ) < (l.length : ℚ) := by exact_mod_cast hlen
    have hmul : r * (l.length : ℚ) < (l.length : ℚ) := by nlinarith
    have hfl : Int.floor (r * (l.length : ℚ)) < (l.length : ℤ) := by
      rw [Int.floor_lt]
      push_cast
      exact hmul
    omega
  rw [List.getD_eq_getElem l [] hlt]
  exact List.getElem_mem hlt

/-- C4 (amended): when the cached health gate passes, a conversation whose
latest user turn defends the bot is answered with one of the canned
thank-you acknowledgements, the reply is cached for the user, and no
backend generation call is made.  (The code runs the health gate before
the support shortcut; the spec has them in the opposite order.) -/
theorem support_acknowledgement_amended (env : AIService.GenEnv)
    (model message : Str) (ctx : ConversationContext) (cache : Cache)
    (health : HealthState)
    (hsup : ConversationAnalyzer.shouldAcknowledgeSupport ctx.messages = true)
    (hhealth : (AIService.ensureOllamaHealth env health).1 = true)
    (hd0 : 0 ≤ env.supportDraw) (hd1 : env.supportDraw < 1) :
    (AIService.generateResponse env model message ctx false cache
      health).response ∈ AIService.supportResponses ∧
    (AIService.generateResponse env model message ctx false cache
      health).genCalls = 0 ∧
    (AIService.generateResponse env model message ctx false cache
      health).cache = ResponseCache.set message ctx.userId
        ((AIService.generateResponse env model message ctx false cache
          health).response) env.now cache := by
  have hbr : AIService.generateResponse env model message ctx false cache
      health =
      ⟨ResponseProcessor.listPick AIService.supportResponses env.supportDraw,
        ResponseCache.set message ctx.userId
          (ResponseProcessor.listPick AIService.supportResponses
            env.supportDraw) env.now cache,
        (AIService.ensureOllamaHealth env health).2, 0⟩ := by
    simp only [AIService.generateResponse]
    rw [if_neg (by rw [hhealth]; simp), if_pos hsup]
  rw [hbr]
  exact ⟨listPick_mem AIService.supportResponses env.supportDraw hd0 hd1
    (by decide), rfl, rfl⟩

/-- an environment whose health probe succeeds (the cached flag is 50s
old, so the gate re-probes). -/
def c4envUp : AIService.GenEnv :=
  ⟨50000, true, 0, 0, 0, 0, false, none, fun _ => Except.ok [], fun _ => 0,
    1, 0, 0, [], fun _ => none⟩

/-- the amended C4 property at the concrete defending conversation. -/
theorem support_acknowledgement_amended_witness :
    (AIService.generateResponse c4envUp ("m".toList) c4msg c4ctx false []
      ⟨false, 0⟩).response ∈ AIService.supportResponses ∧
    (AIService.generateResponse c4envUp ("m".toList) c4msg c4ctx false []
      ⟨false, 0⟩).genCalls = 0 ∧
    (AIService.generateResponse c4envUp ("m".toList) c4msg c4ctx false []
      ⟨false, 0⟩).cache = ResponseCache.set c4msg c4ctx.userId
        ((AIService.generateResponse c4envUp ("m".toList) c4msg c4ctx false []
          ⟨false, 0⟩).response) c4envUp.now [] :=
  support_acknowledgement_amended c4envUp ("m".toList) c4msg c4ctx []
    ⟨false, 0⟩ c4_support_eval (by decide) (by norm_num [c4envUp])
    (by norm_num [c4envUp])


/- ===================== C9 theorems ====================================== -/

/-- a whole number of days ceil-divides exactly. -/
theorem ceil_day_mul (k : ℤ) :
    Int.ceil (((k * msPerDay : ℤ) : ℚ) / (86400000 : ℚ)) = k := by
  have h : (((k * msPerDay : ℤ) : ℚ) / (86400000 : ℚ)) = (k : ℚ) := by
    rw [show msPerDay = 86400000 from rfl]
    push_cast
    field_simp
  rw [h, Int.ceil_intCast]

/-- calculateDaysUntil is the difference of the local civil day numbers:
the ceil rounds an exact multiple of a day. -/
theorem calculateDaysUntil_eq (off n t : ℤ) :
    DateCalculator.calculateDaysUntil off n t =
      DateCalculator.daysFromCivil (DateCalculator.localCivil off t).1
        (DateCalculator.localCivil off t).2.1
        (DateCalculator.localCivil off t).2.2 -
      DateCalculator.daysFromCivil (DateCalculator.localCivil off n).1
        (DateCalculator.localCivil off n).2.1
        (DateCalculator.localCivil off n).2.2 := by
  unfold DateCalculator.calculateDaysUntil DateCalculator.dayStartMs
  rw [show ∀ A B : ℤ, (A * msPerDay - off * 60000) -
      (B * msPerDay - off * 60000) = (A - B) * msPerDay from fun A B => by ring]
  exact ceil_day_mul _

/-- civilFromDays on a day number written as era and a July-4 day-of-era
recovers the civil date. -/
theorem civilFromDays_july4_spec (z q s : ℤ)
    (hz : z = q * 146097 + (365 * s + s / 4 - s / 100 + 125) - 719468)
    (hs0 : 0 ≤ s) (hs1 : s < 400) :
    DateCalculator.civilFromDays z = (q * 400 + s, 7, 4) := by
  subst hz
  simp only [DateCalculator.civilFromDays]
  rw [show ∀ a : ℤ, a.fdiv 146097 = a / 146097 from
      fun a => Int.fdiv_eq_ediv a (by norm_num),
    show ∀ a : ℤ, a.fdiv 1460 = a / 1460 from
      fun a => Int.fdiv_eq_ediv a (by norm_num),
    show ∀ a : ℤ, a.fdiv 36524 = a / 36524 from
      fun a => Int.fdiv_eq_ediv a (by norm_num),
    show ∀ a : ℤ, a.fdiv 146096 = a / 146096 from
      fun a => Int.fdiv_eq_ediv a (by norm_num),
    show ∀ a : ℤ, a.fdiv 365 = a / 365 from
      fun a => Int.fdiv_eq_ediv a (by norm_num),
    show ∀ a : ℤ, a.fdiv 4 = a / 4 from
      fun a => Int.fdiv_eq_ediv a (by norm_num),
    show ∀ a : ℤ, a.fdiv 100 = a / 100 from
      fun a => Int.fdiv_eq_ediv a (by norm_num),
    show ∀ a : ℤ, a.fdiv 153 = a / 153 from
      fun a => Int.fdiv_eq_ediv a (by norm_num),
    show ∀ a : ℤ, a.fdiv 5 = a / 5 from
      fun a => Int.fdiv_eq_ediv a (by norm_num)]
  have hera : (q * 146097 + (365 * s + s / 4 - s / 100 + 125) - 719468 +
      719468) / 146097 = q := by omega
  rw [hera]
  have hdoe : q * 146097 + (365 * s + s / 4 - s / 100 + 125) - 719468 +
      719468 - q * 146097 = 365 * s + s / 4 - s / 100 + 125 := by omega
  rw [hdoe]
  have hyoe : (365 * s + s / 4 - s / 100 + 125 -
      (365 * s + s / 4 - s / 100 + 125) / 1460 +
      (365 * s + s / 4 - s / 100 + 125) / 36524 -
      (365 * s + s / 4 - s / 100 + 125) / 146096) / 365 = s := by omega
  rw [hyoe]
  have hdoy : 365 * s + s / 4 - s / 100 + 125 -
      (365 * s + s / 4 - s / 100) = 125 := by omega
  rw [hdoy]
  have hmp : ((5 : ℤ) * 125 + 2) / 153 = 4 := by decide
  rw [hmp]
  rw [if_pos (by norm_num : (4 : ℤ) < 10)]
  rw [if_neg (by norm_num : ¬ ((4 : ℤ) + 3 ≤ 2))]
  have hd : (125 : ℤ) - (153 * 4 + 2) / 5 + 1 = 4 := by decide
  rw [hd, show (4 : ℤ) + 3 = 7 from by norm_num, add_comm s (q * 400)]

/-- the calendar roundtrip at July 4 of any year. -/
theorem civil_roundtrip_july4 (y : ℤ) :
    DateCalculator.civilFromDays (DateCalculator.daysFromCivil y 7 4) =
      (y, 7, 4) := by
  have hdf : DateCalculator.daysFromCivil y 7 4 =
      (y / 400) * 146097 + (365 * (y - y / 400 * 400) +
        (y - y / 400 * 400) / 4 - (y - y / 400 * 400) / 100 + 125) -
        719468 := by
    simp only [DateCalculator.daysFromCivil]
    rw [if_neg (by norm_num : ¬ (7 : ℤ) ≤ 2),
      if_pos (by norm_num : (2 : ℤ) < 7),
      show ∀ a : ℤ, a.fdiv 400 = a / 400 from
        fun a => Int.fdiv_eq_ediv a (by norm_num),
      show ∀ a : ℤ, a.fdiv 4 = a / 4 from
        fun a => Int.fdiv_eq_ediv a (by norm_num),
      show ∀ a : ℤ, a.fdiv 100 = a / 100 from
        fun a => Int.fdiv_eq_ediv a (by norm_num),
      show ∀ a : ℤ, a.fdiv 5 = a / 5 from
        fun a => Int.fdiv_eq_ediv a (by norm_num)]
    omega
  rw [hdf, civilFromDays_july4_spec _ (y / 400) (y - y / 400 * 400) rfl
    (by omega) (by omega)]
  have hy : y / 400 * 400 + (y - y / 400 * 400) = y := by ring
  rw [hy]

/-- July 4 is four days after June 30 in every year. -/
theorem july4_minus_june30 (y : ℤ) :
    DateCalculator.daysFromCivil y 7 4 -
      DateCalculator.daysFromCivil y 6 30 = 4 := by
  simp only [DateCalculator.daysFromCivil]
  rw [if_neg (by norm_num : ¬ (7 : ℤ) ≤ 2),
    if_pos (by norm_num : (2 : ℤ) < 7),
    if_neg (by norm_num : ¬ (6 : ℤ) ≤ 2),
    if_pos (by norm_num : (2 : ℤ) < 6)]
  simp only [show ∀ a : ℤ, a.fdiv 400 = a / 400 from
      fun a => Int.fdiv_eq_ediv a (by norm_num),
    show ∀ a : ℤ, a.fdiv 4 = a / 4 from
      fun a => Int.fdiv_eq_ediv a (by norm_num),
    show ∀ a : ℤ, a.fdiv 100 = a / 100 from
      fun a => Int.fdiv_eq_ediv a (by norm_num),
    show ∀ a : ℤ, a.fdiv 5 = a / 5 from
      fun a => Int.fdiv_eq_ediv a (by norm_num)]
  omega

/-- the local day of a UTC civil midnight in a timezone at or ahead of
UTC (offset within one day) is that same civil day. -/
theorem localDay_utc_midnight (off d : ℤ) (h0 : 0 ≤ off) (h1 : off < 1440) :
    DateCalculator.localDay off (d * msPerDay) = d := by
  unfold DateCalculator.localDay
  rw [Int.fdiv_eq_ediv _ (by decide : (0 : ℤ) ≤ msPerDay),
    show msPerDay = 86400000 from rfl]
  omega

/-- the July-4 holiday lookup reports 4 days on any local June 30 when the
timezone is at or ahead of UTC. -/
theorem c9_holiday_amended (off nowMs Y : ℤ) (hoff0 : 0 ≤ off)
    (hoff1 : off < 1440)
    (hnow : DateCalculator.localCivil off nowMs = (Y, 6, 30)) :
    DateCalculator.calculateDaysUntilHoliday off nowMs ("july 4th".toList) =
      some 4 := by
  have hfind : DateCalculator.holidays.find?
      (fun p => decide (p.1 = trimStr (toLowerStr ("july 4th".toList)))) =
      some (("july 4th".toList), (0, 7, 4)) := by decide
  have hY : (DateCalculator.localCivil off nowMs).1 = Y := by rw [hnow]
  have hlc : DateCalculator.localCivil off
      (DateCalculator.daysFromCivil (Y + 0) 7 4 * msPerDay) = (Y, 7, 4) := by
    unfold DateCalculator.localCivil
    rw [show Y + 0 = Y from by ring,
      localDay_utc_midnight off _ hoff0 hoff1, civil_roundtrip_july4]
  have hdays : DateCalculator.calculateDaysUntil off nowMs
      (DateCalculator.daysFromCivil (Y + 0) 7 4 * msPerDay) = 4 := by
    rw [calculateDaysUntil_eq, hlc, hnow]
    exact july4_minus_june30 Y
  simp only [DateCalculator.calculateDaysUntilHoliday, hfind, hY, hdays]
  rw [if_neg (by norm_num : ¬ (4 : ℤ) < 0)]

/-- C9 (amended): a day-count query whose captured target is `july 4th`,
asked while the local civil date is June 30 of any year, is annotated with
exactly 4 days — PROVIDED the local timezone is at or ahead of UTC
(offset 0..1439 minutes east). -/
theorem july4_annotation_amended (parse : Str → Option ℤ) (off nowMs Y : ℤ)
    (q cap : Str) (hoff0 : 0 ≤ off) (hoff1 : off < 1440)
    (hnow : DateCalculator.localCivil off nowMs = (Y, 6, 30))
    (hq : DateCalculator.firstSome DateCalculator.matchDays1At q = some cap)
    (hcap : trimStr cap = "july 4th".toList) :
    DateCalculator.formatDateContext parse off nowMs q =
      some (DateCalculator.dateCalcMsg off nowMs ("july 4th".toList) 4) ∧
    endsWithStr (" to july 4th, there are exactly 4 days.".toList)
      (DateCalculator.dateCalcMsg off nowMs ("july 4th".toList) 4) = true := by
  constructor
  · have hhol := c9_holiday_amended off nowMs Y hoff0 hoff1 hnow
    simp only [DateCalculator.formatDateContext, hq, DateCalculator.tryPattern,
      hcap, hhol]
  · have htail : (" to ".toList) ++ (("july 4th".toList) ++
        ((", there are exactly ".toList) ++ ((DateCalculator.intToStr 4) ++
          (" days.".toList)))) =
        (" to july 4th, there are exactly 4 days.".toList) := by decide
    simp only [DateCalculator.dateCalcMsg, List.append_assoc]
    rw [htail, ← List.append_assoc]
    exact endsWithStr_append_self _ _

/-- local noon of June 30, 2026, in a timezone 300 minutes west of UTC. -/
def c9now : ℤ :=
  DateCalculator.daysFromCivil 2026 6 30 * msPerDay + 61200000

/-- C9 counterexample: the same query on a local June 30 in a timezone
west of UTC is annotated with 3 days, not 4 — the holiday template
`${year}-07-04` parses as UTC midnight, whose local civil date is July 3
for negative offsets. -/
theorem july4_annotation_counterexample :
    DateCalculator.localCivil (-300) c9now = (2026, 6, 30) ∧
    DateCalculator.formatDateContext (fun _ => none) (-300) c9now
      ("how many days until july 4th".toList) =
      some (DateCalculator.dateCalcMsg (-300) c9now ("july 4th".toList) 3) ∧
    containsSub ("exactly 3 days.".toList)
      (DateCalculator.dateCalcMsg (-300) c9now ("july 4th".toList) 3) = true ∧
    containsSub ("exactly 4 days".toList)
      (DateCalculator.dateCalcMsg (-300) c9now ("july 4th".toList) 3) = false := by
  have hfind : DateCalculator.holidays.find?
      (fun p => decide (p.1 = trimStr (toLowerStr ("july 4th".toList)))) =
      some (("july 4th".toList), (0, 7, 4)) := by decide
  have hY : (DateCalculator.localCivil (-300) c9now).1 = 2026 := by decide
  have hdays : DateCalculator.calculateDaysUntil (-300) c9now
      (DateCalculator.daysFromCivil ((2026 : ℤ) + 0) 7 4 * msPerDay) = 3 := by
    rw [calculateDaysUntil_eq]
    decide
  have hhol : DateCalculator.calculateDaysUntilHoliday (-300) c9now
      ("july 4th".toList) = some 3 := by
    simp only [DateCalculator.calculateDaysUntilHoliday, hfind, hY, hdays]
    rw [if_neg (by norm_num : ¬ (3 : ℤ) < 0)]
  have hq : DateCalculator.firstSome DateCalculator.matchDays1At
      ("how many days until july 4th".toList) =
      some ("july 4th".toList) := by decide
  refine ⟨by decide, ?_, by decide, by decide⟩
  simp only [DateCalculator.formatDateContext, hq, DateCalculator.tryPattern,
    show trimStr ("july 4th".toList) = "july 4th".toList from by decide, hhol]

/-- local noon of June 30, 2026 UTC. -/
def c9nowW : ℤ :=
  DateCalculator.daysFromCivil 2026 6 30 * msPerDay + 43200000

/-- the amended C9 property at UTC noon of June 30, 2026. -/
theorem july4_annotation_amended_witness :
    DateCalculator.formatDateContext (fun _ => none) 0 c9nowW
      ("how many days until july 4th".toList) =
      some (DateCalculator.dateCalcMsg 0 c9nowW ("july 4th".toList) 4) ∧
    endsWithStr (" to july 4th, there are exactly 4 days.".toList)
      (DateCalculator.dateCalcMsg 0 c9nowW ("july 4th".toList) 4) = true :=
  july4_annotation_amended (fun _ => none) 0 c9nowW 2026
    ("how many days until july 4th".toList) ("july 4th".toList)
    (by norm_num) (by norm_num) (by decide) (by decide) (by decide)
